import Mathlib

/-!
# Workload Allocation & Gap Analysis Engine — verification development

Shallow embedding of the staffing-report engine of the Teacher Information
System (`src/main.py`): the demand builder, teacher-profile builder, greedy
capacity allocator, hiring-gap resolver, report assembler
(`_build_reporting_context`, lines 193–842) and the class-mapping projector
(`_build_report_class_rows`, `_build_report_subject_catalog`,
`_build_report_class_allocation_data`, lines 845–1104).

Modelling conventions:
* Python `dict`s are embedded as insertion-ordered association lists
  (`List (κ × α)`); updating an existing key rewrites the first matching
  entry in place, inserting a fresh key appends at the end — exactly the
  observable `dict` semantics relied upon by the source.
* Python `int` hour values are embedded as `Int` at the input boundary and
  as `Nat` once the source has filtered them positive; every subtraction in
  the source occurs where the result is provably non-negative.
* `math.ceil(a / b)` and `round(x)` on float ratios are modelled exactly
  over the integers (`ceilDiv`, `pyRoundRatio`); float precision is not
  observable at the magnitudes involved.
* Python `set`s that the source only ever sorts, sums over, or tests
  membership in are embedded as deduplicated lists; all downstream uses are
  order-insensitive.
-/

namespace TIS

/-! ## Association lists (Python `dict` embedding) -/

/-- Lookup with default: `m.get(k, d)`. Finds the first entry with key `k`. -/
def alGet {κ α : Type} [BEq κ] (m : List (κ × α)) (k : κ) (d : α) : α :=
  match m.find? (fun p => p.1 == k) with
  | some p => p.2
  | none => d

/-- Lookup: `m.get(k)` returning `None` when absent. -/
def alGet? {κ α : Type} [BEq κ] (m : List (κ × α)) (k : κ) : Option α :=
  (m.find? (fun p => p.1 == k)).map (fun p => p.2)

/-- Key membership: `k in m`. -/
def alMem {κ α : Type} [BEq κ] (m : List (κ × α)) (k : κ) : Bool :=
  m.any (fun p => p.1 == k)

/-- `m[k] = v`: rewrite the first entry with key `k`, else append. -/
def alSet {κ α : Type} [BEq κ] : List (κ × α) → κ → α → List (κ × α)
  | [], k, v => [(k, v)]
  | p :: rest, k, v => if p.1 == k then (k, v) :: rest else p :: alSet rest k v

/-- `m.pop(k, None)`: drop entries with key `k`. -/
def alErase {κ α : Type} [BEq κ] (m : List (κ × α)) (k : κ) : List (κ × α) :=
  m.filter (fun p => !(p.1 == k))

/-- `m.setdefault(k, v)`. -/
def alSetdefault {κ α : Type} [BEq κ] (m : List (κ × α)) (k : κ) (v : α) :
    List (κ × α) :=
  if alMem m k then m else m ++ [(k, v)]

/-- The keys of the dict, in insertion order. -/
def alKeys {κ α : Type} (m : List (κ × α)) : List κ := m.map (fun p => p.1)

/-- `sum(m.values())`. -/
def sumValues {κ : Type} (m : List (κ × Nat)) : Nat := (m.map (fun p => p.2)).sum

section AListLemmas

variable {κ α : Type} [BEq κ] [LawfulBEq κ]

set_option linter.unusedSectionVars false

@[simp] theorem alGet_nil (k : κ) (d : α) : alGet ([] : List (κ × α)) k d = d := rfl

@[simp] theorem alGet_cons (p : κ × α) (rest : List (κ × α)) (k : κ) (d : α) :
    alGet (p :: rest) k d = if p.1 == k then p.2 else alGet rest k d := by
  by_cases h : (p.1 == k) = true <;> simp [alGet, List.find?, h]

@[simp] theorem alSet_nil (k : κ) (v : α) : alSet ([] : List (κ × α)) k v = [(k, v)] := rfl

@[simp] theorem alSet_cons (p : κ × α) (rest : List (κ × α)) (k : κ) (v : α) :
    alSet (p :: rest) k v =
      if p.1 == k then (k, v) :: rest else p :: alSet rest k v := rfl

@[simp] theorem alErase_nil (k : κ) : alErase ([] : List (κ × α)) k = [] := rfl

@[simp] theorem alErase_cons (p : κ × α) (rest : List (κ × α)) (k : κ) :
    alErase (p :: rest) k =
      if p.1 == k then alErase rest k else p :: alErase rest k := by
  by_cases h : (p.1 == k) = true <;> simp [alErase, List.filter_cons, h]

@[simp] theorem sumValues_nil : sumValues ([] : List (κ × Nat)) = 0 := rfl

@[simp] theorem sumValues_cons (p : κ × Nat) (rest : List (κ × Nat)) :
    sumValues (p :: rest) = p.2 + sumValues rest := by
  simp [sumValues]

theorem alGet_alSet_self (m : List (κ × α)) (k : κ) (v d : α) :
    alGet (alSet m k v) k d = v := by
  induction m with
  | nil => simp
  | cons p rest ih =>
    by_cases h : (p.1 == k) = true <;> simp [h, ih]

theorem alGet_alSet_ne (m : List (κ × α)) (k k' : κ) (v d : α) (h : k' ≠ k) :
    alGet (alSet m k v) k' d = alGet m k' d := by
  have hk' : (k == k') = false := by simpa using Ne.symm h
  induction m with
  | nil => simp [hk']
  | cons p rest ih =>
    by_cases hp : (p.1 == k) = true
    · have hp' : (p.1 == k') = false := by
        have : p.1 = k := by simpa using hp
        subst this; exact hk'
      simp [hp, hp', hk']
    · have hpf : (p.1 == k) = false := by simpa using hp
      by_cases hq : (p.1 == k') = true <;> simp [hpf, hq, ih]

theorem alGet_alErase_self (m : List (κ × α)) (k : κ) (d : α) :
    alGet (alErase m k) k d = d := by
  induction m with
  | nil => simp
  | cons p rest ih =>
    by_cases h : (p.1 == k) = true <;> simp [h, ih]

theorem alGet_alErase_ne (m : List (κ × α)) (k k' : κ) (d : α) (h : k' ≠ k) :
    alGet (alErase m k) k' d = alGet m k' d := by
  induction m with
  | nil => simp
  | cons p rest ih =>
    by_cases hp : (p.1 == k) = true
    · have hp' : (p.1 == k') = false := by
        have : p.1 = k := by simpa using hp
        subst this; simpa using Ne.symm h
      simp [hp, hp', ih]
    · have hpf : (p.1 == k) = false := by simpa using hp
      by_cases hq : (p.1 == k') = true <;> simp [hpf, hq, ih]

theorem alGet_of_not_mem (m : List (κ × α)) (k : κ) (d : α)
    (h : alMem m k = false) : alGet m k d = d := by
  induction m with
  | nil => rfl
  | cons p rest ih =>
    simp only [alMem, List.any_cons, Bool.or_eq_false_iff] at h
    simp [h.1, ih (by simpa [alMem] using h.2)]

/-- Incrementing one key's value raises `sumValues` by exactly the increment. -/
theorem sumValues_alSet_add (m : List (κ × Nat)) (k : κ) (a : Nat) :
    sumValues (alSet m k (alGet m k 0 + a)) = sumValues m + a := by
  induction m with
  | nil => simp
  | cons p rest ih =>
    by_cases h : (p.1 == k) = true
    · simp [h]; omega
    · have hf : (p.1 == k) = false := by simpa using h
      simp [hf, ih]; omega

theorem sumValues_alErase_le (m : List (κ × Nat)) (k : κ) :
    sumValues (alErase m k) ≤ sumValues m := by
  induction m with
  | nil => simp
  | cons p rest ih =>
    by_cases h : (p.1 == k) = true <;> simp [h] <;> omega

theorem sumValues_alSet_le (m : List (κ × Nat)) (k : κ) (v : Nat)
    (h : v ≤ alGet m k 0) : sumValues (alSet m k v) ≤ sumValues m := by
  induction m with
  | nil => simp at h ⊢; omega
  | cons p rest ih =>
    by_cases hp : (p.1 == k) = true
    · simp [hp] at h ⊢; omega
    · have hpf : (p.1 == k) = false := by simpa using hp
      simp [hpf] at h ⊢
      exact ih h

end AListLemmas

/-! ## Sorting by key (Python `sorted(l, key=...)` embedding) -/

/-- `a` precedes `b` when its sort key is `≤`. -/
def keyLE {α β : Type} (key : α → β) [LinearOrder β] (a b : α) : Prop :=
  key a ≤ key b

instance {α β : Type} (key : α → β) [LinearOrder β] : DecidableRel (keyLE key) :=
  fun a b => inferInstanceAs (Decidable (key a ≤ key b))

instance {α β : Type} (key : α → β) [LinearOrder β] : IsTotal α (keyLE key) :=
  ⟨fun a b => le_total (key a) (key b)⟩

instance {α β : Type} (key : α → β) [LinearOrder β] : IsTrans α (keyLE key) :=
  ⟨fun _ _ _ hab hbc => le_trans hab hbc⟩

/-- `sorted(l, key=key)` (ascending, by the totally ordered key). -/
def sortByKey {α β : Type} (key : α → β) [LinearOrder β] (l : List α) : List α :=
  List.insertionSort (keyLE key) l

theorem sortByKey_perm {α β : Type} (key : α → β) [LinearOrder β] (l : List α) :
    List.Perm (sortByKey key l) l :=
  List.perm_insertionSort _ l

theorem sortByKey_sorted {α β : Type} (key : α → β) [LinearOrder β] (l : List α) :
    (sortByKey key l).Sorted (keyLE key) :=
  List.sorted_insertionSort _ l

theorem sortByKey_head_min {α β : Type} (key : α → β) [LinearOrder β]
    {l : List α} {a : α} {rest : List α}
    (h : sortByKey key l = a :: rest) : ∀ b ∈ l, key a ≤ key b := by
  intro b hb
  have hmem : b ∈ sortByKey key l := ((sortByKey_perm key l).mem_iff).2 hb
  rw [h] at hmem
  rcases List.mem_cons.1 hmem with rfl | hbr
  · exact le_refl _
  · have := sortByKey_sorted key l
    rw [h] at this
    exact List.rel_of_sorted_cons this b hbr

theorem sortByKey_mem {α β : Type} (key : α → β) [LinearOrder β]
    {l : List α} {a : α} : a ∈ sortByKey key l ↔ a ∈ l :=
  (sortByKey_perm key l).mem_iff

/-! ## Input records (§6 of the engine boundary; `src/models.py`) -/

/-- `models.Subject`: one curriculum-subject record, already scoped to a
branch/year. `grade` is carried as the string the source feeds to
`_normalize_grade_label` (which stringifies the stored value). -/
structure Subject where
  subject_code : String
  subject_name : String
  weekly_hours : Int
  grade : String
deriving Repr, DecidableEq

/-- `models.PlanningSection`: a planned class section. -/
structure PlanningSection where
  grade_level : String
  section_name : String
  class_status : String
deriving Repr, DecidableEq

/-- `models.Teacher`. `max_hours`, `extra_hours_allowed` and
`extra_hours_count` are part of the record but — as the theorems below
make precise — are never read by the reporting engine. -/
structure Teacher where
  id : Nat
  teacher_id : String
  first_name : String
  middle_name : String
  last_name : String
  subject_code : String
  max_hours : Int
  extra_hours_allowed : Bool
  extra_hours_count : Int
deriving Repr, DecidableEq

/-- `models.TeacherSubjectAllocation`: a teacher→subject-code link. The DB
query at `main.py:294` materialises these rows; the engine receives them as
a list. -/
structure TeacherSubjectAllocation where
  teacher_id : Nat
  subject_code : String
deriving Repr, DecidableEq

/-! ## Python string/number primitives

The Python string methods the engine uses (`.strip()`, `.upper()`,
`.lower()`, `.split()`, `int(...)`, `round(...)`) are embedded as
executable functions over the character data. Case mapping is modelled for
ASCII (which is where Python and Unicode case mapping agree; no property
depends on non-ASCII case behaviour), whitespace is the ASCII whitespace
Lean's `Char.isWhitespace` recognises, and `round` is Python's exact
banker's rounding of a ratio (round half to even). -/

/-- `str.upper()` on one ASCII character. -/
def pyCharUpper (c : Char) : Char :=
  if 'a' ≤ c ∧ c ≤ 'z' then Char.ofNat (c.toNat - 32) else c

/-- `str.lower()` on one ASCII character. -/
def pyCharLower (c : Char) : Char :=
  if 'A' ≤ c ∧ c ≤ 'Z' then Char.ofNat (c.toNat + 32) else c

def pyStrUpper (s : String) : String := ⟨s.data.map pyCharUpper⟩

def pyStrLower (s : String) : String := ⟨s.data.map pyCharLower⟩

/-- `str.strip()`. -/
def pyStrTrim (s : String) : String :=
  ⟨((s.data.dropWhile Char.isWhitespace).reverse.dropWhile Char.isWhitespace).reverse⟩

/-- `str.split()` with no separator: the non-empty maximal runs of
non-whitespace characters. -/
def pySplitWsAux : List Char → List Char → List String
  | [], acc => if acc = [] then [] else [⟨acc.reverse⟩]
  | c :: cs, acc =>
    if Char.isWhitespace c then
      if acc = [] then pySplitWsAux cs []
      else ⟨acc.reverse⟩ :: pySplitWsAux cs []
    else pySplitWsAux cs (c :: acc)

def pySplitWs (s : String) : List String := pySplitWsAux s.data []

def digitsToNat? : List Char → Option Nat
  | [] => none
  | cs =>
    if cs.all Char.isDigit then
      some (cs.foldl (fun acc c => acc * 10 + (c.toNat - 48)) 0)
    else none

/-- `int(str)` on an already-stripped string: an optional sign followed by
decimal digits; anything else raises in Python, i.e. yields `none` here. -/
def parseInt? (s : String) : Option Int :=
  match s.data with
  | '-' :: rest => (digitsToNat? rest).map (fun n => -(Int.ofNat n))
  | '+' :: rest => (digitsToNat? rest).map Int.ofNat
  | cs => (digitsToNat? cs).map Int.ofNat

/-- Python `round(num / den)` for integer `num` and positive integer
`den`, computed exactly: round half to even. -/
def pyRoundRatio (num den : Int) : Int :=
  let q := num.fdiv den
  let r := num.fmod den
  if 2 * r < den then q
  else if den < 2 * r then q + 1
  else if q % 2 = 0 then q else q + 1

/-! ## Normalization helpers (`main.py:143–190`) -/

/-- `_normalize_grade_label` (`main.py:143`). Grades 0/K/KG/KINDERGARTEN
normalize to `"KG"`, 1–12 to their decimal string, everything else to `""`.
(Python's `int()` also accepts forms like `"+5"`; no property below depends
on such inputs.) -/
def normalizeGradeLabel (value : String) : String :=
  let cleaned := pyStrUpper (pyStrTrim value)
  if cleaned = "0" ∨ cleaned = "K" ∨ cleaned = "KG" ∨ cleaned = "KINDERGARTEN" then "KG"
  else
    match parseInt? cleaned with
    | some parsed => if 1 ≤ parsed ∧ parsed ≤ 12 then toString parsed else ""
    | none => ""

/-- `_grade_sort_key` (`main.py:156`): KG first, then numeric grades,
unparsable labels last (99). -/
def gradeSortKey (grade_label : String) : Int :=
  if grade_label = "KG" then 0
  else
    match parseInt? grade_label with
    | some n => n
    | none => 99

/-- `" ".join(str(s).split())`: collapse all whitespace runs. -/
def collapseWhitespace (s : String) : String :=
  String.intercalate " " (pySplitWs s)

/-- `_build_subject_identity` (`main.py:165`): (normalized key, display
label) from the subject name, falling back to the upper-cased code. -/
def buildSubjectIdentity (subject_name : String) (fallback_code : String) :
    String × String :=
  let cleaned_name := collapseWhitespace subject_name
  if cleaned_name ≠ "" then (pyStrLower cleaned_name, cleaned_name)
  else
    let cleaned_code := pyStrUpper (collapseWhitespace fallback_code)
    if cleaned_code ≠ "" then (pyStrLower cleaned_code, cleaned_code)
    else ("", "")

/-- `_build_teacher_display_name` (`main.py:177`). -/
def buildTeacherDisplayName (t : Teacher) : String :=
  let name_parts := [pyStrTrim t.first_name, pyStrTrim t.middle_name, pyStrTrim t.last_name]
  let full_name := pyStrTrim (String.intercalate " " (name_parts.filter (fun p => p ≠ "")))
  if full_name ≠ "" then full_name else "Teacher #" ++ toString t.id

/-- `_normalize_subject_family_key` (`main.py:189`). -/
def normalizeSubjectFamilyKey (value : String) : String :=
  pyStrLower (collapseWhitespace value)

/-! ## Engine configuration constants (`main.py:48–60`) -/

/-- `REPORT_STANDARD_MAX_HOURS` (`main.py:48`). -/
def REPORT_STANDARD_MAX_HOURS : Nat := 24

/-- `CROSS_SUBJECT_SUPPORT_RULES` (`main.py:49`): the static cross-subject
adjacency (dict of one-element sets, embedded as an association list). -/
def CROSS_SUBJECT_SUPPORT_RULES : List (String × List String) :=
  [("english", ["social studies english"]),
   ("arabic", ["social studies ksa"]),
   ("arbic", ["social studies ksa"])]

/-- `CROSS_SUBJECT_HIRING_ANCHOR_PRIORITY` (`main.py:54`). -/
def CROSS_SUBJECT_HIRING_ANCHOR_PRIORITY : List String :=
  ["english", "arabic", "arbic", "social studies english", "social studies ksa"]

/-- `math.ceil(a / b)` for non-negative integer `a` and positive `b`,
modelled exactly over `Nat` (the float detour in the source is exact for
all realistic magnitudes). -/
def ceilDiv (a b : Nat) : Nat := (a + b - 1) / b

/-! ## Demand Builder (`main.py:199–279`) -/

/-- The triple of per-grade section counters built at `main.py:199–217`:
total, current-status and new-status sections per normalized grade label. -/
structure SectionCounts where
  total : List (String × Nat)
  current : List (String × Nat)
  new : List (String × Nat)
deriving Repr, DecidableEq

/-- One iteration of the section-counting loop (`main.py:203–217`). -/
def countSectionsStep (acc : SectionCounts) (section_ : PlanningSection) :
    SectionCounts :=
  let grade_label := normalizeGradeLabel section_.grade_level
  if grade_label = "" then acc
  else
    let acc := { acc with
      total := alSet acc.total grade_label (alGet acc.total grade_label 0 + 1) }
    let status := pyStrLower (pyStrTrim section_.class_status)
    if status = "current" then
      { acc with
        current := alSet acc.current grade_label (alGet acc.current grade_label 0 + 1) }
    else if status = "new" then
      { acc with
        new := alSet acc.new grade_label (alGet acc.new grade_label 0 + 1) }
    else acc

/-- `main.py:203–217`: count sections per normalized grade, split by
status. Sections with unnormalizable grade are skipped. -/
def countSections (planning_sections : List PlanningSection) : SectionCounts :=
  planning_sections.foldl countSectionsStep ⟨[], [], []⟩

/-- One value of `subject_demand_map` (`main.py:266–273`). `grades` is the
Python set, embedded as a deduplicated insertion-ordered list. -/
structure DemandEntry where
  subject_name : String
  required_hours : Nat
  required_current_hours : Nat
  required_new_hours : Nat
  grades : List String
deriving Repr, DecidableEq

/-- `main.py:229–279`: accumulate `subject_demand_map`, keyed by subject
identity, summing across subjects that share an identity. Subjects with
unnormalizable grade, non-positive weekly hours, no sections at their
grade, or an empty identity key are skipped. -/
def buildSubjectDemandMapStep (counts : SectionCounts)
    (m : List (String × DemandEntry)) (subject : Subject) :
    List (String × DemandEntry) :=
  let grade_label := normalizeGradeLabel subject.grade
  if grade_label = "" then m
  else if subject.weekly_hours ≤ 0 then m
  else
    let weekly_hours := subject.weekly_hours.toNat
    let sections_count := alGet counts.total grade_label 0
    if sections_count = 0 then m
    else
      let current_sections_count := alGet counts.current grade_label 0
      let new_sections_count := alGet counts.new grade_label 0
      let idp := buildSubjectIdentity subject.subject_name subject.subject_code
      let subject_key := idp.1
      let subject_label := idp.2
      if subject_key = "" then m
      else
        let required_hours := weekly_hours * sections_count
        let required_current_hours := weekly_hours * current_sections_count
        let required_new_hours := weekly_hours * new_sections_count
        let entry := alGet m subject_key
          ⟨subject_label, 0, 0, 0, []⟩
        alSet m subject_key
          { entry with
            required_hours := entry.required_hours + required_hours,
            required_current_hours := entry.required_current_hours + required_current_hours,
            required_new_hours := entry.required_new_hours + required_new_hours,
            grades := if grade_label ∈ entry.grades then entry.grades
                      else entry.grades ++ [grade_label] }

def buildSubjectDemandMap (subjects : List Subject) (counts : SectionCounts) :
    List (String × DemandEntry) :=
  subjects.foldl (buildSubjectDemandMapStep counts) []

/-! ## Teacher Profile Builder (`main.py:281–424`) -/

/-- `scoped_subjects_by_code` (`main.py:219–223`): a dict comprehension over
subjects with a non-empty code; later records overwrite earlier ones at the
same code, as in Python. -/
def scopedSubjectsByCode (subjects : List Subject) : List (String × Subject) :=
  subjects.foldl
    (fun m subject =>
      if subject.subject_code ≠ "" then alSet m subject.subject_code subject else m)
    []

/-- `teacher_subject_map` / `teacher_subject_hours_map` initialisation
(`main.py:281–290`): one empty entry per teacher with a truthy id. -/
def initTeacherSubjectMap (teachers : List Teacher) : List (Nat × List String) :=
  teachers.foldl
    (fun m t => if t.id ≠ 0 then alSet m t.id [] else m) []

def initTeacherSubjectHoursMap (teachers : List Teacher) :
    List (Nat × List (String × Nat)) :=
  teachers.foldl
    (fun m t => if t.id ≠ 0 then alSet m t.id [] else m) []

/-- The mutable per-teacher state threaded through `main.py:300–348`. -/
structure TeacherSubjectState where
  subjectMap : List (Nat × List String)
  hoursMap : List (Nat × List (String × Nat))
deriving Repr, DecidableEq

/-- `main.py:300–320`: fold the teacher↔subject allocation links into the
per-teacher candidate-key sets and summed weekly-hour bases. Links whose
teacher is unknown, whose code resolves to no scoped subject, or whose
subject identity is empty or absent from the demand map are skipped. -/
def applyTeacherAllocations
    (scoped_subjects_by_code : List (String × Subject))
    (subject_demand_map : List (String × DemandEntry))
    (teacher_allocations : List TeacherSubjectAllocation)
    (st : TeacherSubjectState) : TeacherSubjectState :=
  teacher_allocations.foldl
    (fun st allocation =>
      match alGet? st.subjectMap allocation.teacher_id with
      | none => st
      | some subject_key_set =>
        match alGet? scoped_subjects_by_code allocation.subject_code with
        | none => st
        | some subject =>
          let subject_key := (buildSubjectIdentity subject.subject_name subject.subject_code).1
          if subject_key = "" ∨ alMem subject_demand_map subject_key = false then st
          else
            let subjectMap' := alSet st.subjectMap allocation.teacher_id
              (if subject_key ∈ subject_key_set then subject_key_set
               else subject_key_set ++ [subject_key])
            -- `subject_hours_map = teacher_subject_hours_map.get(tid, {})`
            -- mutates the stored dict only when the teacher id is present.
            let hoursMap' :=
              if alMem st.hoursMap allocation.teacher_id then
                let shm := alGet st.hoursMap allocation.teacher_id []
                alSet st.hoursMap allocation.teacher_id
                  (alSet shm subject_key (alGet shm subject_key 0 + subject.weekly_hours.toNat))
              else st.hoursMap
            ⟨subjectMap', hoursMap'⟩)
    st

/-- `main.py:322–348`: teachers whose candidate set is still empty fall back
to their legacy single `subject_code` field. -/
def applyLegacySubjectFallback
    (scoped_subjects_by_code : List (String × Subject))
    (subject_demand_map : List (String × DemandEntry))
    (teachers : List Teacher)
    (st : TeacherSubjectState) : TeacherSubjectState :=
  teachers.foldl
    (fun st teacher =>
      match alGet? st.subjectMap teacher.id with
      | none => st
      | some subject_key_set =>
        if subject_key_set ≠ [] then st
        else
          let fallback_code := pyStrUpper (pyStrTrim teacher.subject_code)
          if fallback_code = "" then st
          else
            match alGet? scoped_subjects_by_code fallback_code with
            | none => st
            | some fallback_subject =>
              let subject_key :=
                (buildSubjectIdentity fallback_subject.subject_name fallback_subject.subject_code).1
              if subject_key ≠ "" ∧ alMem subject_demand_map subject_key then
                let subjectMap' := alSet st.subjectMap teacher.id (subject_key_set ++ [subject_key])
                let hoursMap' :=
                  if alMem st.hoursMap teacher.id then
                    let shm := alGet st.hoursMap teacher.id []
                    alSet st.hoursMap teacher.id
                      (alSet shm subject_key
                        (max (alGet shm subject_key 0) fallback_subject.weekly_hours.toNat))
                  else st.hoursMap
                ⟨subjectMap', hoursMap'⟩
              else st)
    st

/-- One element of `teacher_profiles` (`main.py:393–410`), with the
allocation fields the allocator fills in later (`main.py:509–515`) already
present, zero/empty-initialised exactly as the dict literal initialises
them. -/
structure TeacherProfile where
  teacher : Teacher
  name : String
  subject_keys : List String
  support_subject_keys : List String
  eligible_subject_keys : List String
  subject_count : Nat
  primary_subject_basis_hours : Nat
  allocated_hours : Nat
  remaining_capacity_hours : Nat
  allocation_breakdown : List (String × Nat)
  primary_allocated_hours : Nat
  support_allocated_hours : Nat
deriving Repr, DecidableEq

/-- The demand-map display name of a subject key (used as sort key). -/
def demandName (subject_demand_map : List (String × DemandEntry)) (k : String) : String :=
  (alGet subject_demand_map k ⟨"", 0, 0, 0, []⟩).subject_name

/-- `main.py:350–410`: build one profile per teacher. The candidate keys are
ranked by (−summed hours, −required hours, name); the top-ranked key is the
single primary subject; support keys are the rule-table neighbours of the
primary that exist in the demand map. -/
def buildTeacherProfiles
    (subject_demand_map : List (String × DemandEntry))
    (st : TeacherSubjectState)
    (teachers : List Teacher) : List TeacherProfile :=
  teachers.map (fun teacher =>
    let candidate_subject_keys :=
      sortByKey (fun k => (demandName subject_demand_map k).data)
        (alGet st.subjectMap teacher.id [])
    let subject_hours_map := alGet st.hoursMap teacher.id []
    let ranked_subject_keys :=
      sortByKey (fun k =>
          toLex (-(Int.ofNat (alGet subject_hours_map k 0)),
            toLex (-(Int.ofNat (alGet subject_demand_map k ⟨"", 0, 0, 0, []⟩).required_hours),
              (demandName subject_demand_map k).data)))
        candidate_subject_keys
    let primary_subject_keys :=
      match ranked_subject_keys with
      | [] => []
      | k :: _ => [k]
    let support_subject_keys_set : List String :=
      match primary_subject_keys with
      | [] => []
      | primary_subject_key :: _ =>
        (alGet CROSS_SUBJECT_SUPPORT_RULES primary_subject_key []).filterMap
          (fun support_subject_key =>
            let normalized_support_key := normalizeSubjectFamilyKey support_subject_key
            if normalized_support_key ≠ "" ∧
                alMem subject_demand_map normalized_support_key ∧
                normalized_support_key ∉ primary_subject_keys then
              some normalized_support_key
            else none)
    let sorted_support_subject_keys :=
      sortByKey (fun k => (demandName subject_demand_map k).data)
        support_subject_keys_set.dedup
    { teacher := teacher
      name := buildTeacherDisplayName teacher
      subject_keys := primary_subject_keys
      support_subject_keys := sorted_support_subject_keys
      eligible_subject_keys := primary_subject_keys ++ sorted_support_subject_keys
      subject_count := primary_subject_keys.length
      primary_subject_basis_hours :=
        match primary_subject_keys with
        | [] => 0
        | k :: _ => alGet subject_hours_map k 0
      allocated_hours := 0
      remaining_capacity_hours := REPORT_STANDARD_MAX_HOURS
      allocation_breakdown := []
      primary_allocated_hours := 0
      support_allocated_hours := 0 })

/-- `remaining_hours_by_subject` (`main.py:412–415`): the shadow copy of
required hours the allocator decrements. -/
def initRemainingHours (subject_demand_map : List (String × DemandEntry)) :
    List (String × Nat) :=
  subject_demand_map.map (fun p => (p.1, p.2.required_hours))

/-- The sort key of `allocation_sequence` (`main.py:417–424`):
`(subject_count if subject_count else 999, name, teacher.id or 0)`. -/
def allocationSequenceKey (profile : TeacherProfile) : Nat ×ₗ (List Char ×ₗ Nat) :=
  toLex ((if profile.subject_count ≠ 0 then profile.subject_count else 999),
    toLex (profile.name.data, profile.teacher.id))

/-- The all-default placeholder profile used as `getD` fallback (never hit:
indices stay in range). -/
def blankProfile : TeacherProfile :=
  ⟨⟨0, "", "", "", "", "", 0, false, 0⟩, "", [], [], [], 0, 0, 0, 0, [], 0, 0⟩

/-- `allocation_sequence` (`main.py:417–424`) as a sorted list of positions
into `teacher_profiles` (the Python sort permutes references; positions
preserve object identity through the in-place updates that follow). -/
def allocationSequenceIdx (teacher_profiles : List TeacherProfile) : List Nat :=
  sortByKey
    (fun i => allocationSequenceKey (teacher_profiles.getD i blankProfile))
    (List.range teacher_profiles.length)

/-- `allocation_sequence` itself: the profiles read off in processing
order. -/
def allocSequenceProfiles (teacher_profiles : List TeacherProfile) :
    List TeacherProfile :=
  (allocationSequenceIdx teacher_profiles).map
    (fun i => teacher_profiles.getD i blankProfile)

/-! ## Greedy Capacity Allocator (`main.py:426–515`) -/

/-- The candidate selection of one loop iteration (`main.py:433–457`):
primary subjects still carrying remaining demand, else support subjects
still carrying remaining demand. -/
def candidateSubjectKeys (subject_keys support_subject_keys : List String)
    (remaining_hours_by_subject : List (String × Nat)) : List String :=
  let primary_candidate_subject_keys :=
    subject_keys.filter (fun k => 0 < alGet remaining_hours_by_subject k 0)
  if primary_candidate_subject_keys ≠ [] then primary_candidate_subject_keys
  else support_subject_keys.filter (fun k => 0 < alGet remaining_hours_by_subject k 0)

/-- The candidate sort key at `main.py:452–457`:
`(-remaining_hours, subject_name)`. -/
def candidateSortKey (subject_demand_map : List (String × DemandEntry))
    (remaining_hours_by_subject : List (String × Nat)) (k : String) :
    Int ×ₗ List Char :=
  toLex (-(Int.ofNat (alGet remaining_hours_by_subject k 0)),
    (demandName subject_demand_map k).data)

/-- The `while remaining_capacity > 0` loop at `main.py:433–472`, with an
explicit iteration counter.  The `fuel` argument only bounds the recursion:
every iteration allocates `min(remaining_capacity, subject_remaining) ≥ 1`
hours (both sides are positive when an iteration runs), so the capacity
strictly decreases and calling with `fuel := remaining_capacity` reproduces
the unbounded loop exactly — when fuel is exhausted the capacity is 0 and
the loop guard would terminate anyway. Returns the updated remaining-demand
shadow map, the allocation breakdown, and the number of (allocating)
iterations performed. -/
def allocLoopF (subject_demand_map : List (String × DemandEntry))
    (subject_keys support_subject_keys : List String) :
    Nat → Nat → List (String × Nat) → List (String × Nat) →
    List (String × Nat) × List (String × Nat) × Nat
  | 0, _, remaining_hours_by_subject, allocation_breakdown =>
    (remaining_hours_by_subject, allocation_breakdown, 0)
  | _ + 1, 0, remaining_hours_by_subject, allocation_breakdown =>
    (remaining_hours_by_subject, allocation_breakdown, 0)
  | fuel + 1, remaining_capacity@(_ + 1), remaining_hours_by_subject, allocation_breakdown =>
    let cand := candidateSubjectKeys subject_keys support_subject_keys
      remaining_hours_by_subject
    match sortByKey (candidateSortKey subject_demand_map remaining_hours_by_subject) cand with
    | [] => (remaining_hours_by_subject, allocation_breakdown, 0)
    | selected_subject_key :: _ =>
      let subject_remaining_hours := alGet remaining_hours_by_subject selected_subject_key 0
      let allocated_hours := min remaining_capacity subject_remaining_hours
      if allocated_hours = 0 then (remaining_hours_by_subject, allocation_breakdown, 0)
      else
        let allocation_breakdown' := alSet allocation_breakdown selected_subject_key
          (alGet allocation_breakdown selected_subject_key 0 + allocated_hours)
        let remaining' := alSet remaining_hours_by_subject selected_subject_key
          (subject_remaining_hours - allocated_hours)
        let r := allocLoopF subject_demand_map subject_keys support_subject_keys
          fuel (remaining_capacity - allocated_hours) remaining' allocation_breakdown'
        (r.1, r.2.1, r.2.2 + 1)

/-- The per-teacher allocation loop (`main.py:430–472`), started with
`remaining_capacity = REPORT_STANDARD_MAX_HOURS` and an empty breakdown. -/
def allocLoop (subject_demand_map : List (String × DemandEntry))
    (subject_keys support_subject_keys : List String)
    (remaining_hours_by_subject : List (String × Nat)) :
    List (String × Nat) × List (String × Nat) × Nat :=
  allocLoopF subject_demand_map subject_keys support_subject_keys
    REPORT_STANDARD_MAX_HOURS REPORT_STANDARD_MAX_HOURS
    remaining_hours_by_subject []

/-- The defensive overflow guard (`main.py:475–495`): trim excess hours,
support subjects first, then primary, returning each trimmed amount to the
remaining-demand shadow map. -/
def trimOverflow :
    List String → Nat → List (String × Nat) → List (String × Nat) →
    Nat × List (String × Nat) × List (String × Nat)
  | [], overflow_hours, allocation_breakdown, remaining_hours_by_subject =>
    (overflow_hours, allocation_breakdown, remaining_hours_by_subject)
  | subject_key :: order, overflow_hours, allocation_breakdown, remaining_hours_by_subject =>
    if overflow_hours = 0 then
      (overflow_hours, allocation_breakdown, remaining_hours_by_subject)
    else
      let current_hours := alGet allocation_breakdown subject_key 0
      if current_hours = 0 then
        trimOverflow order overflow_hours allocation_breakdown remaining_hours_by_subject
      else
        let reduce_hours := min current_hours overflow_hours
        let updated_hours := current_hours - reduce_hours
        let breakdown' :=
          if 0 < updated_hours then alSet allocation_breakdown subject_key updated_hours
          else alErase allocation_breakdown subject_key
        trimOverflow order (overflow_hours - reduce_hours) breakdown'
          (alSet remaining_hours_by_subject subject_key
            (alGet remaining_hours_by_subject subject_key 0 + reduce_hours))

/-- `main.py:426–515`: run the allocation loop and the overflow guard for
one profile, then fill in the profile's allocation fields. A profile with
no eligible subjects is skipped (`continue`) and left untouched. -/
def processProfile (subject_demand_map : List (String × DemandEntry))
    (remaining_hours_by_subject : List (String × Nat))
    (profile : TeacherProfile) : List (String × Nat) × TeacherProfile :=
  if profile.eligible_subject_keys = [] then (remaining_hours_by_subject, profile)
  else
    let r := allocLoop subject_demand_map profile.subject_keys
      profile.support_subject_keys remaining_hours_by_subject
    let remaining1 := r.1
    let allocation_breakdown := r.2.1
    let allocated_hours_total := sumValues allocation_breakdown
    let trimmed :=
      if REPORT_STANDARD_MAX_HOURS < allocated_hours_total then
        trimOverflow (profile.support_subject_keys ++ profile.subject_keys)
          (allocated_hours_total - REPORT_STANDARD_MAX_HOURS)
          allocation_breakdown remaining1
      else (0, allocation_breakdown, remaining1)
    let breakdown2 := trimmed.2.1
    let remaining2 := trimmed.2.2
    let primary_allocated_hours :=
      (profile.subject_keys.map (fun k => alGet breakdown2 k 0)).sum
    let support_allocated_hours :=
      (profile.support_subject_keys.map (fun k => alGet breakdown2 k 0)).sum
    let total_allocated_hours := min (sumValues breakdown2) REPORT_STANDARD_MAX_HOURS
    (remaining2,
      { profile with
        allocation_breakdown := breakdown2
        allocated_hours := total_allocated_hours
        primary_allocated_hours := primary_allocated_hours
        support_allocated_hours := support_allocated_hours
        remaining_capacity_hours := REPORT_STANDARD_MAX_HOURS - total_allocated_hours })

/-- `main.py:426–515`: process every profile in allocation-sequence order,
updating the shared remaining-demand shadow map and the profile list in
place (by position, mirroring Python's mutation of the shared dicts). -/
def runAllocationStep (subject_demand_map : List (String × DemandEntry))
    (acc : List (String × Nat) × List TeacherProfile) (i : Nat) :
    List (String × Nat) × List TeacherProfile :=
  match acc.2.get? i with
  | none => acc
  | some profile =>
    let r := processProfile subject_demand_map acc.1 profile
    (r.1, acc.2.set i r.2)

def runAllocation (subject_demand_map : List (String × DemandEntry))
    (remaining_hours_by_subject : List (String × Nat))
    (teacher_profiles : List TeacherProfile) :
    List (String × Nat) × List TeacherProfile :=
  (allocationSequenceIdx teacher_profiles).foldl
    (runAllocationStep subject_demand_map)
    (remaining_hours_by_subject, teacher_profiles)

/-! ## Hiring Gap Resolver (`main.py:517–630`) -/

/-- `teachers_per_subject` (`main.py:517–522`): eligible-teacher count per
subject key. -/
def teachersPerSubject (teacher_profiles : List TeacherProfile) :
    List (String × Nat) :=
  teacher_profiles.foldl
    (fun m profile =>
      profile.eligible_subject_keys.foldl
        (fun m k => alSet m k (alGet m k 0 + 1)) m)
    []

/-- `rule_subject_graph[a].add(b)` (`main.py:538–543`): set-insert `b` into
`a`'s neighbour set. -/
def addNeighbor (g : List (String × List String)) (a b : String) :
    List (String × List String) :=
  let s := alGet g a []
  alSet g a (if b ∈ s then s else s ++ [b])

/-- `rule_subject_graph` (`main.py:524–543`): the undirected rule graph
restricted to subject keys present in the demand map. -/
def ruleSubjectGraph (subject_demand_map : List (String × DemandEntry)) :
    List (String × List String) :=
  CROSS_SUBJECT_SUPPORT_RULES.foldl
    (fun g rule =>
      let npk := normalizeSubjectFamilyKey rule.1
      if alMem subject_demand_map npk = false then g
      else
        let g := alSetdefault g npk []
        rule.2.foldl
          (fun g support_subject_key =>
            let nsk := normalizeSubjectFamilyKey support_subject_key
            if alMem subject_demand_map nsk = false then g
            else
              let g := alSetdefault g nsk []
              let g := addNeighbor g npk nsk
              addNeighbor g nsk npk)
          g)
    []

theorem alMem_iff_mem_alKeys {α : Type} (m : List (String × α)) (k : String) :
    alMem m k = true ↔ k ∈ alKeys m := by
  induction m with
  | nil => simp [alMem, alKeys]
  | cons p rest ih =>
    by_cases h : (p.1 == k) = true
    · have : p.1 = k := by simpa using h
      simp [alMem, alKeys, this]
    · have hf : (p.1 == k) = false := by simpa using h
      have hne : ¬ k = p.1 := by
        intro he; subst he; simp at hf
      simp only [alMem, alKeys, List.any_cons, hf, Bool.false_or, List.map_cons,
        List.mem_cons] at ih ⊢
      constructor
      · intro hm; exact Or.inr (ih.1 hm)
      · rintro (he | hm)
        · exact absurd he hne
        · exact ih.2 hm

theorem length_filter_le_of_imp {α : Type} (l : List α) (p q : α → Bool)
    (h : ∀ a ∈ l, p a = true → q a = true) :
    (l.filter p).length ≤ (l.filter q).length := by
  induction l with
  | nil => simp
  | cons a rest ih =>
    have ih' := ih (fun b hb => h b (List.mem_cons_of_mem a hb))
    by_cases hp : p a = true
    · have hq := h a (List.mem_cons_self a rest) hp
      simp [List.filter_cons, hp, hq]
      omega
    · have hpf : p a = false := by simpa using hp
      by_cases hq : q a = true
      · simp [List.filter_cons, hpf, hq]; omega
      · have hqf : q a = false := by simpa using hq
        simpa [List.filter_cons, hpf, hqf] using ih'

theorem length_filter_lt_of_imp {α : Type} (l : List α) (p q : α → Bool)
    (h : ∀ a ∈ l, p a = true → q a = true)
    (x : α) (hx : x ∈ l) (hq : q x = true) (hp : p x = false) :
    (l.filter p).length < (l.filter q).length := by
  induction l with
  | nil => simp at hx
  | cons a rest ih =>
    have hmono := length_filter_le_of_imp rest p q
      (fun b hb => h b (List.mem_cons_of_mem a hb))
    rcases List.mem_cons.1 hx with rfl | hx'
    · simp [List.filter_cons, hp, hq]
      omega
    · have ih' := ih (fun b hb => h b (List.mem_cons_of_mem a hb)) hx'
      by_cases hpa : p a = true
      · have hqa := h a (List.mem_cons_self a rest) hpa
        simp [List.filter_cons, hpa, hqa]
        omega
      · have hpaf : p a = false := by simpa using hpa
        by_cases hqa : q a = true
        · simp [List.filter_cons, hpaf, hqa]; omega
        · have hqaf : q a = false := by simpa using hqa
          simpa [List.filter_cons, hpaf, hqaf] using ih'

/-- The iterative depth-first traversal at `main.py:555–565`: pop a key
from the stack, skip it if already visited, otherwise record it as visited
and part of the current component and push its unvisited neighbours.
Returns the updated global visited list and the component.

The `fuel` argument only bounds the recursion. Every step pops one stack
entry, and entries are pushed only when an unvisited graph key is first
visited — at most its neighbour-list length, after which that key's
entries no longer count as unvisited. Hence
`fuel := stack.length + Σ (neighbour-list lengths of unvisited keys)`
(`dfsBound` below) dominates the total number of iterations: the
`fuel = 0, stack ≠ []` case is unreachable from `dfs`, which seeds the
fuel with exactly that bound (`dfsF_fuel_irrelevant` below makes this
precise). The Python stack pushes/pops at the list tail and iterates
neighbour sets in unspecified order; the component and visited *sets* it
produces are order-independent, and the engine only ever sorts, sums
over, or tests membership in them. -/
def dfsF (g : List (String × List String)) :
    Nat → List String → List String → List String → List String × List String
  | _, [], visited, component => (visited, component)
  | 0, _ :: _, visited, component => (visited, component)
  | fuel + 1, current :: stack, visited, component =>
    if current ∈ visited then dfsF g fuel stack visited component
    else
      dfsF g fuel (((alGet g current []).filter (fun n => n ∉ visited)) ++ stack)
        (visited ++ [current]) (component ++ [current])

/-- The fuel that dominates the DFS iteration count. -/
def dfsBound (g : List (String × List String)) (visited stack : List String) : Nat :=
  stack.length +
    ((g.filter (fun p => p.1 ∉ visited)).map (fun p => p.2.length)).sum

def dfs (g : List (String × List String))
    (stack visited component : List String) : List String × List String :=
  dfsF g (dfsBound g visited stack) stack visited component

theorem sum_filter_le_of_imp {α : Type} (l : List α) (q' q : α → Bool)
    (f : α → Nat) (h : ∀ a ∈ l, q' a = true → q a = true) :
    ((l.filter q').map f).sum ≤ ((l.filter q).map f).sum := by
  induction l with
  | nil => simp
  | cons a rest ih =>
    have ih' := ih (fun b hb => h b (List.mem_cons_of_mem a hb))
    by_cases hq' : q' a = true
    · have hq := h a (List.mem_cons_self a rest) hq'
      simp [List.filter_cons, hq', hq]
      omega
    · have hf : q' a = false := by simpa using hq'
      by_cases hq : q a = true
      · simp [List.filter_cons, hf, hq]; omega
      · have hg : q a = false := by simpa using hq
        simpa [List.filter_cons, hf, hg] using ih'

theorem dfsBound_sum_visit (g : List (String × List String))
    (visited : List String) (current : String) :
    ∀ (hmem : alMem g current = true) (_ : current ∉ visited),
    ((g.filter (fun p => p.1 ∉ visited ++ [current])).map (fun p => p.2.length)).sum +
      (alGet g current []).length ≤
    ((g.filter (fun p => p.1 ∉ visited)).map (fun p => p.2.length)).sum := by
  induction g with
  | nil => intro hmem _; simp [alMem] at hmem
  | cons p rest ih =>
    intro hmem hcv
    by_cases hp : p.1 = current
    · have hb : (p.1 == current) = true := by simp [hp]
      have hget : alGet (p :: rest) current [] = p.2 := by simp [hb]
      have hold : (decide (p.1 ∉ visited)) = true := by
        simp [hp]; exact hcv
      have hnew : (decide (p.1 ∉ visited ++ [current])) = false := by
        simp [hp]
      have hmono := sum_filter_le_of_imp rest
        (fun q => decide (q.1 ∉ visited ++ [current]))
        (fun q => decide (q.1 ∉ visited)) (fun q => q.2.length)
        (by intro a _ ha; simp at ha ⊢; exact ha.1)
      rw [hget]
      simp only [List.filter_cons, hold, hnew, if_true, if_false, Bool.false_eq_true,
        List.map_cons, List.sum_cons]
      omega
    · have hb : (p.1 == current) = false := by simp [hp]
      have hmem' : alMem rest current = true := by
        simpa [alMem, hb] using hmem
      have hget : alGet (p :: rest) current [] = alGet rest current [] := by simp [hb]
      have ih' := ih hmem' hcv
      rw [hget]
      rw [List.filter_cons, List.filter_cons]
      by_cases hv : p.1 ∈ visited
      · have h1 : (decide (p.1 ∉ visited)) = false := by simpa using hv
        have h2 : (decide (p.1 ∉ visited ++ [current])) = false := by simp [hv]
        rw [h1, h2]
        simpa using ih'
      · have h1 : (decide (p.1 ∉ visited)) = true := by simpa using hv
        have h2 : (decide (p.1 ∉ visited ++ [current])) = true := by
          simp [hv, hp]
        rw [h1, h2]
        simp only [if_true, List.map_cons, List.sum_cons]
        omega

/-- Visiting an unvisited node strictly decreases the DFS fuel bound. -/
theorem dfsBound_visit_le (g : List (String × List String))
    (visited stack : List String) (current : String) (hcv : current ∉ visited) :
    dfsBound g (visited ++ [current])
        (((alGet g current []).filter (fun n => n ∉ visited)) ++ stack) + 1 ≤
    dfsBound g visited (current :: stack) := by
  unfold dfsBound
  rcases hmem : alMem g current with _ | _
  · have hget : alGet g current ([] : List String) = [] := alGet_of_not_mem g current [] hmem
    have heq : g.filter (fun p => decide (p.1 ∉ visited ++ [current])) =
        g.filter (fun p => decide (p.1 ∉ visited)) := by
      apply List.filter_congr
      intro p hp
      have hne : p.1 ≠ current := by
        intro he
        have : alMem g current = true := by
          apply (alMem_iff_mem_alKeys g current).2
          exact he ▸ List.mem_map_of_mem (fun r => r.1) hp
        rw [hmem] at this
        cases this
      simp [hne]
    rw [hget, heq]
    simp only [List.filter_nil, List.map_nil, List.length_append, List.length_nil,
      List.length_cons]
    omega
  · have hb := dfsBound_sum_visit g visited current hmem hcv
    have hfil : ((alGet g current []).filter (fun n => decide (n ∉ visited))).length ≤
        (alGet g current []).length := List.length_filter_le _ _
    simp only [List.length_append, List.length_cons]
    omega

/-- Any two sufficient fuels drive the DFS to the same result; in
particular the seeded `dfsBound` fuel computes the loop's true fixpoint. -/
theorem dfsF_fuel_irrelevant (g : List (String × List String)) :
    ∀ (fuel fuel' : Nat) (stack visited component : List String),
      dfsBound g visited stack ≤ fuel → dfsBound g visited stack ≤ fuel' →
      dfsF g fuel stack visited component = dfsF g fuel' stack visited component := by
  intro fuel
  induction fuel with
  | zero =>
    intro fuel' stack visited component h h'
    cases stack with
    | nil => cases fuel' <;> rfl
    | cons a rest => simp [dfsBound] at h
  | succ fuel ih =>
    intro fuel' stack visited component h h'
    cases stack with
    | nil => cases fuel' <;> rfl
    | cons current rest =>
      cases fuel' with
      | zero => simp [dfsBound] at h'
      | succ fuel' =>
        show (if current ∈ visited then _ else _) = (if current ∈ visited then _ else _)
        by_cases hcv : current ∈ visited
        · rw [if_pos hcv, if_pos hcv]
          have hb : dfsBound g visited rest + 1 ≤ dfsBound g visited (current :: rest) := by
            simp only [dfsBound, List.length_cons]
            omega
          exact ih fuel' rest visited component (by omega) (by omega)
        · rw [if_neg hcv, if_neg hcv]
          have hb := dfsBound_visit_le g visited rest current hcv
          exact ih fuel' _ _ _ (by omega) (by omega)

/-- The running state of the component loop (`main.py:545–549`). -/
structure ResolverState where
  addMap : List (String × Nat)
  noteMap : List (String × String)
  pooled : List String
  totalAdditional : Nat
  visited : List String
deriving Repr, DecidableEq

/-- The candidate sort key of the anchor fallback (`main.py:594–600`). -/
def anchorFallbackKey (subject_demand_map : List (String × DemandEntry))
    (remaining_hours_by_subject : List (String × Nat)) (k : String) :
    Int ×ₗ List Char :=
  toLex (-(Int.ofNat (alGet remaining_hours_by_subject k 0)),
    (demandName subject_demand_map k).data)

/-- The per-member map update of the pooling pass (`main.py:605–620`): the
anchor takes the whole count (with the combined note when the pool has more
than one member), every other member takes 0 with the counted note. -/
def poolAssignStep (anchor_subject_key : String) (component_teachers_needed : Nat)
    (combined_note counted_note : String) (big : Prop) [Decidable big]
    (ms : List (String × Nat) × List (String × String)) (item_key : String) :
    List (String × Nat) × List (String × String) :=
  if item_key = anchor_subject_key then
    (alSet ms.1 item_key component_teachers_needed,
     if big then alSet ms.2 item_key combined_note else ms.2)
  else
    (alSet ms.1 item_key 0, alSet ms.2 item_key counted_note)

/-- One iteration of the component loop (`main.py:551–620`): skip visited
roots; otherwise traverse the root's component, then — when it carries
remaining demand — pool the component's remaining hours into one
additional-teacher count assigned to the anchor subject, give every other
remaining member 0 with a pooling note, and mark the members as pooled. -/
def resolveComponentsStep (subject_demand_map : List (String × DemandEntry))
    (remaining_hours_by_subject : List (String × Nat))
    (g : List (String × List String))
    (st : ResolverState) (subject_key : String) : ResolverState :=
  if subject_key ∈ st.visited then st
  else
    let d := dfs g [subject_key] st.visited []
    let visited' := d.1
    let component_subject_keys := d.2
    let component_with_remaining :=
      component_subject_keys.filter (fun k => 0 < alGet remaining_hours_by_subject k 0)
    if component_with_remaining = [] then { st with visited := visited' }
    else
      let component_remaining_hours :=
        (component_with_remaining.map (fun k => alGet remaining_hours_by_subject k 0)).sum
      let component_teachers_needed :=
        ceilDiv component_remaining_hours REPORT_STANDARD_MAX_HOURS
      let anchor_subject_key :=
        match CROSS_SUBJECT_HIRING_ANCHOR_PRIORITY.find?
          (fun c => c ∈ component_with_remaining) with
        | some k => k
        | none =>
          (sortByKey (anchorFallbackKey subject_demand_map remaining_hours_by_subject)
            component_with_remaining).headD ""
      let component_subject_names :=
        sortByKey (fun name => name.data)
          (component_with_remaining.map (demandName subject_demand_map))
      let maps :=
        component_with_remaining.foldl
          (poolAssignStep anchor_subject_key component_teachers_needed
            ("Combined hiring pool: " ++ String.intercalate ", " component_subject_names)
            ("Counted in " ++ demandName subject_demand_map anchor_subject_key
              ++ " combined pool.")
            (1 < component_with_remaining.length))
          (st.addMap, st.noteMap)
      { addMap := maps.1
        noteMap := maps.2
        pooled := st.pooled ++ component_with_remaining
        totalAdditional := st.totalAdditional + component_teachers_needed
        visited := visited' }

/-- The component loop (`main.py:551–620`), iterating the sorted graph
keys. -/
def resolveComponents (subject_demand_map : List (String × DemandEntry))
    (remaining_hours_by_subject : List (String × Nat))
    (g : List (String × List String)) : ResolverState :=
  (sortByKey (fun k => k.data) (alKeys g)).foldl
    (resolveComponentsStep subject_demand_map remaining_hours_by_subject g)
    ⟨[], [], [], 0, []⟩

/-- `main.py:622–630`: subjects with remaining demand outside any pooled
component are resolved independently, `ceil(remaining / 24)` each. -/
def independentGapStep (st : ResolverState) (p : String × Nat) : ResolverState :=
  if p.2 = 0 ∨ p.1 ∈ st.pooled then st
  else
    let subject_teachers_needed := ceilDiv p.2 REPORT_STANDARD_MAX_HOURS
    { st with
      addMap := alSet st.addMap p.1 subject_teachers_needed
      totalAdditional := st.totalAdditional + subject_teachers_needed }

def applyIndependentGaps (remaining_hours_by_subject : List (String × Nat))
    (st : ResolverState) : ResolverState :=
  remaining_hours_by_subject.foldl independentGapStep st

/-! ## Report Assembler (`main.py:632–812`)

Only the report data the frozen properties refer to is modelled: subject
rows, gap rows, and the branch-wide totals. The presentation-only teacher
rows, grade rows, and export projections (`main.py:690–833`) reorder or
re-label already-modelled data and are not reproduced here. Percentages,
computed in floats in the source, are modelled as the exact banker's
rounding of the underlying ratio (`pyRoundRatio`). -/

/-- A row of `report_subject_rows` (`main.py:649–664`). -/
structure SubjectRow where
  subject_key : String
  subject_name : String
  grades : List String
  required_hours : Nat
  required_current_hours : Nat
  required_new_hours : Nat
  allocated_hours : Nat
  remaining_hours : Nat
  coverage_percentage : Int
  teachers_with_subject : Nat
  additional_teachers_needed : Nat
  additional_teachers_note : String
deriving Repr, DecidableEq

/-- The guarded percentage at `main.py:643–647`:
`round(allocated / required * 100) if required > 0 else 0`. -/
def coveragePercentage (allocated required : Nat) : Int :=
  if 0 < required then pyRoundRatio (Int.ofNat (allocated * 100)) (Int.ofNat required)
  else 0

/-- `report_subject_rows` (`main.py:632–671`), sorted by
`(-remaining_hours, subject_name)`. `allocated_hours` is
`max(required - remaining, 0)`, which is exactly `Nat` subtraction. -/
def buildSubjectRows (subject_demand_map : List (String × DemandEntry))
    (remaining_hours_by_subject : List (String × Nat))
    (teachers_per_subject : List (String × Nat))
    (st : ResolverState) : List SubjectRow :=
  sortByKey (fun row => toLex (-(Int.ofNat row.remaining_hours), row.subject_name.data))
    (subject_demand_map.map (fun p =>
      let demand := p.2
      let required_hours := demand.required_hours
      let remaining_hours := alGet remaining_hours_by_subject p.1 0
      let allocated_hours := required_hours - remaining_hours
      { subject_key := p.1
        subject_name := demand.subject_name
        grades := sortByKey gradeSortKey demand.grades
        required_hours := required_hours
        required_current_hours := demand.required_current_hours
        required_new_hours := demand.required_new_hours
        allocated_hours := allocated_hours
        remaining_hours := remaining_hours
        coverage_percentage := coveragePercentage allocated_hours required_hours
        teachers_with_subject := alGet teachers_per_subject p.1 0
        additional_teachers_needed := alGet st.addMap p.1 0
        additional_teachers_note := alGet st.noteMap p.1 "" }))

/-- The guarded gap-chart percentage at `main.py:682–687`:
`round(remaining / max_remaining * 100, 1) if max_remaining > 0 else 0`.
The one-decimal percentage is represented exactly by its number of tenths
(`pct = tenths / 10`). -/
def gapChartPctTenths (remaining max_remaining : Nat) : Int :=
  if 0 < max_remaining then
    pyRoundRatio (Int.ofNat (remaining * 1000)) (Int.ofNat max_remaining)
  else 0

/-- `report_gap_rows` (`main.py:673–688`): subject rows with remaining
demand, annotated with the normalized bar-chart percentage, truncated to
the top 8. -/
def buildGapRows (report_subject_rows : List SubjectRow) : List (SubjectRow × Int) :=
  let gap := report_subject_rows.filter (fun row => 0 < row.remaining_hours)
  let max_remaining_hours := (gap.map (fun row => row.remaining_hours)).foldr max 0
  (gap.map (fun row =>
    (row, gapChartPctTenths row.remaining_hours max_remaining_hours))).take 8

/-- The branch-wide totals of `report_summary` (`main.py:753–812`) that the
frozen properties refer to. `total_allocated_hours` is the Python `int`
subtraction at `main.py:759`, embedded as `Int`. -/
structure ReportSummary where
  total_required_hours : Nat
  total_allocated_hours : Int
  total_remaining_hours : Nat
  coverage_percentage : Int
  total_additional_teachers_needed : Nat
  total_existing_teachers : Nat
deriving Repr, DecidableEq

/-- `main.py:753–812`. -/
def buildReportSummary (report_subject_rows : List SubjectRow)
    (total_additional_teachers_needed : Nat)
    (teachers : List Teacher) : ReportSummary :=
  let total_required_hours : Nat := (report_subject_rows.map (fun r => r.required_hours)).sum
  let total_remaining_hours : Nat := (report_subject_rows.map (fun r => r.remaining_hours)).sum
  let total_allocated_hours : Int :=
    Int.ofNat total_required_hours - Int.ofNat total_remaining_hours
  { total_required_hours := total_required_hours
    total_allocated_hours := total_allocated_hours
    total_remaining_hours := total_remaining_hours
    coverage_percentage :=
      if 0 < total_required_hours then
        pyRoundRatio (total_allocated_hours * 100) (Int.ofNat total_required_hours)
      else 0
    total_additional_teachers_needed := total_additional_teachers_needed
    total_existing_teachers := teachers.length }

/-- Everything `_build_reporting_context` (`main.py:193–842`) computes that
the frozen properties refer to. -/
structure ReportingContext where
  subject_demand_map : List (String × DemandEntry)
  teacher_profiles : List TeacherProfile
  remaining_hours_by_subject : List (String × Nat)
  teachers_per_subject : List (String × Nat)
  resolver : ResolverState
  subject_rows : List SubjectRow
  gap_rows : List (SubjectRow × Int)
  summary : ReportSummary
deriving Repr, DecidableEq

/-- `_build_reporting_context` (`main.py:193–842`), end to end. -/
def buildReportingContext (subjects : List Subject)
    (planning_sections : List PlanningSection)
    (teachers : List Teacher)
    (teacher_allocations : List TeacherSubjectAllocation) : ReportingContext :=
  let counts := countSections planning_sections
  let subject_demand_map := buildSubjectDemandMap subjects counts
  let scoped_subjects := scopedSubjectsByCode subjects
  let st0 : TeacherSubjectState :=
    ⟨initTeacherSubjectMap teachers, initTeacherSubjectHoursMap teachers⟩
  let st1 := applyTeacherAllocations scoped_subjects subject_demand_map teacher_allocations st0
  let st2 := applyLegacySubjectFallback scoped_subjects subject_demand_map teachers st1
  let profiles0 := buildTeacherProfiles subject_demand_map st2 teachers
  let rem0 := initRemainingHours subject_demand_map
  let ra := runAllocation subject_demand_map rem0 profiles0
  let remaining := ra.1
  let teacher_profiles := ra.2
  let tps := teachersPerSubject teacher_profiles
  let g := ruleSubjectGraph subject_demand_map
  let res0 := resolveComponents subject_demand_map remaining g
  let res := applyIndependentGaps remaining res0
  let subject_rows := buildSubjectRows subject_demand_map remaining tps res
  let gap_rows := buildGapRows subject_rows
  { subject_demand_map := subject_demand_map
    teacher_profiles := teacher_profiles
    remaining_hours_by_subject := remaining
    teachers_per_subject := tps
    resolver := res
    subject_rows := subject_rows
    gap_rows := gap_rows
    summary := buildReportSummary subject_rows res.totalAdditional teachers }

/-! ## Class Mapping Projector (`main.py:845–1104`)

`teacher_matrix_rows` (`main.py:1034–1067`) only re-groups the assignment
events for spreadsheet display and is not modelled. -/

/-- A row of `_build_report_class_rows` (`main.py:845–884`). -/
structure ClassRow where
  class_key : String
  class_label : String
  grade_label : String
  section_name : String
  class_status : String
deriving Repr, DecidableEq

/-- `_build_report_class_rows` (`main.py:845–884`): one row per distinct
(grade, section) key, sorted by grade, section name, then Current before
New. -/
def buildReportClassRows (planning_sections : List PlanningSection) : List ClassRow :=
  let folded := planning_sections.foldl
    (fun (acc : List ClassRow × List String) section_ =>
      let grade_label := normalizeGradeLabel section_.grade_level
      if grade_label = "" then acc
      else
        let section_name := section_.section_name.trim.toUpper
        if section_name = "" then acc
        else
          let class_key := grade_label ++ "-" ++ section_name
          if class_key ∈ acc.2 then acc
          else
            let raw_status := section_.class_status.trim.toLower
            let class_status := if raw_status = "new" then "New" else "Current"
            let display_grade := if grade_label = "KG" then "KG" else "G" ++ grade_label
            (acc.1 ++ [{ class_key := class_key
                         class_label := display_grade ++ "-" ++ section_name
                         grade_label := grade_label
                         section_name := section_name
                         class_status := class_status }],
             acc.2 ++ [class_key]))
    ([], [])
  sortByKey
    (fun row => toLex (gradeSortKey row.grade_label,
      toLex (row.section_name.data, (if row.class_status = "Current" then 0 else 1 : Nat))))
    folded.1

/-- An entry of the per-grade subject catalog (`main.py:911–918`). -/
structure CatalogItem where
  subject_key : String
  subject_code : String
  subject_name : String
  weekly_hours : Nat
deriving Repr, DecidableEq

/-- `_build_report_subject_catalog` (`main.py:887–925`): subjects grouped
by normalized grade (each group sorted by name then code), plus the
first-seen display name per subject key. -/
def buildReportSubjectCatalog (subjects : List Subject) :
    List (String × List CatalogItem) × List (String × String) :=
  let folded := subjects.foldl
    (fun (acc : List (String × List CatalogItem) × List (String × String)) subject =>
      let grade_label := normalizeGradeLabel subject.grade
      if grade_label = "" then acc
      else if subject.weekly_hours ≤ 0 then acc
      else
        let weekly_hours := subject.weekly_hours.toNat
        let subject_code := subject.subject_code.trim.toUpper
        let idp := buildSubjectIdentity subject.subject_name subject_code
        let subject_key := idp.1
        let subject_name := idp.2
        if subject_key = "" then acc
        else
          let names' :=
            if alMem acc.2 subject_key then acc.2
            else acc.2 ++ [(subject_key, subject_name)]
          let grade_entries := alGet acc.1 grade_label []
          (alSet acc.1 grade_label
            (grade_entries ++
              [{ subject_key := subject_key
                 subject_code := if subject_code ≠ "" then subject_code else subject_name
                 subject_name := subject_name
                 weekly_hours := weekly_hours }]),
           names'))
    ([], [])
  (folded.1.map (fun p =>
      (p.1, sortByKey (fun item => toLex (item.subject_name.data, item.subject_code.data)) p.2)),
   folded.2)

/-- A per-(class × subject) demand item (`main.py:937–950`), carrying its
own remaining-hours counter seeded from the subject's weekly load. -/
structure DemandItem where
  class_key : String
  class_label : String
  class_status : String
  grade_label : String
  section_name : String
  subject_key : String
  subject_code : String
  subject_name : String
  required_hours : Nat
  remaining_hours : Nat
deriving Repr, DecidableEq

/-- `demand_items_by_subject` (`main.py:933–960`): one item per
(class row × same-grade catalog subject), grouped by subject key, each
group sorted Current-before-New, then grade, section name, class label. -/
def buildDemandItemsBySubject (class_rows : List ClassRow)
    (subjects_by_grade : List (String × List CatalogItem)) :
    List (String × List DemandItem) :=
  let folded := class_rows.foldl
    (fun items class_row =>
      (alGet subjects_by_grade class_row.grade_label []).foldl
        (fun (items : List (String × List DemandItem)) subject_item =>
          alSet items subject_item.subject_key
            (alGet items subject_item.subject_key [] ++
              [{ class_key := class_row.class_key
                 class_label := class_row.class_label
                 class_status := class_row.class_status
                 grade_label := class_row.grade_label
                 section_name := class_row.section_name
                 subject_key := subject_item.subject_key
                 subject_code := subject_item.subject_code
                 subject_name := subject_item.subject_name
                 required_hours := subject_item.weekly_hours
                 remaining_hours := subject_item.weekly_hours }]))
        items)
    []
  folded.map (fun p =>
    (p.1,
     sortByKey
       (fun item => toLex ((if item.class_status = "Current" then 0 else 1 : Nat),
         toLex (gradeSortKey item.grade_label,
           toLex (item.section_name.data, item.class_label.data))))
       p.2))

/-- `teacher_profiles_export[..]["teacher_id"]` (`main.py:820`):
`teacher.teacher_id or "-"`. -/
def exportTeacherId (t : Teacher) : String :=
  if t.teacher_id = "" then "-" else t.teacher_id

/-- `sorted_profiles` (`main.py:962–969`): teachers in allocated-hours
descending order, then name, then exported teacher id. -/
def sortedClassProfiles (teacher_profiles : List TeacherProfile) :
    List TeacherProfile :=
  sortByKey
    (fun profile => toLex (-(Int.ofNat profile.allocated_hours),
      toLex (profile.name.data, (exportTeacherId profile.teacher).data)))
    teacher_profiles

/-- `ordered_subject_keys` (`main.py:979–985`): primary keys, then support
keys, then any leftover breakdown keys in sorted order, first occurrence
kept. -/
def appendUnique (l : List String) (ks : List String) : List String :=
  ks.foldl (fun acc k => if k ∈ acc then acc else acc ++ [k]) l

def orderedSubjectKeys (profile : TeacherProfile) : List String :=
  appendUnique
    (appendUnique [] (profile.subject_keys ++ profile.support_subject_keys))
    (sortByKey (fun k => k.data) (alKeys profile.allocation_breakdown))

/-- A row of `assignment_rows` (`main.py:1017–1032`). -/
structure AssignmentRow where
  teacher_id : String
  teacher_name : String
  class_label : String
  class_status : String
  subject_code : String
  subject_name : String
  allocated_hours : Nat
  coverage_type : String
deriving Repr, DecidableEq

/-- The inner loop at `main.py:994–1004`: walk one subject's demand items
in list order, consuming the teacher's remaining subject quota against each
item's remaining hours. Returns the leftover quota, the updated items, and
the consumption events (the item as it was read, with the hours taken from
it) in traversal order. -/
def consumeItems (quota : Nat) :
    List DemandItem → Nat × List DemandItem × List (DemandItem × Nat)
  | [] => (quota, [], [])
  | item :: rest =>
    if quota = 0 then (0, item :: rest, [])
    else
      let subject_hours_remaining := item.remaining_hours
      if subject_hours_remaining = 0 then
        let r := consumeItems quota rest
        (r.1, item :: r.2.1, r.2.2)
      else
        let allocated_hours := min quota subject_hours_remaining
        let item' := { item with remaining_hours := subject_hours_remaining - allocated_hours }
        let r := consumeItems (quota - allocated_hours) rest
        (r.1, item' :: r.2.1, (item, allocated_hours) :: r.2.2)

/-- The state threaded through the teacher loop (`main.py:974–1032`). -/
structure ClassAllocState where
  items : List (String × List DemandItem)
  rows : List AssignmentRow
deriving Repr, DecidableEq

/-- The assignment row recorded for one consumption event
(`main.py:1017–1032`). -/
def mkAssignmentRow (profile : TeacherProfile) (subject_key : String)
    (e : DemandItem × Nat) : AssignmentRow :=
  { teacher_id := exportTeacherId profile.teacher
    teacher_name := profile.name
    class_label := e.1.class_label
    class_status := e.1.class_status
    subject_code := e.1.subject_code
    subject_name := e.1.subject_name
    allocated_hours := e.2
    coverage_type :=
      if subject_key ∈ profile.support_subject_keys then "Support"
      else "Primary" }

/-- One ordered-subject-key step of the per-teacher walk
(`main.py:989–1032`). -/
def classAllocKeyStep (profile : TeacherProfile) (st : ClassAllocState)
    (subject_key : String) : ClassAllocState :=
  let subject_hours_quota := alGet profile.allocation_breakdown subject_key 0
  if subject_hours_quota = 0 then st
  else
    let r := consumeItems subject_hours_quota (alGet st.items subject_key [])
    let items' :=
      if alMem st.items subject_key then alSet st.items subject_key r.2.1
      else st.items
    { items := items'
      rows := st.rows ++ r.2.2.map (mkAssignmentRow profile subject_key) }

/-- `main.py:989–1032`: for one teacher, walk the ordered subject keys and
consume each positive per-subject quota against that subject's demand
items, recording one assignment row per consumption event. -/
def processTeacherClassAllocation (profile : TeacherProfile)
    (st : ClassAllocState) : ClassAllocState :=
  (orderedSubjectKeys profile).foldl (classAllocKeyStep profile) st

/-- The teacher loop (`main.py:974–1032`) over all profiles in
`sorted_profiles` order. -/
def runClassAllocation (teacher_profiles : List TeacherProfile)
    (demand_items : List (String × List DemandItem)) : ClassAllocState :=
  (sortedClassProfiles teacher_profiles).foldl
    (fun st profile => processTeacherClassAllocation profile st)
    ⟨demand_items, []⟩

/-- A row of `unassigned_rows` (`main.py:1077–1097`). -/
structure UnassignedRow where
  class_label : String
  class_status : String
  subject_code : String
  subject_name : String
  remaining_hours : Nat
deriving Repr, DecidableEq

/-- `main.py:1077–1097`: the demand items still carrying remaining hours,
sorted by class label then subject code. -/
def buildUnassignedRows (items : List (String × List DemandItem)) :
    List UnassignedRow :=
  sortByKey (fun row => toLex (row.class_label.data, row.subject_code.data))
    (((items.map (fun p => p.2)).flatten).filterMap (fun item =>
      if 0 < item.remaining_hours then
        some { class_label := item.class_label
               class_status := item.class_status
               subject_code := item.subject_code
               subject_name := item.subject_name
               remaining_hours := item.remaining_hours }
      else none))

/-- The results of `_build_report_class_allocation_data` (`main.py:928–1104`)
that the frozen properties refer to, plus the final demand items the
unassigned rows are derived from. -/
structure ClassAllocationData where
  class_rows : List ClassRow
  final_items : List (String × List DemandItem)
  assignment_rows : List AssignmentRow
  unassigned_rows : List UnassignedRow
deriving Repr, DecidableEq

/-- `_build_report_class_allocation_data` (`main.py:928–1104`). -/
def buildReportClassAllocationData (subjects : List Subject)
    (planning_sections : List PlanningSection)
    (teacher_profiles : List TeacherProfile) : ClassAllocationData :=
  let class_rows := buildReportClassRows planning_sections
  let catalog := buildReportSubjectCatalog subjects
  let demand_items := buildDemandItemsBySubject class_rows catalog.1
  let st := runClassAllocation teacher_profiles demand_items
  { class_rows := class_rows
    final_items := st.items
    assignment_rows :=
      sortByKey (fun row => toLex (row.teacher_name.data,
        toLex (row.class_label.data, row.subject_code.data))) st.rows
    unassigned_rows := buildUnassignedRows st.items }

/-! ## Key-uniqueness infrastructure -/

/-- A dict embedding has pairwise-distinct keys (every alist built by
`alSet` from `[]` does, matching Python dicts). -/
def NodupKeys {κ α : Type} (m : List (κ × α)) : Prop := (alKeys m).Nodup

theorem nodupKeys_nil {κ α : Type} : NodupKeys ([] : List (κ × α)) := by
  simp [NodupKeys, alKeys]

theorem mem_alKeys_alSet {κ α : Type} [BEq κ] [LawfulBEq κ]
    (m : List (κ × α)) (k k' : κ) (v : α) :
    k' ∈ alKeys (alSet m k v) ↔ k' ∈ alKeys m ∨ k' = k := by
  induction m with
  | nil => simp [alKeys]
  | cons p rest ih =>
    by_cases h : (p.1 == k) = true
    · have : p.1 = k := by simpa using h
      subst this
      simp only [alSet_cons, h, if_true, alKeys, List.map_cons, List.mem_cons]
      tauto
    · have hf : (p.1 == k) = false := by simpa using h
      simp only [alSet_cons, hf, Bool.false_eq_true, if_false, alKeys,
        List.map_cons, List.mem_cons] at ih ⊢
      rw [ih]
      tauto

theorem nodupKeys_alSet {κ α : Type} [BEq κ] [LawfulBEq κ]
    (m : List (κ × α)) (k : κ) (v : α) (h : NodupKeys m) :
    NodupKeys (alSet m k v) := by
  induction m with
  | nil => simp [NodupKeys, alKeys]
  | cons p rest ih =>
    simp only [NodupKeys, alKeys, List.map_cons, List.nodup_cons] at h
    by_cases hb : (p.1 == k) = true
    · have : p.1 = k := by simpa using hb
      subst this
      simpa [NodupKeys, alKeys, hb] using h
    · have hf : (p.1 == k) = false := by simpa using hb
      have hpk : ¬ p.1 = k := by simpa using hb
      have ih' := ih h.2
      simp only [alSet_cons, hf, Bool.false_eq_true, if_false, NodupKeys, alKeys,
        List.map_cons, List.nodup_cons]
      refine ⟨?_, ih'⟩
      intro hmem
      rcases (mem_alKeys_alSet rest k p.1 v).1 hmem with hm | he
      · exact h.1 hm
      · exact hpk he

theorem alGet_of_mem_nodupKeys {κ α : Type} [BEq κ] [LawfulBEq κ]
    (m : List (κ × α)) (p : κ × α) (d : α) (hn : NodupKeys m) (hp : p ∈ m) :
    alGet m p.1 d = p.2 := by
  induction m with
  | nil => simp at hp
  | cons q rest ih =>
    simp only [NodupKeys, alKeys, List.map_cons, List.nodup_cons] at hn
    rcases List.mem_cons.1 hp with rfl | hp'
    · simp
    · have hne : ¬ q.1 = p.1 := by
        intro he
        exact hn.1 (he ▸ List.mem_map_of_mem (fun r => r.1) hp')
      have hf : (q.1 == p.1) = false := by simpa using hne
      simpa [hf] using ih hn.2 hp'

theorem nodupKeys_buildSubjectDemandMap (subjects : List Subject)
    (counts : SectionCounts) : NodupKeys (buildSubjectDemandMap subjects counts) := by
  suffices h : ∀ (l : List Subject) (m : List (String × DemandEntry)), NodupKeys m →
      NodupKeys (l.foldl (buildSubjectDemandMapStep counts) m) from
    h subjects [] nodupKeys_nil
  intro l
  induction l with
  | nil => intro m hm; exact hm
  | cons s rest ih =>
    intro m hm
    simp only [List.foldl_cons]
    apply ih
    unfold buildSubjectDemandMapStep
    dsimp only
    split
    · exact hm
    · split
      · exact hm
      · split
        · exact hm
        · split
          · exact hm
          · exact nodupKeys_alSet _ _ _ hm

/-- Looking a key up in `remaining_hours_by_subject`'s initial state yields
that key's required hours (0 for keys outside the demand map). -/
theorem alGet_initRemainingHours (subject_demand_map : List (String × DemandEntry))
    (k : String) :
    alGet (initRemainingHours subject_demand_map) k 0 =
      (alGet subject_demand_map k ⟨"", 0, 0, 0, []⟩).required_hours := by
  induction subject_demand_map with
  | nil => simp [initRemainingHours]
  | cons p rest ih =>
    by_cases h : (p.1 == k) = true <;> simp [initRemainingHours, h] at ih ⊢ <;> exact ih

/-! ## Allocator invariants (`main.py:426–515`) -/

/-- With zero capacity the loop body never runs. -/
theorem allocLoopF_zero_cap (subject_demand_map : List (String × DemandEntry))
    (subject_keys support_subject_keys : List String) (fuel : Nat)
    (remaining_hours_by_subject allocation_breakdown : List (String × Nat)) :
    allocLoopF subject_demand_map subject_keys support_subject_keys fuel 0
      remaining_hours_by_subject allocation_breakdown =
      (remaining_hours_by_subject, allocation_breakdown, 0) := by
  cases fuel <;> rfl

/-- Definitional unfolding of one running loop iteration. -/
theorem allocLoopF_succ_succ (subject_demand_map : List (String × DemandEntry))
    (subject_keys support_subject_keys : List String)
    (fuel cap : Nat) (rem bd : List (String × Nat)) :
    allocLoopF subject_demand_map subject_keys support_subject_keys
      (fuel + 1) (cap + 1) rem bd =
      match sortByKey (candidateSortKey subject_demand_map rem)
        (candidateSubjectKeys subject_keys support_subject_keys rem) with
      | [] => (rem, bd, 0)
      | sel :: _ =>
        let srem := alGet rem sel 0
        let a := min (cap + 1) srem
        if a = 0 then (rem, bd, 0)
        else
          let r := allocLoopF subject_demand_map subject_keys support_subject_keys
            fuel (cap + 1 - a) (alSet rem sel (srem - a))
            (alSet bd sel (alGet bd sel 0 + a))
          (r.1, r.2.1, r.2.2 + 1) := rfl

/-- Hour conservation through the allocation loop: for every subject key,
remaining + breakdown hours are preserved. -/
theorem allocLoopF_conserves (subject_demand_map : List (String × DemandEntry))
    (subject_keys support_subject_keys : List String) :
    ∀ (fuel remaining_capacity : Nat)
      (remaining_hours_by_subject allocation_breakdown : List (String × Nat))
      (k : String),
      alGet (allocLoopF subject_demand_map subject_keys support_subject_keys
        fuel remaining_capacity remaining_hours_by_subject allocation_breakdown).1 k 0 +
      alGet (allocLoopF subject_demand_map subject_keys support_subject_keys
        fuel remaining_capacity remaining_hours_by_subject allocation_breakdown).2.1 k 0 =
      alGet remaining_hours_by_subject k 0 + alGet allocation_breakdown k 0 := by
  intro fuel
  induction fuel with
  | zero => intro cap rem bd k; rfl
  | succ fuel ih =>
    intro cap rem bd k
    match cap with
    | 0 => rfl
    | cap + 1 =>
      rw [allocLoopF_succ_succ]
      cases hs : sortByKey (candidateSortKey subject_demand_map rem)
        (candidateSubjectKeys subject_keys support_subject_keys rem) with
      | nil => simp
      | cons sel rest =>
        set srem := alGet rem sel 0 with hsrem
        set a := min (cap + 1) srem with ha
        by_cases h0 : a = 0
        · simp [← ha, h0]
        · simp only [← ha, ← hsrem, h0, if_false]
          have hrec := ih (cap + 1 - a) (alSet rem sel (srem - a))
            (alSet bd sel (alGet bd sel 0 + a)) k
          refine hrec.trans ?_
          by_cases hk : k = sel
          · subst hk
            rw [alGet_alSet_self, alGet_alSet_self, ← hsrem]
            have hle : a ≤ srem := by simp [ha]
            omega
          · rw [alGet_alSet_ne _ _ _ _ _ hk, alGet_alSet_ne _ _ _ _ _ hk]

/-- The loop never hands out more than the capacity it starts with. -/
theorem allocLoopF_sum_le (subject_demand_map : List (String × DemandEntry))
    (subject_keys support_subject_keys : List String) :
    ∀ (fuel remaining_capacity : Nat)
      (remaining_hours_by_subject allocation_breakdown : List (String × Nat)),
      sumValues (allocLoopF subject_demand_map subject_keys support_subject_keys
        fuel remaining_capacity remaining_hours_by_subject allocation_breakdown).2.1 ≤
      sumValues allocation_breakdown + remaining_capacity := by
  intro fuel
  induction fuel with
  | zero => intro cap rem bd; exact Nat.le_add_right _ _
  | succ fuel ih =>
    intro cap rem bd
    match cap with
    | 0 => exact Nat.le_add_right _ _
    | cap + 1 =>
      rw [allocLoopF_succ_succ]
      cases hs : sortByKey (candidateSortKey subject_demand_map rem)
        (candidateSubjectKeys subject_keys support_subject_keys rem) with
      | nil => simp
      | cons sel rest =>
        set srem := alGet rem sel 0 with hsrem
        set a := min (cap + 1) srem with ha
        by_cases h0 : a = 0
        · simp [← ha, h0]
        · simp only [← ha, ← hsrem, h0, if_false]
          have hrec := ih (cap + 1 - a) (alSet rem sel (srem - a))
            (alSet bd sel (alGet bd sel 0 + a))
          have hsum := sumValues_alSet_add bd sel a
          have hle : a ≤ cap + 1 := by simp [ha]
          omega

/-- One step of the overflow trim preserves breakdown + remaining hours at
every key. -/
theorem trimOverflow_conserves (reduction_order : List String) :
    ∀ (overflow_hours : Nat) (bd rem : List (String × Nat)) (k : String),
      alGet (trimOverflow reduction_order overflow_hours bd rem).2.1 k 0 +
      alGet (trimOverflow reduction_order overflow_hours bd rem).2.2 k 0 =
      alGet bd k 0 + alGet rem k 0 := by
  induction reduction_order with
  | nil => intro ov bd rem k; rfl
  | cons j order ih =>
    intro ov bd rem k
    by_cases hov : ov = 0
    · simp [trimOverflow, hov]
    · by_cases hcur : alGet bd j 0 = 0
      · simp only [trimOverflow, hov, if_false, hcur, if_true]
        exact ih ov bd rem k
      · set cur := alGet bd j 0 with hc
        set red := min cur ov with hr
        set upd := cur - red with hu
        simp only [trimOverflow, hov, if_false, ← hc, hcur, if_true, ← hr, ← hu]
        set bd' := if 0 < upd then alSet bd j upd else alErase bd j with hbd'
        refine (ih _ _ _ k).trans ?_
        have hredcur : red ≤ cur := by simp [hr]
        by_cases hk : k = j
        · subst hk
          rw [alGet_alSet_self]
          by_cases hpos : 0 < upd
          · rw [hbd', if_pos hpos, alGet_alSet_self]
            omega
          · rw [hbd', if_neg hpos, alGet_alErase_self]
            omega
        · rw [alGet_alSet_ne _ _ _ _ _ hk]
          by_cases hpos : 0 < upd
          · rw [hbd', if_pos hpos, alGet_alSet_ne _ _ _ _ _ hk]
          · rw [hbd', if_neg hpos, alGet_alErase_ne _ _ _ _ hk]

/-- `processProfile` on a fresh profile moves hours between the remaining
map and the profile's breakdown without creating or destroying any. -/
theorem processProfile_conserves (subject_demand_map : List (String × DemandEntry))
    (rem : List (String × Nat)) (p : TeacherProfile) (k : String)
    (hbd : p.allocation_breakdown = []) :
    alGet (processProfile subject_demand_map rem p).1 k 0 +
    alGet (processProfile subject_demand_map rem p).2.allocation_breakdown k 0 =
    alGet rem k 0 := by
  unfold processProfile
  by_cases he : p.eligible_subject_keys = []
  · simp [he, hbd]
  · simp only [he, if_false]
    have hloop := allocLoopF_conserves subject_demand_map p.subject_keys
      p.support_subject_keys REPORT_STANDARD_MAX_HOURS REPORT_STANDARD_MAX_HOURS rem [] k
    set r := allocLoop subject_demand_map p.subject_keys p.support_subject_keys rem with hrdef
    have hloop' : alGet r.1 k 0 + alGet r.2.1 k 0 = alGet rem k 0 := by
      simpa [hrdef, allocLoop] using hloop
    by_cases hover : REPORT_STANDARD_MAX_HOURS < sumValues r.2.1
    · have htrim := trimOverflow_conserves
        (p.support_subject_keys ++ p.subject_keys)
        (sumValues r.2.1 - REPORT_STANDARD_MAX_HOURS) r.2.1 r.1 k
      simp only [hover, if_true]
      omega
    · simp only [hover, if_false]
      omega

/-- `processProfile` never records more breakdown hours than the standard
capacity. -/
theorem processProfile_sum_le (subject_demand_map : List (String × DemandEntry))
    (rem : List (String × Nat)) (p : TeacherProfile)
    (h : sumValues p.allocation_breakdown ≤ REPORT_STANDARD_MAX_HOURS) :
    sumValues (processProfile subject_demand_map rem p).2.allocation_breakdown ≤
      REPORT_STANDARD_MAX_HOURS := by
  unfold processProfile
  by_cases he : p.eligible_subject_keys = []
  · simpa [he] using h
  · simp only [he, if_false]
    have hloop := allocLoopF_sum_le subject_demand_map p.subject_keys
      p.support_subject_keys REPORT_STANDARD_MAX_HOURS REPORT_STANDARD_MAX_HOURS rem []
    set r := allocLoop subject_demand_map p.subject_keys p.support_subject_keys rem with hrdef
    have hloop' : sumValues r.2.1 ≤ REPORT_STANDARD_MAX_HOURS := by
      simpa [hrdef, allocLoop] using hloop
    have hover : ¬ REPORT_STANDARD_MAX_HOURS < sumValues r.2.1 := by omega
    simpa [hover] using hloop'

/-- Total breakdown hours at key `k` across a profile list. -/
def profilesBreakdownSum (ps : List TeacherProfile) (k : String) : Nat :=
  (ps.map (fun p => alGet p.allocation_breakdown k 0)).sum

theorem map_sum_set (ps : List TeacherProfile) (i : Nat) (p' : TeacherProfile)
    (f : TeacherProfile → Nat) (h : i < ps.length) :
    ((ps.set i p').map f).sum + f (ps.get ⟨i, h⟩) = (ps.map f).sum + f p' := by
  induction ps generalizing i with
  | nil => simp at h
  | cons q rest ih =>
    cases i with
    | zero => simp [List.set]; omega
    | succ i =>
      have h' : i < rest.length := by simpa using h
      have := ih i h'
      simp [List.set] at this ⊢
      omega

/-- Conservation through the whole allocation pass: for every subject key,
the final remaining hours plus all teachers' breakdown hours equal the
initial remaining hours, provided each index is processed at most once and
starts with an empty breakdown. -/
theorem foldAlloc_conserves (subject_demand_map : List (String × DemandEntry)) :
    ∀ (idxs : List Nat) (rem : List (String × Nat)) (ps : List TeacherProfile)
      (k : String),
      idxs.Nodup →
      (∀ i ∈ idxs, ∀ (h : i < ps.length), (ps.get ⟨i, h⟩).allocation_breakdown = []) →
      alGet (idxs.foldl (runAllocationStep subject_demand_map) (rem, ps)).1 k 0 +
      profilesBreakdownSum (idxs.foldl (runAllocationStep subject_demand_map) (rem, ps)).2 k =
      alGet rem k 0 + profilesBreakdownSum ps k := by
  intro idxs
  induction idxs with
  | nil => intro rem ps k _ _; rfl
  | cons i rest ih =>
    intro rem ps k hnd hempty
    have hnd' : rest.Nodup := (List.nodup_cons.1 hnd).2
    have hi_not : i ∉ rest := (List.nodup_cons.1 hnd).1
    simp only [List.foldl_cons]
    cases hget : ps[i]? with
    | none =>
      have hstep : runAllocationStep subject_demand_map (rem, ps) i = (rem, ps) := by
        simp [runAllocationStep, List.get?_eq_getElem?, hget]
      rw [hstep]
      exact ih rem ps k hnd' (fun j hj h => hempty j (List.mem_cons_of_mem i hj) h)
    | some p =>
      obtain ⟨hlt, hpe⟩ := List.getElem?_eq_some.1 hget
      have hp : ps.get ⟨i, hlt⟩ = p := by simpa using hpe
      have hpbd : p.allocation_breakdown = [] := by
        rw [← hp]; exact hempty i (List.mem_cons_self i rest) hlt
      set pr := processProfile subject_demand_map rem p with hpr
      have hstep : runAllocationStep subject_demand_map (rem, ps) i =
          (pr.1, ps.set i pr.2) := by
        simp [runAllocationStep, List.get?_eq_getElem?, hget, hpr]
      rw [hstep]
      have hempty' : ∀ j ∈ rest, ∀ (h : j < (ps.set i pr.2).length),
          ((ps.set i pr.2).get ⟨j, h⟩).allocation_breakdown = [] := by
        intro j hj h
        have hji : j ≠ i := fun he => hi_not (he ▸ hj)
        have h2 : j < ps.length := by simpa using h
        have : (ps.set i pr.2).get ⟨j, h⟩ = ps.get ⟨j, h2⟩ := by
          rw [List.get_eq_getElem, List.get_eq_getElem, List.getElem_set_ne (Ne.symm hji)]
        rw [this]
        exact hempty j (List.mem_cons_of_mem i hj) h2
      rw [ih pr.1 (ps.set i pr.2) k hnd' hempty']
      have hset := map_sum_set ps i pr.2
        (fun q => alGet q.allocation_breakdown k 0) hlt
      have hcons := processProfile_conserves subject_demand_map rem p k hpbd
      rw [← hpr] at hcons
      simp only [hp, hpbd] at hset
      simp only [profilesBreakdownSum] at *
      simp only [alGet_nil] at hset
      omega

/-- Capacity bound through the whole allocation pass. -/
theorem foldAlloc_sum_le (subject_demand_map : List (String × DemandEntry)) :
    ∀ (idxs : List Nat) (rem : List (String × Nat)) (ps : List TeacherProfile),
      (∀ p ∈ ps, sumValues p.allocation_breakdown ≤ REPORT_STANDARD_MAX_HOURS) →
      ∀ p' ∈ (idxs.foldl (runAllocationStep subject_demand_map) (rem, ps)).2,
        sumValues p'.allocation_breakdown ≤ REPORT_STANDARD_MAX_HOURS := by
  intro idxs
  induction idxs with
  | nil => intro rem ps h p' hp'; exact h p' hp'
  | cons i rest ih =>
    intro rem ps h p' hp'
    simp only [List.foldl_cons] at hp'
    cases hget : ps[i]? with
    | none =>
      have hstep : runAllocationStep subject_demand_map (rem, ps) i = (rem, ps) := by
        simp [runAllocationStep, List.get?_eq_getElem?, hget]
      rw [hstep] at hp'
      exact ih rem ps h p' hp'
    | some p =>
      set pr := processProfile subject_demand_map rem p with hpr
      have hstep : runAllocationStep subject_demand_map (rem, ps) i =
          (pr.1, ps.set i pr.2) := by
        simp [runAllocationStep, List.get?_eq_getElem?, hget, hpr]
      rw [hstep] at hp'
      refine ih pr.1 (ps.set i pr.2) ?_ p' hp'
      intro q hq
      rcases List.mem_or_eq_of_mem_set hq with hq' | rfl
      · exact h q hq'
      · obtain ⟨hlt, hpe⟩ := List.getElem?_eq_some.1 hget
        have hpmem : p ∈ ps := hpe ▸ List.getElem_mem hlt
        exact processProfile_sum_le subject_demand_map rem p (h p hpmem)

theorem buildTeacherProfiles_empty_breakdown
    (subject_demand_map : List (String × DemandEntry)) (st : TeacherSubjectState)
    (teachers : List Teacher) :
    ∀ p ∈ buildTeacherProfiles subject_demand_map st teachers,
      p.allocation_breakdown = [] := by
  intro p hp
  rcases List.mem_map.1 hp with ⟨t, _, rfl⟩
  rfl

theorem allocationSequenceIdx_nodup (ps : List TeacherProfile) :
    (allocationSequenceIdx ps).Nodup :=
  (sortByKey_perm _ _).nodup_iff.2 (List.nodup_range _)

/-- Across the whole allocation pass the remaining hours of any subject
never rise above their initial value. -/
theorem runAllocation_remaining_le (subject_demand_map : List (String × DemandEntry))
    (rem0 : List (String × Nat)) (ps : List TeacherProfile)
    (hps : ∀ p ∈ ps, p.allocation_breakdown = []) (k : String) :
    alGet (runAllocation subject_demand_map rem0 ps).1 k 0 ≤ alGet rem0 k 0 := by
  have hcons := foldAlloc_conserves subject_demand_map (allocationSequenceIdx ps)
    rem0 ps k (allocationSequenceIdx_nodup ps)
    (fun i _ h => hps _ (List.get_mem ps i h))
  have hzero : profilesBreakdownSum ps k = 0 := by
    apply List.sum_eq_zero
    intro x hx
    rcases List.mem_map.1 hx with ⟨p, hp, rfl⟩
    rw [hps p hp]
    rfl
  unfold runAllocation
  omega

/-- Remaining hours in the finished context never exceed the subject's
required hours. -/
theorem context_remaining_le_required (subjects : List Subject)
    (planning_sections : List PlanningSection) (teachers : List Teacher)
    (teacher_allocations : List TeacherSubjectAllocation) (k : String) :
    alGet (buildReportingContext subjects planning_sections teachers
        teacher_allocations).remaining_hours_by_subject k 0 ≤
    (alGet (buildReportingContext subjects planning_sections teachers
        teacher_allocations).subject_demand_map k ⟨"", 0, 0, 0, []⟩).required_hours := by
  show alGet (runAllocation _ _ _).1 k 0 ≤ _
  refine le_trans (runAllocation_remaining_le _ _ _
    (buildTeacherProfiles_empty_breakdown _ _ _) k) ?_
  rw [alGet_initRemainingHours]
  exact le_refl _

/-- C1. For every subject row, `required = allocated + remaining` and
`allocated ≤ required`. -/
theorem buildSubjectRows_conservation
    (subject_demand_map : List (String × DemandEntry))
    (remaining_hours_by_subject : List (String × Nat))
    (teachers_per_subject : List (String × Nat)) (st : ResolverState)
    (hnd : NodupKeys subject_demand_map)
    (hle : ∀ k, alGet remaining_hours_by_subject k 0 ≤
      (alGet subject_demand_map k ⟨"", 0, 0, 0, []⟩).required_hours) :
    ∀ row ∈ buildSubjectRows subject_demand_map remaining_hours_by_subject
        teachers_per_subject st,
      row.required_hours = row.allocated_hours + row.remaining_hours ∧
      row.allocated_hours ≤ row.required_hours := by
  intro row hrow
  rw [buildSubjectRows, sortByKey_mem] at hrow
  rcases List.mem_map.1 hrow with ⟨p, hp, rfl⟩
  have hget : alGet subject_demand_map p.1 ⟨"", 0, 0, 0, []⟩ = p.2 :=
    alGet_of_mem_nodupKeys subject_demand_map p _ hnd hp
  have := hle p.1
  rw [hget] at this
  dsimp only
  omega

/-- Generic preservation through the allocation pass: any per-profile
property that `processProfile` establishes or preserves holds of every
final profile. -/
theorem foldAlloc_preserves (subject_demand_map : List (String × DemandEntry))
    (P : TeacherProfile → Prop)
    (hstep : ∀ rem p, P p → P (processProfile subject_demand_map rem p).2) :
    ∀ (idxs : List Nat) (rem : List (String × Nat)) (ps : List TeacherProfile),
      (∀ p ∈ ps, P p) →
      ∀ p' ∈ (idxs.foldl (runAllocationStep subject_demand_map) (rem, ps)).2, P p' := by
  intro idxs
  induction idxs with
  | nil => intro rem ps h p' hp'; exact h p' hp'
  | cons i rest ih =>
    intro rem ps h p' hp'
    simp only [List.foldl_cons] at hp'
    cases hget : ps[i]? with
    | none =>
      have hstep0 : runAllocationStep subject_demand_map (rem, ps) i = (rem, ps) := by
        simp [runAllocationStep, List.get?_eq_getElem?, hget]
      rw [hstep0] at hp'
      exact ih rem ps h p' hp'
    | some p =>
      set pr := processProfile subject_demand_map rem p with hpr
      have hstep1 : runAllocationStep subject_demand_map (rem, ps) i =
          (pr.1, ps.set i pr.2) := by
        simp [runAllocationStep, List.get?_eq_getElem?, hget, hpr]
      rw [hstep1] at hp'
      refine ih pr.1 (ps.set i pr.2) ?_ p' hp'
      intro q hq
      rcases List.mem_or_eq_of_mem_set hq with hq' | rfl
      · exact h q hq'
      · obtain ⟨hlt, hpe⟩ := List.getElem?_eq_some.1 hget
        have hpmem : p ∈ ps := hpe ▸ List.getElem_mem hlt
        exact hstep rem p (h p hpmem)

/-- `processProfile` always leaves `allocated + remaining_capacity = 24`
and `allocated ≤ 24`, whatever the teacher's `max_hours` or extra-hours
flags say. -/
theorem processProfile_capacity (subject_demand_map : List (String × DemandEntry))
    (rem : List (String × Nat)) (p : TeacherProfile)
    (h : p.allocated_hours + p.remaining_capacity_hours = REPORT_STANDARD_MAX_HOURS ∧
      p.allocated_hours ≤ REPORT_STANDARD_MAX_HOURS) :
    (processProfile subject_demand_map rem p).2.allocated_hours +
      (processProfile subject_demand_map rem p).2.remaining_capacity_hours =
      REPORT_STANDARD_MAX_HOURS ∧
    (processProfile subject_demand_map rem p).2.allocated_hours ≤
      REPORT_STANDARD_MAX_HOURS := by
  unfold processProfile
  by_cases he : p.eligible_subject_keys = []
  · simpa [he] using h
  · simp only [he, if_false]
    refine ⟨?_, ?_⟩
    · show min _ REPORT_STANDARD_MAX_HOURS +
        (REPORT_STANDARD_MAX_HOURS - min _ REPORT_STANDARD_MAX_HOURS) =
        REPORT_STANDARD_MAX_HOURS
      omega
    · show min _ REPORT_STANDARD_MAX_HOURS ≤ REPORT_STANDARD_MAX_HOURS
      omega

/-! ## Shared concrete inputs for the closed witness/counterexample
theorems. -/

/-- Scenario C of the spec: one subject "Science" with demand 40 and two
teachers of capacity 24. -/
def exSubjectsC : List Subject := [⟨"SCI", "Science", 40, "1"⟩]

def exSectionsC : List PlanningSection := [⟨"1", "A", "Current"⟩]

def exTeacherAlice : Teacher := ⟨1, "T1", "Alice", "", "Smith", "", 24, false, 0⟩

def exTeacherBob : Teacher := ⟨2, "T2", "Bob", "", "Jones", "", 24, false, 0⟩

def exAllocationsC : List TeacherSubjectAllocation := [⟨1, "SCI"⟩, ⟨2, "SCI"⟩]

def exContextC : ReportingContext :=
  buildReportingContext exSubjectsC exSectionsC [exTeacherAlice, exTeacherBob]
    exAllocationsC

def exDefaultRow : SubjectRow := ⟨"", "", [], 0, 0, 0, 0, 0, 0, 0, 0, ""⟩

def exDefaultProfile : TeacherProfile :=
  ⟨⟨0, "", "", "", "", "", 0, false, 0⟩, "", [], [], [], 0, 0, 0, 0, [], 0, 0⟩

/-- C1. For every subject in the engine's result rows, `required_hours`
equals `allocated_hours` plus `remaining_hours` exactly, and
`allocated_hours` never exceeds `required_hours`, for every input snapshot
(hour conservation holds through the allocation loop and through the
overflow-trimming step, which returns trimmed hours to the
remaining-demand map: `allocLoopF_conserves`, `trimOverflow_conserves`). -/
theorem C1_required_eq_allocated_plus_remaining
    (subjects : List Subject) (planning_sections : List PlanningSection)
    (teachers : List Teacher)
    (teacher_allocations : List TeacherSubjectAllocation) :
    ∀ row ∈ (buildReportingContext subjects planning_sections teachers
        teacher_allocations).subject_rows,
      row.required_hours = row.allocated_hours + row.remaining_hours ∧
      row.allocated_hours ≤ row.required_hours := by
  intro row hrow
  exact buildSubjectRows_conservation _ _ _ _
    (nodupKeys_buildSubjectDemandMap subjects (countSections planning_sections))
    (fun k => context_remaining_le_required subjects planning_sections teachers
      teacher_allocations k)
    row hrow

/-- Witness for C1 at a concrete snapshot (spec scenario C). -/
theorem C1_witness :
    (exContextC.subject_rows.getD 0 exDefaultRow) ∈ exContextC.subject_rows ∧
    ((exContextC.subject_rows.getD 0 exDefaultRow).required_hours =
      (exContextC.subject_rows.getD 0 exDefaultRow).allocated_hours +
      (exContextC.subject_rows.getD 0 exDefaultRow).remaining_hours ∧
     (exContextC.subject_rows.getD 0 exDefaultRow).allocated_hours ≤
      (exContextC.subject_rows.getD 0 exDefaultRow).required_hours) :=
  ⟨by decide,
   C1_required_eq_allocated_plus_remaining exSubjectsC exSectionsC
     [exTeacherAlice, exTeacherBob] exAllocationsC
     (exContextC.subject_rows.getD 0 exDefaultRow) (by decide)⟩

/-- C2. For every teacher profile produced by the allocator, the sum of
its allocation-breakdown values never exceeds the capacity the allocator
gives every teacher (`REPORT_STANDARD_MAX_HOURS = 24`), for every input
snapshot. -/
theorem C2_breakdown_sum_le_capacity
    (subjects : List Subject) (planning_sections : List PlanningSection)
    (teachers : List Teacher)
    (teacher_allocations : List TeacherSubjectAllocation) :
    ∀ profile ∈ (buildReportingContext subjects planning_sections teachers
        teacher_allocations).teacher_profiles,
      sumValues profile.allocation_breakdown ≤ REPORT_STANDARD_MAX_HOURS := by
  intro p hp
  refine foldAlloc_sum_le _ _ _ _ ?_ p hp
  intro q hq
  rw [buildTeacherProfiles_empty_breakdown _ _ _ q hq]
  simp [REPORT_STANDARD_MAX_HOURS]

/-- Witness for C2 at a concrete snapshot. -/
theorem C2_witness :
    (exContextC.teacher_profiles.getD 0 exDefaultProfile) ∈
      exContextC.teacher_profiles ∧
    sumValues (exContextC.teacher_profiles.getD 0
      exDefaultProfile).allocation_breakdown ≤ REPORT_STANDARD_MAX_HOURS :=
  ⟨by decide,
   C2_breakdown_sum_le_capacity exSubjectsC exSectionsC
     [exTeacherAlice, exTeacherBob] exAllocationsC
     (exContextC.teacher_profiles.getD 0 exDefaultProfile) (by decide)⟩

/-- A teacher with the extra-hours flag enabled and a configured maximum of
30 hours, facing 30 hours of demand for their own primary subject. -/
def exExtraTeacher : Teacher := ⟨1, "T1", "Eve", "", "", "", 30, true, 6⟩

def exExtraContext : ReportingContext :=
  buildReportingContext [⟨"MTH", "Math", 30, "1"⟩] exSectionsC [exExtraTeacher]
    [⟨1, "MTH"⟩]

/-- Counterexample to C4. The claim says a teacher with the extra-hours
flag enabled may be allocated up to their configured maximum (here 30),
but the engine caps the allocation at the standard 24 hours and leaves 6
hours of demand unmet even though the teacher's configured maximum would
cover them. -/
theorem C4_counterexample :
    exExtraTeacher.extra_hours_allowed = true ∧
    exExtraTeacher.max_hours = 30 ∧
    (alGet exExtraContext.subject_demand_map "math"
      ⟨"", 0, 0, 0, []⟩).required_hours = 30 ∧
    (exExtraContext.teacher_profiles.getD 0 exDefaultProfile).subject_keys = ["math"] ∧
    (exExtraContext.teacher_profiles.getD 0 exDefaultProfile).allocated_hours = 24 ∧
    (exExtraContext.teacher_profiles.getD 0 exDefaultProfile).remaining_capacity_hours = 0 ∧
    alGet exExtraContext.remaining_hours_by_subject "math" 0 = 6 := by
  decide

/-- C4 (amended): the capacity the allocator uses is always the standard
24 hours (`REPORT_STANDARD_MAX_HOURS`), regardless of the teacher's
configured maximum hours or extra-hours flag: every profile ends with
`allocated_hours + remaining_capacity_hours = 24` and `allocated ≤ 24`,
and the per-teacher allocation step reads nothing from the teacher record
at all — replacing the teacher (hence `max_hours`/`extra_hours_allowed`)
changes nothing but the carried record. -/
theorem C4_amended_capacity_always_standard
    (subjects : List Subject) (planning_sections : List PlanningSection)
    (teachers : List Teacher)
    (teacher_allocations : List TeacherSubjectAllocation) :
    (∀ profile ∈ (buildReportingContext subjects planning_sections teachers
        teacher_allocations).teacher_profiles,
      profile.allocated_hours + profile.remaining_capacity_hours =
        REPORT_STANDARD_MAX_HOURS ∧
      profile.allocated_hours ≤ REPORT_STANDARD_MAX_HOURS) ∧
    (∀ (subject_demand_map : List (String × DemandEntry))
       (rem : List (String × Nat)) (p : TeacherProfile) (t : Teacher),
      processProfile subject_demand_map rem { p with teacher := t } =
        ((processProfile subject_demand_map rem p).1,
         { (processProfile subject_demand_map rem p).2 with teacher := t })) := by
  constructor
  · intro p hp
    refine foldAlloc_preserves _
      (fun q => q.allocated_hours + q.remaining_capacity_hours =
        REPORT_STANDARD_MAX_HOURS ∧
        q.allocated_hours ≤ REPORT_STANDARD_MAX_HOURS)
      (fun rem q hq => processProfile_capacity _ rem q hq) _ _ _ ?_ p hp
    intro q hq
    rcases List.mem_map.1 hq with ⟨t, _, rfl⟩
    constructor <;> simp [REPORT_STANDARD_MAX_HOURS]
  · intro d rem p t
    unfold processProfile
    by_cases he : p.eligible_subject_keys = [] <;> simp [he]

/-- Witness for C4 (amended) at the extra-hours snapshot: the teacher with
configured max 30 still ends at the standard 24. -/
theorem C4_amended_witness :
    (exExtraContext.teacher_profiles.getD 0 exDefaultProfile) ∈
      exExtraContext.teacher_profiles ∧
    (exExtraContext.teacher_profiles.getD 0 exDefaultProfile).allocated_hours +
      (exExtraContext.teacher_profiles.getD 0
        exDefaultProfile).remaining_capacity_hours = REPORT_STANDARD_MAX_HOURS :=
  ⟨by decide,
   ((C4_amended_capacity_always_standard [⟨"MTH", "Math", 30, "1"⟩] exSectionsC
      [exExtraTeacher] [⟨1, "MTH"⟩]).1
     (exExtraContext.teacher_profiles.getD 0 exDefaultProfile) (by decide)).1⟩

theorem buildReportSummary_coverage_zero (rows : List SubjectRow)
    (total_additional : Nat) (teachers : List Teacher)
    (h : (buildReportSummary rows total_additional teachers).total_required_hours = 0) :
    (buildReportSummary rows total_additional teachers).coverage_percentage = 0 := by
  unfold buildReportSummary at h ⊢
  simp only at h ⊢
  simp [h]

theorem buildGapRows_mem (rows : List SubjectRow) (rowq : SubjectRow × Int)
    (h : rowq ∈ buildGapRows rows) :
    rowq.1 ∈ rows ∧ 0 < rowq.1.remaining_hours := by
  unfold buildGapRows at h
  have h1 := (List.take_sublist _ _).subset h
  rcases List.mem_map.1 h1 with ⟨row, hrow, rfl⟩
  have h2 := List.mem_filter.1 hrow
  exact ⟨h2.1, by simpa using h2.2⟩

/-- C9. Every percentage computation is guarded against division by zero:
the coverage formula yields 0 when its denominator (`required_hours`) is
0, the gap-chart formula yields 0 when the maximum remaining is 0, the
branch-wide coverage is 0 when total required hours is 0, and every gap
row comes from a subject with remaining demand — hence with
`required_hours > 0`, so a subject with `required_hours = 0` can appear
in no gap row. -/
theorem C9_percentage_division_guards
    (subjects : List Subject) (planning_sections : List PlanningSection)
    (teachers : List Teacher)
    (teacher_allocations : List TeacherSubjectAllocation) :
    (∀ allocated, coveragePercentage allocated 0 = 0) ∧
    (∀ remaining, gapChartPctTenths remaining 0 = 0) ∧
    ((buildReportingContext subjects planning_sections teachers
        teacher_allocations).summary.total_required_hours = 0 →
      (buildReportingContext subjects planning_sections teachers
        teacher_allocations).summary.coverage_percentage = 0) ∧
    (∀ rowq ∈ (buildReportingContext subjects planning_sections teachers
        teacher_allocations).gap_rows,
      0 < rowq.1.remaining_hours ∧
      rowq.1.remaining_hours ≤ rowq.1.required_hours ∧
      0 < rowq.1.required_hours) := by
  refine ⟨fun allocated => rfl, fun remaining => rfl, ?_, ?_⟩
  · exact fun h => buildReportSummary_coverage_zero _ _ _ h
  · intro rowq hq
    have hm := buildGapRows_mem _ rowq hq
    have hc := buildSubjectRows_conservation _ _ _ _
      (nodupKeys_buildSubjectDemandMap subjects (countSections planning_sections))
      (fun k => context_remaining_le_required subjects planning_sections teachers
        teacher_allocations k)
      rowq.1 hm.1
    refine ⟨hm.2, ?_, ?_⟩ <;> omega

/-- Witness for C9: the coverage guard at a zero denominator, the empty
snapshot's zero branch coverage, and a concrete gap row. -/
theorem C9_witness :
    coveragePercentage 7 0 = 0 ∧
    gapChartPctTenths 7 0 = 0 ∧
    (buildReportingContext [] [] [] []).summary.coverage_percentage = 0 ∧
    ((exExtraContext.gap_rows.getD 0 (exDefaultRow, 0)) ∈ exExtraContext.gap_rows ∧
      0 < (exExtraContext.gap_rows.getD 0 (exDefaultRow, 0)).1.remaining_hours) :=
  ⟨(C9_percentage_division_guards [] [] [] []).1 7,
   (C9_percentage_division_guards [] [] [] []).2.1 7,
   (C9_percentage_division_guards [] [] [] []).2.2.1 (by decide),
   by decide,
   ((C9_percentage_division_guards [⟨"MTH", "Math", 30, "1"⟩] exSectionsC
      [exExtraTeacher] [⟨1, "MTH"⟩]).2.2.2
     (exExtraContext.gap_rows.getD 0 (exDefaultRow, 0)) (by decide)).1⟩

theorem mem_candidateSubjectKeys (subject_keys support_subject_keys : List String)
    (rem : List (String × Nat)) (c : String)
    (h : c ∈ candidateSubjectKeys subject_keys support_subject_keys rem) :
    c ∈ subject_keys ++ support_subject_keys ∧ 0 < alGet rem c 0 := by
  unfold candidateSubjectKeys at h
  by_cases hp : subject_keys.filter (fun k => decide (0 < alGet rem k 0)) ≠ []
  · rw [if_pos hp] at h
    have := List.mem_filter.1 h
    exact ⟨List.mem_append_left _ this.1, by simpa using this.2⟩
  · rw [if_neg hp] at h
    have := List.mem_filter.1 h
    exact ⟨List.mem_append_right _ this.1, by simpa using this.2⟩

/-- The allocation loop performs at most as many (allocating) iterations
as there are eligible subjects still carrying remaining demand: each
iteration either zeroes the selected subject's remaining demand or
exhausts the capacity (ending the loop). -/
theorem allocLoopF_steps_le_filter (subject_demand_map : List (String × DemandEntry))
    (subject_keys support_subject_keys : List String) :
    ∀ (fuel cap : Nat) (rem bd : List (String × Nat)),
      (allocLoopF subject_demand_map subject_keys support_subject_keys
        fuel cap rem bd).2.2 ≤
      ((subject_keys ++ support_subject_keys).filter
        (fun k => 0 < alGet rem k 0)).length := by
  intro fuel
  induction fuel with
  | zero => intro cap rem bd; exact Nat.zero_le _
  | succ fuel ih =>
    intro cap rem bd
    match cap with
    | 0 => exact Nat.zero_le _
    | cap + 1 =>
      rw [allocLoopF_succ_succ]
      cases hs : sortByKey (candidateSortKey subject_demand_map rem)
        (candidateSubjectKeys subject_keys support_subject_keys rem) with
      | nil => exact Nat.zero_le _
      | cons sel rest =>
        have hsel : sel ∈ candidateSubjectKeys subject_keys support_subject_keys rem := by
          have : sel ∈ sortByKey (candidateSortKey subject_demand_map rem)
              (candidateSubjectKeys subject_keys support_subject_keys rem) := by
            rw [hs]; exact List.mem_cons_self sel rest
          exact (sortByKey_mem _).1 this
        obtain ⟨hmem, hpos⟩ := mem_candidateSubjectKeys _ _ _ _ hsel
        set srem := alGet rem sel 0 with hsrem
        set a := min (cap + 1) srem with ha
        have ha0 : a ≠ 0 := by
          simp only [ha]
          omega
        simp only [← ha, ← hsrem, ha0, if_false]
        have hselmem : sel ∈ (subject_keys ++ support_subject_keys).filter
            (fun k => decide (0 < alGet rem k 0)) :=
          List.mem_filter.2 ⟨hmem, by simpa using hpos⟩
        by_cases hc : srem ≤ cap + 1
        · -- the selected subject's demand is zeroed
          have haeq : a = srem := by omega
          have hrec := ih (cap + 1 - a) (alSet rem sel (srem - a))
            (alSet bd sel (alGet bd sel 0 + a))
          have hlt : ((subject_keys ++ support_subject_keys).filter
              (fun k => 0 < alGet (alSet rem sel (srem - a)) k 0)).length <
              ((subject_keys ++ support_subject_keys).filter
              (fun k => 0 < alGet rem k 0)).length := by
            refine length_filter_lt_of_imp _ _ _ ?_ sel hmem ?_ ?_
            · intro c _ hcp
              by_cases hcs : c = sel
              · subst hcs
                have he : alGet (alSet rem c (srem - a)) c 0 = srem - a :=
                  alGet_alSet_self _ _ _ _
                rw [he] at hcp
                simp at hcp ⊢
                omega
              · have he : alGet (alSet rem sel (srem - a)) c 0 = alGet rem c 0 :=
                  alGet_alSet_ne _ _ _ _ _ hcs
                rw [he] at hcp
                exact hcp
            · simpa using hpos
            · show (decide (0 < alGet (alSet rem sel (srem - a)) sel 0)) = false
              rw [alGet_alSet_self]
              simp only [decide_eq_false_iff_not, Nat.not_lt]
              omega
          omega
        · -- the capacity is exhausted; the recursive call runs 0 iterations
          have haeq : a = cap + 1 := by omega
          have hz : cap + 1 - a = 0 := by omega
          rw [hz, allocLoopF_zero_cap]
          have hpos' : 0 < ((subject_keys ++ support_subject_keys).filter
              (fun k => decide (0 < alGet rem k 0))).length :=
            List.length_pos.2 (fun he => by rw [he] at hselmem; cases hselmem)
          show 0 + 1 ≤ _
          omega

/-- C8. The per-teacher allocation loop performs at most (number of that
teacher's eligible subjects) allocating iterations — every iteration
either zeroes the selected subject's remaining demand or exhausts the
teacher's capacity — and a profile's eligible subjects are exactly its
primary keys followed by its support keys. (The embedding is a total
function, so the engine terminates on every input by construction.) -/
theorem C8_loop_iterations_le_eligible
    (subject_demand_map : List (String × DemandEntry))
    (subject_keys support_subject_keys : List String)
    (st : TeacherSubjectState) (teachers : List Teacher) :
    (∀ (fuel cap : Nat) (rem bd : List (String × Nat)),
      (allocLoopF subject_demand_map subject_keys support_subject_keys
        fuel cap rem bd).2.2 ≤ (subject_keys ++ support_subject_keys).length) ∧
    (∀ p ∈ buildTeacherProfiles subject_demand_map st teachers,
      p.eligible_subject_keys = p.subject_keys ++ p.support_subject_keys) := by
  constructor
  · intro fuel cap rem bd
    exact le_trans (allocLoopF_steps_le_filter _ _ _ fuel cap rem bd)
      (List.length_filter_le _ _)
  · intro p hp
    rcases List.mem_map.1 hp with ⟨t, _, rfl⟩
    rfl

/-- C5. In each running iteration of the per-teacher allocation loop, the
candidate set is the teacher's primary subjects with remaining demand,
falling back to the support subjects with remaining demand; the loop then
selects a candidate with the greatest remaining demand (ties broken by
subject name ascending) and allocates exactly
`min(remaining capacity, subject remaining)` hours, decrementing the
subject's remaining demand and accumulating in the breakdown; and in
particular (spec scenario C) with two teachers of capacity 24 and one
subject of demand 40, the first processed teacher allocates 24, the
second 16, leaving 0 remaining. -/
theorem C5_greedy_step_and_scenarioC
    (subject_demand_map : List (String × DemandEntry))
    (subject_keys support_subject_keys : List String)
    (fuel cap : Nat) (rem bd : List (String × Nat))
    (hcap : cap ≠ 0)
    (hcand : candidateSubjectKeys subject_keys support_subject_keys rem ≠ []) :
    (candidateSubjectKeys subject_keys support_subject_keys rem =
      if subject_keys.filter (fun k => 0 < alGet rem k 0) ≠ [] then
        subject_keys.filter (fun k => 0 < alGet rem k 0)
      else support_subject_keys.filter (fun k => 0 < alGet rem k 0)) ∧
    (∃ sel ∈ candidateSubjectKeys subject_keys support_subject_keys rem,
      (∀ c ∈ candidateSubjectKeys subject_keys support_subject_keys rem,
        alGet rem c 0 < alGet rem sel 0 ∨
        (alGet rem c 0 = alGet rem sel 0 ∧
          (demandName subject_demand_map sel).data ≤
            (demandName subject_demand_map c).data)) ∧
      allocLoopF subject_demand_map subject_keys support_subject_keys
          (fuel + 1) cap rem bd =
        ((allocLoopF subject_demand_map subject_keys support_subject_keys fuel
            (cap - min cap (alGet rem sel 0))
            (alSet rem sel (alGet rem sel 0 - min cap (alGet rem sel 0)))
            (alSet bd sel (alGet bd sel 0 + min cap (alGet rem sel 0)))).1,
         (allocLoopF subject_demand_map subject_keys support_subject_keys fuel
            (cap - min cap (alGet rem sel 0))
            (alSet rem sel (alGet rem sel 0 - min cap (alGet rem sel 0)))
            (alSet bd sel (alGet bd sel 0 + min cap (alGet rem sel 0)))).2.1,
         (allocLoopF subject_demand_map subject_keys support_subject_keys fuel
            (cap - min cap (alGet rem sel 0))
            (alSet rem sel (alGet rem sel 0 - min cap (alGet rem sel 0)))
            (alSet bd sel (alGet bd sel 0 + min cap (alGet rem sel 0)))).2.2 + 1)) ∧
    (exContextC.teacher_profiles.map
        (fun p => (p.name, p.allocation_breakdown, p.allocated_hours)) =
      [("Alice Smith", [("science", 24)], 24), ("Bob Jones", [("science", 16)], 16)] ∧
     alGet exContextC.remaining_hours_by_subject "science" 0 = 0) := by
  refine ⟨rfl, ?_, by decide, by decide⟩
  match hc : cap, hcap with
  | cap + 1, _ =>
    cases hs : sortByKey (candidateSortKey subject_demand_map rem)
      (candidateSubjectKeys subject_keys support_subject_keys rem) with
    | nil =>
      exfalso
      apply hcand
      have hperm := sortByKey_perm
        (candidateSortKey subject_demand_map rem)
        (candidateSubjectKeys subject_keys support_subject_keys rem)
      rw [hs] at hperm
      exact hperm.nil_eq.symm
    | cons sel rest =>
      refine ⟨sel, ?_, ?_, ?_⟩
      · have : sel ∈ sortByKey (candidateSortKey subject_demand_map rem)
            (candidateSubjectKeys subject_keys support_subject_keys rem) := by
          rw [hs]; exact List.mem_cons_self sel rest
        exact (sortByKey_mem _).1 this
      · intro c hcm
        have hmin := sortByKey_head_min
          (candidateSortKey subject_demand_map rem) hs c hcm
        unfold candidateSortKey at hmin
        rcases (Prod.Lex.le_iff _ _).1 hmin with hlt | ⟨heq, hle⟩
        · left
          simp only [Int.ofNat_eq_natCast, neg_lt_neg_iff, Nat.cast_lt] at hlt
          exact hlt
        · right
          simp only [Int.ofNat_eq_natCast, neg_inj, Nat.cast_inj] at heq
          exact ⟨heq.symm, hle⟩
      · have hselmem : sel ∈ candidateSubjectKeys subject_keys support_subject_keys rem := by
          have : sel ∈ sortByKey (candidateSortKey subject_demand_map rem)
              (candidateSubjectKeys subject_keys support_subject_keys rem) := by
            rw [hs]; exact List.mem_cons_self sel rest
          exact (sortByKey_mem _).1 this
        obtain ⟨_, hpos⟩ := mem_candidateSubjectKeys _ _ _ _ hselmem
        rw [allocLoopF_succ_succ, hs]
        have ha0 : ¬ (min (cap + 1) (alGet rem sel 0) = 0) := by omega
        simp only [ha0, if_false]

/-- Witness for C5: one step of the loop on one subject with demand 40 at
capacity 24. -/
theorem C5_witness :
    (24 : Nat) ≠ 0 ∧
    candidateSubjectKeys ["science"] [] [("science", 40)] ≠ [] ∧
    (∃ sel ∈ candidateSubjectKeys ["science"] [] [("science", 40)],
      (∀ c ∈ candidateSubjectKeys ["science"] [] [("science", 40)],
        alGet [("science", 40)] c 0 < alGet [("science", 40)] sel 0 ∨
        (alGet [("science", 40)] c 0 = alGet [("science", 40)] sel 0 ∧
          (demandName [("science", ⟨"Science", 40, 40, 0, ["1"]⟩)] sel).data ≤
            (demandName [("science", ⟨"Science", 40, 40, 0, ["1"]⟩)] c).data)) ∧
      allocLoopF [("science", ⟨"Science", 40, 40, 0, ["1"]⟩)] ["science"] []
          (23 + 1) 24 [("science", 40)] [] =
        ((allocLoopF [("science", ⟨"Science", 40, 40, 0, ["1"]⟩)] ["science"] [] 23
            (24 - min 24 (alGet [("science", 40)] sel 0))
            (alSet [("science", 40)] sel
              (alGet [("science", 40)] sel 0 - min 24 (alGet [("science", 40)] sel 0)))
            (alSet [] sel (alGet [] sel 0 + min 24 (alGet [("science", 40)] sel 0)))).1,
         (allocLoopF [("science", ⟨"Science", 40, 40, 0, ["1"]⟩)] ["science"] [] 23
            (24 - min 24 (alGet [("science", 40)] sel 0))
            (alSet [("science", 40)] sel
              (alGet [("science", 40)] sel 0 - min 24 (alGet [("science", 40)] sel 0)))
            (alSet [] sel (alGet [] sel 0 + min 24 (alGet [("science", 40)] sel 0)))).2.1,
         (allocLoopF [("science", ⟨"Science", 40, 40, 0, ["1"]⟩)] ["science"] [] 23
            (24 - min 24 (alGet [("science", 40)] sel 0))
            (alSet [("science", 40)] sel
              (alGet [("science", 40)] sel 0 - min 24 (alGet [("science", 40)] sel 0)))
            (alSet [] sel (alGet [] sel 0 + min 24 (alGet [("science", 40)] sel 0)))).2.2 + 1)) :=
  ⟨by decide, by decide,
   (C5_greedy_step_and_scenarioC [("science", ⟨"Science", 40, 40, 0, ["1"]⟩)]
     ["science"] [] 23 24 [("science", 40)] [] (by decide) (by decide)).2.1⟩

/-! ## Spec-side characterization of the Demand Builder (for C6) -/

/-- The number of sections whose grade normalizes to `grade_label`. -/
def specSectionCount (planning_sections : List PlanningSection)
    (grade_label : String) : Nat :=
  (planning_sections.filter
    (fun s => normalizeGradeLabel s.grade_level = grade_label)).length

/-- The number of current-status sections at `grade_label`. -/
def specCurrentSectionCount (planning_sections : List PlanningSection)
    (grade_label : String) : Nat :=
  (planning_sections.filter
    (fun s => normalizeGradeLabel s.grade_level = grade_label ∧
      pyStrLower (pyStrTrim s.class_status) = "current")).length

/-- The number of new-status sections at `grade_label`. -/
def specNewSectionCount (planning_sections : List PlanningSection)
    (grade_label : String) : Nat :=
  (planning_sections.filter
    (fun s => normalizeGradeLabel s.grade_level = grade_label ∧
      pyStrLower (pyStrTrim s.class_status) = "new")).length

/-- One subject record's contribution to a demand entry: weekly hours times
the chosen per-grade section count, provided the subject passes the demand
builder's filters (normalizable grade, positive weekly hours, at least one
section at that grade, non-empty identity equal to `k`). -/
def specContribution (planning_sections : List PlanningSection) (k : String)
    (count : List PlanningSection → String → Nat) (s : Subject) : Nat :=
  let grade_label := normalizeGradeLabel s.grade
  if grade_label ≠ "" ∧ 0 < s.weekly_hours ∧
      0 < specSectionCount planning_sections grade_label ∧
      (buildSubjectIdentity s.subject_name s.subject_code).1 = k ∧ k ≠ "" then
    s.weekly_hours.toNat * count planning_sections grade_label
  else 0

theorem countSectionsStep_total (acc : SectionCounts) (sec : PlanningSection) :
    (countSectionsStep acc sec).total =
      if normalizeGradeLabel sec.grade_level = "" then acc.total
      else alSet acc.total (normalizeGradeLabel sec.grade_level)
        (alGet acc.total (normalizeGradeLabel sec.grade_level) 0 + 1) := by
  unfold countSectionsStep
  by_cases hlbl : normalizeGradeLabel sec.grade_level = ""
  · simp [hlbl]
  · by_cases hcur : pyStrLower (pyStrTrim sec.class_status) = "current"
    · simp [hlbl, hcur]
    · by_cases hnew : pyStrLower (pyStrTrim sec.class_status) = "new" <;>
        simp [hlbl, hcur, hnew]

theorem countSectionsStep_current (acc : SectionCounts) (sec : PlanningSection) :
    (countSectionsStep acc sec).current =
      if normalizeGradeLabel sec.grade_level ≠ "" ∧
          pyStrLower (pyStrTrim sec.class_status) = "current" then
        alSet acc.current (normalizeGradeLabel sec.grade_level)
          (alGet acc.current (normalizeGradeLabel sec.grade_level) 0 + 1)
      else acc.current := by
  unfold countSectionsStep
  by_cases hlbl : normalizeGradeLabel sec.grade_level = ""
  · simp [hlbl]
  · by_cases hcur : pyStrLower (pyStrTrim sec.class_status) = "current"
    · simp [hlbl, hcur]
    · by_cases hnew : pyStrLower (pyStrTrim sec.class_status) = "new" <;>
        simp [hlbl, hcur, hnew]

theorem countSectionsStep_new (acc : SectionCounts) (sec : PlanningSection) :
    (countSectionsStep acc sec).new =
      if normalizeGradeLabel sec.grade_level ≠ "" ∧
          pyStrLower (pyStrTrim sec.class_status) = "new" then
        alSet acc.new (normalizeGradeLabel sec.grade_level)
          (alGet acc.new (normalizeGradeLabel sec.grade_level) 0 + 1)
      else acc.new := by
  unfold countSectionsStep
  by_cases hlbl : normalizeGradeLabel sec.grade_level = ""
  · simp [hlbl]
  · by_cases hcur : pyStrLower (pyStrTrim sec.class_status) = "current"
    · simp [hlbl, hcur]
    · by_cases hnew : pyStrLower (pyStrTrim sec.class_status) = "new" <;>
        simp [hlbl, hcur, hnew]

theorem countSections_total_get (planning_sections : List PlanningSection)
    (g : String) (hg : g ≠ "") :
    alGet (countSections planning_sections).total g 0 =
      specSectionCount planning_sections g := by
  suffices h : ∀ (l : List PlanningSection) (acc : SectionCounts),
      alGet (l.foldl countSectionsStep acc).total g 0 =
        alGet acc.total g 0 + specSectionCount l g by
    simpa using h planning_sections ⟨[], [], []⟩
  intro l
  induction l with
  | nil => intro acc; simp [specSectionCount]
  | cons sec rest ih =>
    intro acc
    simp only [List.foldl_cons]
    rw [ih]
    have hstep := countSectionsStep_total acc sec
    by_cases hlbl : normalizeGradeLabel sec.grade_level = ""
    · have hne : ¬ normalizeGradeLabel sec.grade_level = g := by
        rw [hlbl]; exact fun he => hg he.symm
      rw [hstep, if_pos hlbl]
      simp [specSectionCount, List.filter_cons, hne]
    · rw [hstep, if_neg hlbl]
      by_cases hgm : normalizeGradeLabel sec.grade_level = g
      · rw [hgm, alGet_alSet_self]
        simp [specSectionCount, List.filter_cons, hgm]
        omega
      · rw [alGet_alSet_ne _ _ _ _ _ (fun he => hgm he.symm)]
        simp [specSectionCount, List.filter_cons, hgm]

theorem countSections_current_get (planning_sections : List PlanningSection)
    (g : String) (hg : g ≠ "") :
    alGet (countSections planning_sections).current g 0 =
      specCurrentSectionCount planning_sections g := by
  suffices h : ∀ (l : List PlanningSection) (acc : SectionCounts),
      alGet (l.foldl countSectionsStep acc).current g 0 =
        alGet acc.current g 0 + specCurrentSectionCount l g by
    simpa using h planning_sections ⟨[], [], []⟩
  intro l
  induction l with
  | nil => intro acc; simp [specCurrentSectionCount]
  | cons sec rest ih =>
    intro acc
    simp only [List.foldl_cons]
    rw [ih]
    have hstep := countSectionsStep_current acc sec
    by_cases hc : normalizeGradeLabel sec.grade_level ≠ "" ∧
        pyStrLower (pyStrTrim sec.class_status) = "current"
    · rw [hstep, if_pos hc]
      by_cases hgm : normalizeGradeLabel sec.grade_level = g
      · rw [hgm, alGet_alSet_self]
        simp [specCurrentSectionCount, List.filter_cons, hgm, hc.2]
        omega
      · rw [alGet_alSet_ne _ _ _ _ _ (fun he => hgm he.symm)]
        simp [specCurrentSectionCount, List.filter_cons, hgm]
    · rw [hstep, if_neg hc]
      have : ¬ (normalizeGradeLabel sec.grade_level = g ∧
          pyStrLower (pyStrTrim sec.class_status) = "current") := by
        intro hcc
        exact hc ⟨by rw [hcc.1]; exact hg, hcc.2⟩
      simp [specCurrentSectionCount, List.filter_cons, this]

theorem countSections_new_get (planning_sections : List PlanningSection)
    (g : String) (hg : g ≠ "") :
    alGet (countSections planning_sections).new g 0 =
      specNewSectionCount planning_sections g := by
  suffices h : ∀ (l : List PlanningSection) (acc : SectionCounts),
      alGet (l.foldl countSectionsStep acc).new g 0 =
        alGet acc.new g 0 + specNewSectionCount l g by
    simpa using h planning_sections ⟨[], [], []⟩
  intro l
  induction l with
  | nil => intro acc; simp [specNewSectionCount]
  | cons sec rest ih =>
    intro acc
    simp only [List.foldl_cons]
    rw [ih]
    have hstep := countSectionsStep_new acc sec
    by_cases hc : normalizeGradeLabel sec.grade_level ≠ "" ∧
        pyStrLower (pyStrTrim sec.class_status) = "new"
    · rw [hstep, if_pos hc]
      by_cases hgm : normalizeGradeLabel sec.grade_level = g
      · rw [hgm, alGet_alSet_self]
        simp [specNewSectionCount, List.filter_cons, hgm, hc.2]
        omega
      · rw [alGet_alSet_ne _ _ _ _ _ (fun he => hgm he.symm)]
        simp [specNewSectionCount, List.filter_cons, hgm]
    · rw [hstep, if_neg hc]
      have : ¬ (normalizeGradeLabel sec.grade_level = g ∧
          pyStrLower (pyStrTrim sec.class_status) = "new") := by
        intro hcc
        exact hc ⟨by rw [hcc.1]; exact hg, hcc.2⟩
      simp [specNewSectionCount, List.filter_cons, this]

/-- A subject record's contribution as the code computes it, reading the
already-built section counters. -/
def codeContribution (counts : SectionCounts) (k : String)
    (sel : SectionCounts → List (String × Nat)) (s : Subject) : Nat :=
  let grade_label := normalizeGradeLabel s.grade
  if grade_label ≠ "" ∧ 0 < s.weekly_hours ∧
      0 < alGet counts.total grade_label 0 ∧
      (buildSubjectIdentity s.subject_name s.subject_code).1 = k ∧ k ≠ "" then
    s.weekly_hours.toNat * alGet (sel counts) grade_label 0
  else 0

theorem alGet_entry_fields (m : List (String × DemandEntry)) (k : String)
    (d1 d2 : DemandEntry) (h1 : d1.required_hours = d2.required_hours)
    (h2 : d1.required_current_hours = d2.required_current_hours)
    (h3 : d1.required_new_hours = d2.required_new_hours) :
    (alGet m k d1).required_hours = (alGet m k d2).required_hours ∧
    (alGet m k d1).required_current_hours = (alGet m k d2).required_current_hours ∧
    (alGet m k d1).required_new_hours = (alGet m k d2).required_new_hours := by
  unfold alGet
  cases m.find? (fun p => p.1 == k) with
  | none => exact ⟨h1, h2, h3⟩
  | some p => exact ⟨rfl, rfl, rfl⟩

/-- One demand-builder step adds exactly the record's contribution to the
entry at `k` (for each of the three hour fields). -/
theorem buildSubjectDemandMapStep_fields (counts : SectionCounts)
    (m : List (String × DemandEntry)) (s : Subject) (k : String) :
    (alGet (buildSubjectDemandMapStep counts m s) k ⟨"", 0, 0, 0, []⟩).required_hours =
      (alGet m k ⟨"", 0, 0, 0, []⟩).required_hours +
        codeContribution counts k SectionCounts.total s ∧
    (alGet (buildSubjectDemandMapStep counts m s) k ⟨"", 0, 0, 0, []⟩).required_current_hours =
      (alGet m k ⟨"", 0, 0, 0, []⟩).required_current_hours +
        codeContribution counts k SectionCounts.current s ∧
    (alGet (buildSubjectDemandMapStep counts m s) k ⟨"", 0, 0, 0, []⟩).required_new_hours =
      (alGet m k ⟨"", 0, 0, 0, []⟩).required_new_hours +
        codeContribution counts k SectionCounts.new s := by
  unfold buildSubjectDemandMapStep codeContribution
  by_cases hg : normalizeGradeLabel s.grade = ""
  · simp [hg]
  · rw [if_neg hg]
    by_cases hw : s.weekly_hours ≤ 0
    · have : ¬ 0 < s.weekly_hours := by omega
      simp [hw, hg, this]
    · rw [if_neg hw]
      by_cases hsec : alGet counts.total (normalizeGradeLabel s.grade) 0 = 0
      · have : ¬ 0 < alGet counts.total (normalizeGradeLabel s.grade) 0 := by omega
        simp [hsec, hg, this]
      · rw [if_neg hsec]
        by_cases hk0 : (buildSubjectIdentity s.subject_name s.subject_code).1 = ""
        · have hkne : ∀ P Q R : Prop,
              ¬ (P ∧ Q ∧ R ∧ (buildSubjectIdentity s.subject_name s.subject_code).1 = k ∧
                 k ≠ "") ∨ True := fun _ _ _ => Or.inr trivial
          rw [if_pos hk0]
          have : ¬ (normalizeGradeLabel s.grade ≠ "" ∧ 0 < s.weekly_hours ∧
              0 < alGet counts.total (normalizeGradeLabel s.grade) 0 ∧
              (buildSubjectIdentity s.subject_name s.subject_code).1 = k ∧ k ≠ "") := by
            intro hc
            exact hc.2.2.2.2 (hc.2.2.2.1 ▸ hk0)
          simp [this]
        · rw [if_neg hk0]
          by_cases hkk : (buildSubjectIdentity s.subject_name s.subject_code).1 = k
          · have hkne : k ≠ "" := fun he => hk0 (he ▸ hkk)
            have hcond : normalizeGradeLabel s.grade ≠ "" ∧ 0 < s.weekly_hours ∧
                0 < alGet counts.total (normalizeGradeLabel s.grade) 0 ∧
                (buildSubjectIdentity s.subject_name s.subject_code).1 = k ∧ k ≠ "" :=
              ⟨hg, by omega, by omega, hkk, hkne⟩
            rw [if_pos hcond, if_pos hcond, if_pos hcond]
            rw [hkk, alGet_alSet_self]
            obtain ⟨hd1, hd2, hd3⟩ := alGet_entry_fields m k
              ⟨(buildSubjectIdentity s.subject_name s.subject_code).2, 0, 0, 0, []⟩
              ⟨"", 0, 0, 0, []⟩ rfl rfl rfl
            refine ⟨?_, ?_, ?_⟩ <;> simp only [] <;> omega
          · have : ¬ (normalizeGradeLabel s.grade ≠ "" ∧ 0 < s.weekly_hours ∧
                0 < alGet counts.total (normalizeGradeLabel s.grade) 0 ∧
                (buildSubjectIdentity s.subject_name s.subject_code).1 = k ∧ k ≠ "") := by
              intro hc
              exact hkk hc.2.2.2.1
            rw [if_neg this, if_neg this, if_neg this,
              alGet_alSet_ne _ _ _ _ _ (fun he => hkk he.symm)]
            simp

/-- Fold characterization of the demand map: each hour field of the entry
at `k` is the sum of the records' contributions. -/
theorem buildSubjectDemandMap_fields (subjects : List Subject) (counts : SectionCounts)
    (k : String) :
    (alGet (buildSubjectDemandMap subjects counts) k ⟨"", 0, 0, 0, []⟩).required_hours =
      (subjects.map (codeContribution counts k SectionCounts.total)).sum ∧
    (alGet (buildSubjectDemandMap subjects counts) k ⟨"", 0, 0, 0, []⟩).required_current_hours =
      (subjects.map (codeContribution counts k SectionCounts.current)).sum ∧
    (alGet (buildSubjectDemandMap subjects counts) k ⟨"", 0, 0, 0, []⟩).required_new_hours =
      (subjects.map (codeContribution counts k SectionCounts.new)).sum := by
  suffices h : ∀ (l : List Subject) (m : List (String × DemandEntry)),
      (alGet (l.foldl (buildSubjectDemandMapStep counts) m) k ⟨"", 0, 0, 0, []⟩).required_hours =
        (alGet m k ⟨"", 0, 0, 0, []⟩).required_hours +
          (l.map (codeContribution counts k SectionCounts.total)).sum ∧
      (alGet (l.foldl (buildSubjectDemandMapStep counts) m) k ⟨"", 0, 0, 0, []⟩).required_current_hours =
        (alGet m k ⟨"", 0, 0, 0, []⟩).required_current_hours +
          (l.map (codeContribution counts k SectionCounts.current)).sum ∧
      (alGet (l.foldl (buildSubjectDemandMapStep counts) m) k ⟨"", 0, 0, 0, []⟩).required_new_hours =
        (alGet m k ⟨"", 0, 0, 0, []⟩).required_new_hours +
          (l.map (codeContribution counts k SectionCounts.new)).sum by
    simpa using h subjects []
  intro l
  induction l with
  | nil => intro m; simp
  | cons s rest ih =>
    intro m
    simp only [List.foldl_cons, List.map_cons, List.sum_cons]
    obtain ⟨ih1, ih2, ih3⟩ := ih (buildSubjectDemandMapStep counts m s)
    obtain ⟨hs1, hs2, hs3⟩ := buildSubjectDemandMapStep_fields counts m s k
    refine ⟨?_, ?_, ?_⟩ <;> omega

/-- Pointwise equality of the code-side and spec-side contributions. -/
theorem codeContribution_eq_spec (planning_sections : List PlanningSection)
    (k : String) (sel : SectionCounts → List (String × Nat))
    (countF : List PlanningSection → String → Nat)
    (hsel : ∀ g, g ≠ "" →
      alGet (sel (countSections planning_sections)) g 0 = countF planning_sections g)
    (s : Subject) :
    codeContribution (countSections planning_sections) k sel s =
      specContribution planning_sections k countF s := by
  by_cases hg : normalizeGradeLabel s.grade = ""
  · simp [codeContribution, specContribution, hg]
  · have htot := countSections_total_get planning_sections _ hg
    have hs := hsel _ hg
    simp only [codeContribution, specContribution, htot, hs]

/-- C6. For every subject key, the demand map's `required_hours` (and its
current/new split) is the sum over subject records of
`weekly_hours × (number of sections at the record's normalized grade)`
(split by section status), with records skipped when their grade does not
normalize, their weekly hours are non-positive, their grade has zero
sections, or their identity is empty — and records sharing a normalized
identity are summed into one entry. Concretely (spec scenario A), grade 5
with two sections (one current, one new) and subject "Math" with
weekly_hours 5 yields required 10, current 5, new 5. -/
theorem C6_demand_builder_sums (subjects : List Subject)
    (planning_sections : List PlanningSection) :
    (∀ k,
      (alGet (buildSubjectDemandMap subjects (countSections planning_sections)) k
        ⟨"", 0, 0, 0, []⟩).required_hours =
        (subjects.map (specContribution planning_sections k specSectionCount)).sum ∧
      (alGet (buildSubjectDemandMap subjects (countSections planning_sections)) k
        ⟨"", 0, 0, 0, []⟩).required_current_hours =
        (subjects.map (specContribution planning_sections k specCurrentSectionCount)).sum ∧
      (alGet (buildSubjectDemandMap subjects (countSections planning_sections)) k
        ⟨"", 0, 0, 0, []⟩).required_new_hours =
        (subjects.map (specContribution planning_sections k specNewSectionCount)).sum) ∧
    (alGet (buildSubjectDemandMap [⟨"MTH", "Math", 5, "5"⟩]
        (countSections [⟨"5", "A", "Current"⟩, ⟨"5", "B", "New"⟩])) "math"
      ⟨"", 0, 0, 0, []⟩ =
      ⟨"Math", 10, 5, 5, ["5"]⟩) := by
  refine ⟨?_, by decide⟩
  intro k
  obtain ⟨h1, h2, h3⟩ :=
    buildSubjectDemandMap_fields subjects (countSections planning_sections) k
  refine ⟨?_, ?_, ?_⟩
  · rw [h1]
    congr 1
    apply List.map_congr_left
    intro s _
    exact codeContribution_eq_spec planning_sections k SectionCounts.total
      specSectionCount (fun g hg => countSections_total_get planning_sections g hg) s
  · rw [h2]
    congr 1
    apply List.map_congr_left
    intro s _
    exact codeContribution_eq_spec planning_sections k SectionCounts.current
      specCurrentSectionCount
      (fun g hg => countSections_current_get planning_sections g hg) s
  · rw [h3]
    congr 1
    apply List.map_congr_left
    intro s _
    exact codeContribution_eq_spec planning_sections k SectionCounts.new
      specNewSectionCount (fun g hg => countSections_new_get planning_sections g hg) s

/-! ## C10: hour conservation in the class mapping projector -/

/-- The identity of a demand item as it is visible on an assignment row
(`main.py:1017–1032` copies exactly these four fields onto the row). -/
def itemMatches (cl cs sc sn : String) (it : DemandItem) : Bool :=
  it.class_label == cl && it.class_status == cs &&
    it.subject_code == sc && it.subject_name == sn

def rowMatches (cl cs sc sn : String) (r : AssignmentRow) : Bool :=
  r.class_label == cl && r.class_status == cs &&
    r.subject_code == sc && r.subject_name == sn

/-- Total allocated hours over the assignment rows matching a predicate. -/
def rowsSum (rp : AssignmentRow → Bool) (rows : List AssignmentRow) : Nat :=
  ((rows.filter rp).map (fun r => r.allocated_hours)).sum

/-- Total remaining hours over the demand items matching a predicate. -/
def itemsRem (p : DemandItem → Bool) (items : List DemandItem) : Nat :=
  ((items.filter p).map (fun it => it.remaining_hours)).sum

/-- Total required hours over the demand items matching a predicate. -/
def itemsReq (p : DemandItem → Bool) (items : List DemandItem) : Nat :=
  ((items.filter p).map (fun it => it.required_hours)).sum

/-- A per-group total summed over a grouped item map. -/
def mapSum (f : List DemandItem → Nat) (m : List (String × List DemandItem)) : Nat :=
  (m.map (fun q => f q.2)).sum

def mapRem (p : DemandItem → Bool) (m : List (String × List DemandItem)) : Nat :=
  mapSum (itemsRem p) m

def mapReq (p : DemandItem → Bool) (m : List (String × List DemandItem)) : Nat :=
  mapSum (itemsReq p) m

/-- Total hours of the consumption events whose item matches a predicate. -/
def eventsSum (p : DemandItem → Bool) (events : List (DemandItem × Nat)) : Nat :=
  ((events.filter (fun e => p e.1)).map (fun e => e.2)).sum

/-- Every item of every group has remaining hours within its requirement. -/
def ItemsWF (m : List (String × List DemandItem)) : Prop :=
  ∀ q ∈ m, ∀ it ∈ q.2, it.remaining_hours ≤ it.required_hours

theorem itemsRem_cons_pos (p : DemandItem → Bool) (it : DemandItem)
    (l : List DemandItem) (h : p it = true) :
    itemsRem p (it :: l) = it.remaining_hours + itemsRem p l := by
  simp [itemsRem, List.filter_cons, h]

theorem itemsRem_cons_neg (p : DemandItem → Bool) (it : DemandItem)
    (l : List DemandItem) (h : p it = false) :
    itemsRem p (it :: l) = itemsRem p l := by
  simp [itemsRem, List.filter_cons, h]

theorem itemsReq_cons_pos (p : DemandItem → Bool) (it : DemandItem)
    (l : List DemandItem) (h : p it = true) :
    itemsReq p (it :: l) = it.required_hours + itemsReq p l := by
  simp [itemsReq, List.filter_cons, h]

theorem itemsReq_cons_neg (p : DemandItem → Bool) (it : DemandItem)
    (l : List DemandItem) (h : p it = false) :
    itemsReq p (it :: l) = itemsReq p l := by
  simp [itemsReq, List.filter_cons, h]

theorem eventsSum_cons_pos (p : DemandItem → Bool) (e : DemandItem × Nat)
    (l : List (DemandItem × Nat)) (h : p e.1 = true) :
    eventsSum p (e :: l) = e.2 + eventsSum p l := by
  simp [eventsSum, List.filter_cons, h]

theorem eventsSum_cons_neg (p : DemandItem → Bool) (e : DemandItem × Nat)
    (l : List (DemandItem × Nat)) (h : p e.1 = false) :
    eventsSum p (e :: l) = eventsSum p l := by
  simp [eventsSum, List.filter_cons, h]

theorem rowsSum_cons_pos (rp : AssignmentRow → Bool) (r : AssignmentRow)
    (l : List AssignmentRow) (h : rp r = true) :
    rowsSum rp (r :: l) = r.allocated_hours + rowsSum rp l := by
  simp [rowsSum, List.filter_cons, h]

theorem rowsSum_cons_neg (rp : AssignmentRow → Bool) (r : AssignmentRow)
    (l : List AssignmentRow) (h : rp r = false) :
    rowsSum rp (r :: l) = rowsSum rp l := by
  simp [rowsSum, List.filter_cons, h]

theorem rowsSum_append (rp : AssignmentRow → Bool) (l1 l2 : List AssignmentRow) :
    rowsSum rp (l1 ++ l2) = rowsSum rp l1 + rowsSum rp l2 := by
  simp [rowsSum, List.filter_append]

theorem rowsSum_perm (rp : AssignmentRow → Bool) {l1 l2 : List AssignmentRow}
    (h : l1.Perm l2) : rowsSum rp l1 = rowsSum rp l2 :=
  List.Perm.sum_eq ((h.filter rp).map (fun r => r.allocated_hours))

theorem consumeItems_nil (quota : Nat) : consumeItems quota [] = (quota, [], []) := rfl

theorem consumeItems_cons (quota : Nat) (item : DemandItem) (rest : List DemandItem) :
    consumeItems quota (item :: rest) =
      if quota = 0 then (0, item :: rest, [])
      else if item.remaining_hours = 0 then
        ((consumeItems quota rest).1,
         item :: (consumeItems quota rest).2.1,
         (consumeItems quota rest).2.2)
      else
        ((consumeItems (quota - min quota item.remaining_hours) rest).1,
         { item with remaining_hours :=
             item.remaining_hours - min quota item.remaining_hours } ::
           (consumeItems (quota - min quota item.remaining_hours) rest).2.1,
         (item, min quota item.remaining_hours) ::
           (consumeItems (quota - min quota item.remaining_hours) rest).2.2) := rfl

/-- `main.py:994–1004` conserves hours: the hours recorded on the
consumption events plus the remaining hours left in the item list equal the
remaining hours that were there before; required hours are untouched and
each output item is an input item with its remaining hours decreased. -/
theorem consumeItems_spec (p : DemandItem → Bool)
    (hp : ∀ (it : DemandItem) (n : Nat), p { it with remaining_hours := n } = p it) :
    ∀ (items : List DemandItem) (quota : Nat),
      eventsSum p (consumeItems quota items).2.2 +
          itemsRem p (consumeItems quota items).2.1 = itemsRem p items ∧
      itemsReq p (consumeItems quota items).2.1 = itemsReq p items ∧
      ∀ it' ∈ (consumeItems quota items).2.1, ∃ it ∈ items,
        it'.required_hours = it.required_hours ∧
        it'.remaining_hours ≤ it.remaining_hours := by
  intro items
  induction items with
  | nil =>
    intro quota
    refine ⟨by simp [consumeItems_nil, eventsSum], by simp [consumeItems_nil], ?_⟩
    intro it' h'
    simp [consumeItems_nil] at h'
  | cons item rest ih =>
    intro quota
    by_cases hq : quota = 0
    · rw [consumeItems_cons, if_pos hq]
      refine ⟨by simp [eventsSum], rfl, ?_⟩
      intro it' h'
      exact ⟨it', h', rfl, le_refl _⟩
    · rw [consumeItems_cons, if_neg hq]
      by_cases hr : item.remaining_hours = 0
      · rw [if_pos hr]
        obtain ⟨h1, h2, h3⟩ := ih quota
        dsimp only
        refine ⟨?_, ?_, ?_⟩
        · cases hpi : p item with
          | true =>
            rw [itemsRem_cons_pos p item _ hpi, itemsRem_cons_pos p item _ hpi]
            omega
          | false =>
            rw [itemsRem_cons_neg p item _ hpi, itemsRem_cons_neg p item _ hpi]
            omega
        · cases hpi : p item with
          | true =>
            rw [itemsReq_cons_pos p item _ hpi, itemsReq_cons_pos p item _ hpi]
            omega
          | false =>
            rw [itemsReq_cons_neg p item _ hpi, itemsReq_cons_neg p item _ hpi]
            omega
        · intro it' h'
          rcases List.mem_cons.mp h' with h' | h'
          · exact ⟨item, List.mem_cons_self _ _, by rw [h'], by rw [h']⟩
          · obtain ⟨it, hit, hreq, hrem⟩ := h3 it' h'
            exact ⟨it, List.mem_cons_of_mem _ hit, hreq, hrem⟩
      · rw [if_neg hr]
        obtain ⟨h1, h2, h3⟩ := ih (quota - min quota item.remaining_hours)
        have hpitem : p { item with remaining_hours :=
            item.remaining_hours - min quota item.remaining_hours } = p item :=
          hp item _
        dsimp only
        refine ⟨?_, ?_, ?_⟩
        · cases hpi : p item with
          | true =>
            rw [eventsSum_cons_pos p _ _ hpi,
              itemsRem_cons_pos p _ _ (by rw [hpitem, hpi]),
              itemsRem_cons_pos p item _ hpi]
            dsimp only
            omega
          | false =>
            rw [eventsSum_cons_neg p _ _ hpi,
              itemsRem_cons_neg p _ _ (by rw [hpitem, hpi]),
              itemsRem_cons_neg p item _ hpi]
            omega
        · cases hpi : p item with
          | true =>
            rw [itemsReq_cons_pos p _ _ (by rw [hpitem, hpi]),
              itemsReq_cons_pos p item _ hpi]
            dsimp only
            omega
          | false =>
            rw [itemsReq_cons_neg p _ _ (by rw [hpitem, hpi]),
              itemsReq_cons_neg p item _ hpi]
            omega
        · intro it' h'
          rcases List.mem_cons.mp h' with h' | h'
          · refine ⟨item, List.mem_cons_self _ _, by rw [h'], ?_⟩
            rw [h']
            dsimp only
            omega
          · obtain ⟨it, hit, hreq, hrem⟩ := h3 it' h'
            exact ⟨it, List.mem_cons_of_mem _ hit, hreq, hrem⟩

/-- Every entry of `alSet m k v` is an entry of `m` or the written pair. -/
theorem mem_alSet_or {κ α : Type} [BEq κ] [LawfulBEq κ] (m : List (κ × α)) (k : κ) (v : α) :
    ∀ q ∈ alSet m k v, q ∈ m ∨ q = (k, v) := by
  induction m with
  | nil =>
    intro q hq
    rw [alSet_nil] at hq
    right
    simpa using hq
  | cons p m ih =>
    intro q hq
    by_cases h : (p.1 == k) = true
    · rw [alSet_cons, if_pos h] at hq
      rcases List.mem_cons.mp hq with h' | h'
      · right; exact h'
      · left; exact List.mem_cons_of_mem _ h'
    · rw [alSet_cons, if_neg h] at hq
      rcases List.mem_cons.mp hq with h' | h'
      · left; rw [h']; exact List.mem_cons_self _ _
      · rcases ih q h' with h'' | h''
        · left; exact List.mem_cons_of_mem _ h''
        · right; exact h''

/-- A lookup either returns the default or a value stored in the map. -/
theorem alGet_mem_or {κ α : Type} [BEq κ] [LawfulBEq κ]
    (m : List (κ × α)) (k : κ) (d : α) :
    alGet m k d = d ∨ (k, alGet m k d) ∈ m := by
  induction m with
  | nil => left; rfl
  | cons p m ih =>
    by_cases h : (p.1 == k) = true
    · right
      rw [alGet_cons, if_pos h]
      have hk : p.1 = k := eq_of_beq h
      subst hk
      exact List.mem_cons_self _ _
    · rw [alGet_cons, if_neg h]
      rcases ih with h' | h'
      · left; exact h'
      · right; exact List.mem_cons_of_mem _ h'

/-- A fold preserves any invariant its steps preserve. -/
theorem foldl_inv_mem {α σ : Type} (P : σ → Prop) (f : σ → α → σ) :
    ∀ (l : List α), (∀ s a, a ∈ l → P s → P (f s a)) →
      ∀ s, P s → P (l.foldl f s) := by
  intro l
  induction l with
  | nil => intro _ s hs; exact hs
  | cons a l ih =>
    intro h s hs
    rw [List.foldl_cons]
    exact ih (fun s b hb => h s b (List.mem_cons_of_mem _ hb)) _
      (h s a (List.mem_cons_self _ _) hs)

/-- Replacing one group in an item map changes a grouped total by exactly
the difference between the new and the old group. -/
theorem mapSum_alSet (f : List DemandItem → Nat) (h0 : f [] = 0)
    (m : List (String × List DemandItem)) (k : String) (v : List DemandItem) :
    mapSum f (alSet m k v) + f (alGet m k []) = mapSum f m + f v := by
  induction m with
  | nil => simp [mapSum, h0]
  | cons q m ih =>
    by_cases h : (q.1 == k) = true
    · simp only [alSet_cons, alGet_cons, if_pos h, mapSum, List.map_cons, List.sum_cons]
      omega
    · simp only [alSet_cons, alGet_cons, if_neg h, mapSum, List.map_cons, List.sum_cons]
      simp only [mapSum] at ih
      omega

theorem rowsSum_map_mk (cl cs sc sn : String) (profile : TeacherProfile) (k : String) :
    ∀ events : List (DemandItem × Nat),
      rowsSum (rowMatches cl cs sc sn) (events.map (mkAssignmentRow profile k)) =
        eventsSum (itemMatches cl cs sc sn) events := by
  intro events
  induction events with
  | nil => rfl
  | cons e l ih =>
    rw [List.map_cons]
    cases hpi : itemMatches cl cs sc sn e.1 with
    | true =>
      rw [rowsSum_cons_pos _ _ _ (by exact hpi), eventsSum_cons_pos _ _ _ hpi, ih]
      rfl
    | false =>
      rw [rowsSum_cons_neg _ _ _ (by exact hpi), eventsSum_cons_neg _ _ _ hpi, ih]

/-- One key step of the per-teacher walk conserves matching hours, leaves
required totals unchanged, and keeps every item within its requirement. -/
theorem classAllocKeyStep_spec (cl cs sc sn : String) (profile : TeacherProfile)
    (st : ClassAllocState) (k : String) :
    rowsSum (rowMatches cl cs sc sn) (classAllocKeyStep profile st k).rows +
        mapRem (itemMatches cl cs sc sn) (classAllocKeyStep profile st k).items =
      rowsSum (rowMatches cl cs sc sn) st.rows +
        mapRem (itemMatches cl cs sc sn) st.items ∧
    mapReq (itemMatches cl cs sc sn) (classAllocKeyStep profile st k).items =
      mapReq (itemMatches cl cs sc sn) st.items ∧
    (ItemsWF st.items → ItemsWF (classAllocKeyStep profile st k).items) := by
  by_cases hq : alGet profile.allocation_breakdown k 0 = 0
  · have hstep : classAllocKeyStep profile st k = st := by
      simp only [classAllocKeyStep, if_pos hq]
    rw [hstep]
    exact ⟨rfl, rfl, fun h => h⟩
  · rcases hE : consumeItems (alGet profile.allocation_breakdown k 0)
      (alGet st.items k []) with ⟨q0, items0, events0⟩
    have hspec := consumeItems_spec (itemMatches cl cs sc sn) (fun it n => rfl)
      (alGet st.items k []) (alGet profile.allocation_breakdown k 0)
    rw [hE] at hspec
    obtain ⟨hc1, hc2, hc3⟩ := hspec
    dsimp only at hc1 hc2 hc3
    have hstep : classAllocKeyStep profile st k =
        { items := if alMem st.items k then alSet st.items k items0 else st.items
          rows := st.rows ++ events0.map (mkAssignmentRow profile k) } := by
      simp only [classAllocKeyStep, if_neg hq, hE]
    rw [hstep]
    by_cases hm : alMem st.items k = true
    · rw [if_pos hm]
      dsimp only
      have halRem := mapSum_alSet (itemsRem (itemMatches cl cs sc sn)) rfl st.items k items0
      have halReq := mapSum_alSet (itemsReq (itemMatches cl cs sc sn)) rfl st.items k items0
      refine ⟨?_, ?_, ?_⟩
      · rw [rowsSum_append, rowsSum_map_mk]
        simp only [mapRem]
        omega
      · simp only [mapReq]
        omega
      · intro hWF q hq' it hit
        rcases mem_alSet_or st.items k items0 q hq' with hmem | hmem
        · exact hWF q hmem it hit
        · subst hmem
          obtain ⟨it0, hit0, hreq, hrem⟩ := hc3 it hit
          rcases alGet_mem_or st.items k ([] : List DemandItem) with hg | hg
          · rw [hg] at hit0
            simp at hit0
          · have hle := hWF _ hg it0 hit0
            omega
    · have hm' : alMem st.items k = false := by
        simpa using hm
      rw [if_neg hm]
      have hg : alGet st.items k ([] : List DemandItem) = [] :=
        alGet_of_not_mem _ _ _ hm'
      rw [hg, consumeItems_nil] at hE
      injection hE with hE1 hE2
      injection hE2 with hE21 hE22
      dsimp only
      rw [← hE22, List.map_nil, List.append_nil]
      exact ⟨rfl, rfl, fun h => h⟩

theorem foldKeys_spec (cl cs sc sn : String) (profile : TeacherProfile) :
    ∀ (ks : List String) (st : ClassAllocState),
      rowsSum (rowMatches cl cs sc sn)
          (ks.foldl (classAllocKeyStep profile) st).rows +
        mapRem (itemMatches cl cs sc sn)
          (ks.foldl (classAllocKeyStep profile) st).items =
      rowsSum (rowMatches cl cs sc sn) st.rows +
        mapRem (itemMatches cl cs sc sn) st.items ∧
      mapReq (itemMatches cl cs sc sn)
          (ks.foldl (classAllocKeyStep profile) st).items =
        mapReq (itemMatches cl cs sc sn) st.items ∧
      (ItemsWF st.items →
        ItemsWF (ks.foldl (classAllocKeyStep profile) st).items) := by
  intro ks
  induction ks with
  | nil => intro st; exact ⟨rfl, rfl, fun h => h⟩
  | cons a ks ih =>
    intro st
    rw [List.foldl_cons]
    obtain ⟨s1, s2, s3⟩ := classAllocKeyStep_spec cl cs sc sn profile st a
    obtain ⟨i1, i2, i3⟩ := ih (classAllocKeyStep profile st a)
    exact ⟨by omega, i2.trans s2, fun h => i3 (s3 h)⟩

theorem processTeacherAlloc_spec (cl cs sc sn : String) (profile : TeacherProfile)
    (st : ClassAllocState) :
    rowsSum (rowMatches cl cs sc sn) (processTeacherClassAllocation profile st).rows +
        mapRem (itemMatches cl cs sc sn) (processTeacherClassAllocation profile st).items =
      rowsSum (rowMatches cl cs sc sn) st.rows +
        mapRem (itemMatches cl cs sc sn) st.items ∧
    mapReq (itemMatches cl cs sc sn) (processTeacherClassAllocation profile st).items =
      mapReq (itemMatches cl cs sc sn) st.items ∧
    (ItemsWF st.items → ItemsWF (processTeacherClassAllocation profile st).items) := by
  simp only [processTeacherClassAllocation]
  exact foldKeys_spec cl cs sc sn profile (orderedSubjectKeys profile) st

theorem foldProfiles_spec (cl cs sc sn : String) :
    ∀ (ps : List TeacherProfile) (st : ClassAllocState),
      rowsSum (rowMatches cl cs sc sn)
          (ps.foldl (fun st profile => processTeacherClassAllocation profile st) st).rows +
        mapRem (itemMatches cl cs sc sn)
          (ps.foldl (fun st profile => processTeacherClassAllocation profile st) st).items =
      rowsSum (rowMatches cl cs sc sn) st.rows +
        mapRem (itemMatches cl cs sc sn) st.items ∧
      mapReq (itemMatches cl cs sc sn)
          (ps.foldl (fun st profile => processTeacherClassAllocation profile st) st).items =
        mapReq (itemMatches cl cs sc sn) st.items ∧
      (ItemsWF st.items →
        ItemsWF (ps.foldl (fun st profile => processTeacherClassAllocation profile st) st).items) := by
  intro ps
  induction ps with
  | nil => intro st; exact ⟨rfl, rfl, fun h => h⟩
  | cons a ps ih =>
    intro st
    rw [List.foldl_cons]
    obtain ⟨s1, s2, s3⟩ := processTeacherAlloc_spec cl cs sc sn a st
    obtain ⟨i1, i2, i3⟩ := ih (processTeacherClassAllocation a st)
    exact ⟨by omega, i2.trans s2, fun h => i3 (s3 h)⟩

theorem runClassAllocation_spec (cl cs sc sn : String)
    (teacher_profiles : List TeacherProfile)
    (demand : List (String × List DemandItem)) :
    rowsSum (rowMatches cl cs sc sn) (runClassAllocation teacher_profiles demand).rows +
        mapRem (itemMatches cl cs sc sn) (runClassAllocation teacher_profiles demand).items =
      mapRem (itemMatches cl cs sc sn) demand ∧
    mapReq (itemMatches cl cs sc sn) (runClassAllocation teacher_profiles demand).items =
      mapReq (itemMatches cl cs sc sn) demand ∧
    (ItemsWF demand → ItemsWF (runClassAllocation teacher_profiles demand).items) := by
  simp only [runClassAllocation]
  obtain ⟨h1, h2, h3⟩ := foldProfiles_spec cl cs sc sn
    (sortedClassProfiles teacher_profiles) ⟨demand, []⟩
  refine ⟨?_, h2, h3⟩
  rw [h1]
  simp [rowsSum]

/-- Every demand item is seeded with `remaining = required`, both equal to
the weekly load of a catalog subject at the item's grade
(`main.py:937–950`). -/
theorem buildDemandItems_seed (class_rows : List ClassRow)
    (sbg : List (String × List CatalogItem)) :
    ∀ q ∈ buildDemandItemsBySubject class_rows sbg, ∀ it ∈ q.2,
      it.remaining_hours = it.required_hours ∧
      ∃ ci ∈ alGet sbg it.grade_label [],
        ci.subject_key = it.subject_key ∧ ci.weekly_hours = it.required_hours := by
  simp only [buildDemandItemsBySubject]
  intro q hq it hit
  rw [List.mem_map] at hq
  obtain ⟨p0, hp0, hq⟩ := hq
  rw [← hq] at hit
  dsimp only at hit
  rw [sortByKey_mem] at hit
  revert hp0
  refine fun hp0 => foldl_inv_mem
    (P := fun m => ∀ q' ∈ m, ∀ it' ∈ q'.2,
      it'.remaining_hours = it'.required_hours ∧
      ∃ ci ∈ alGet sbg it'.grade_label [],
        ci.subject_key = it'.subject_key ∧ ci.weekly_hours = it'.required_hours)
    _ class_rows ?_ [] (by intro q' h; simp at h) p0 hp0 it hit
  intro s cr _ hs
  refine foldl_inv_mem
    (P := fun m => ∀ q' ∈ m, ∀ it' ∈ q'.2,
      it'.remaining_hours = it'.required_hours ∧
      ∃ ci ∈ alGet sbg it'.grade_label [],
        ci.subject_key = it'.subject_key ∧ ci.weekly_hours = it'.required_hours)
    _ (alGet sbg cr.grade_label []) ?_ s hs
  intro s' si hsi hs' q' hq' it' hit'
  rcases mem_alSet_or _ _ _ q' hq' with hmem | hmem
  · exact hs' q' hmem it' hit'
  · subst hmem
    dsimp only at hit'
    rcases List.mem_append.mp hit' with hold | hnew
    · rcases alGet_mem_or s' si.subject_key ([] : List DemandItem) with hg | hg
      · rw [hg] at hold
        simp at hold
      · exact hs' _ hg it' hold
    · have hit2 : it' =
          { class_key := cr.class_key, class_label := cr.class_label,
            class_status := cr.class_status, grade_label := cr.grade_label,
            section_name := cr.section_name, subject_key := si.subject_key,
            subject_code := si.subject_code, subject_name := si.subject_name,
            required_hours := si.weekly_hours,
            remaining_hours := si.weekly_hours } := by
        simpa using hnew
      subst hit2
      exact ⟨rfl, si, hsi, rfl, rfl⟩

theorem filterMap_ite_eq_map_filter {α β : Type} (c : α → Prop) [DecidablePred c]
    (g : α → β) (l : List α) :
    l.filterMap (fun a => if c a then some (g a) else none) =
      (l.filter (fun a => decide (c a))).map g := by
  induction l with
  | nil => rfl
  | cons a l ih =>
    by_cases h : c a <;> simp [List.filterMap_cons, List.filter_cons, h, ih]

/-- `main.py:1077–1097`: the unassigned rows are exactly the projections of
the demand items whose remaining hours are positive (up to the final sort). -/
theorem buildUnassignedRows_perm (m : List (String × List DemandItem)) :
    (buildUnassignedRows m).Perm
      ((((m.map (fun q => q.2)).flatten).filter
          (fun it => decide (0 < it.remaining_hours))).map
        (fun it => { class_label := it.class_label
                     class_status := it.class_status
                     subject_code := it.subject_code
                     subject_name := it.subject_name
                     remaining_hours := it.remaining_hours : UnassignedRow })) := by
  have h := sortByKey_perm
    (fun row : UnassignedRow => toLex (row.class_label.data, row.subject_code.data))
    (((m.map (fun p => p.2)).flatten).filterMap (fun item =>
      if 0 < item.remaining_hours then
        some { class_label := item.class_label
               class_status := item.class_status
               subject_code := item.subject_code
               subject_name := item.subject_name
               remaining_hours := item.remaining_hours : UnassignedRow }
      else none))
  have heq := filterMap_ite_eq_map_filter
    (fun it : DemandItem => 0 < it.remaining_hours)
    (fun it => { class_label := it.class_label
                 class_status := it.class_status
                 subject_code := it.subject_code
                 subject_name := it.subject_name
                 remaining_hours := it.remaining_hours : UnassignedRow })
    ((m.map (fun p => p.2)).flatten)
  exact h.trans (by rw [heq])

/-- C10: in the class mapping projector, hours are conserved per demand
identity: for every (class label, status, subject code, subject name), the
allocated hours on the matching assignment rows plus the matching final
remaining hours equal the matching seeded remaining hours; required totals
are untouched by the allocation; every seed has remaining = required equal
to the weekly load of a catalog subject at its grade; every final item has
remaining ≤ required; and the unassigned rows are exactly the projections
of the final items with positive remaining hours. -/
theorem C10_class_projector_hour_conservation
    (subjects : List Subject) (planning_sections : List PlanningSection)
    (teacher_profiles : List TeacherProfile) :
    (∀ cl cs sc sn : String,
      rowsSum (rowMatches cl cs sc sn)
          (buildReportClassAllocationData subjects planning_sections
            teacher_profiles).assignment_rows +
        mapRem (itemMatches cl cs sc sn)
          (buildReportClassAllocationData subjects planning_sections
            teacher_profiles).final_items =
      mapRem (itemMatches cl cs sc sn)
        (buildDemandItemsBySubject (buildReportClassRows planning_sections)
          (buildReportSubjectCatalog subjects).1)) ∧
    (∀ cl cs sc sn : String,
      mapReq (itemMatches cl cs sc sn)
          (buildReportClassAllocationData subjects planning_sections
            teacher_profiles).final_items =
        mapReq (itemMatches cl cs sc sn)
          (buildDemandItemsBySubject (buildReportClassRows planning_sections)
            (buildReportSubjectCatalog subjects).1)) ∧
    (∀ q ∈ buildDemandItemsBySubject (buildReportClassRows planning_sections)
        (buildReportSubjectCatalog subjects).1, ∀ it ∈ q.2,
      it.remaining_hours = it.required_hours ∧
      ∃ ci ∈ alGet (buildReportSubjectCatalog subjects).1 it.grade_label [],
        ci.subject_key = it.subject_key ∧ ci.weekly_hours = it.required_hours) ∧
    (∀ q ∈ (buildReportClassAllocationData subjects planning_sections
        teacher_profiles).final_items, ∀ it ∈ q.2,
      it.remaining_hours ≤ it.required_hours) ∧
    ((buildReportClassAllocationData subjects planning_sections
        teacher_profiles).unassigned_rows.Perm
      (((((buildReportClassAllocationData subjects planning_sections
            teacher_profiles).final_items.map (fun q => q.2)).flatten).filter
          (fun it => decide (0 < it.remaining_hours))).map
        (fun it => { class_label := it.class_label
                     class_status := it.class_status
                     subject_code := it.subject_code
                     subject_name := it.subject_name
                     remaining_hours := it.remaining_hours : UnassignedRow }))) := by
  have hdata : buildReportClassAllocationData subjects planning_sections
      teacher_profiles =
      { class_rows := buildReportClassRows planning_sections
        final_items := (runClassAllocation teacher_profiles
          (buildDemandItemsBySubject (buildReportClassRows planning_sections)
            (buildReportSubjectCatalog subjects).1)).items
        assignment_rows := sortByKey (fun row => toLex (row.teacher_name.data,
          toLex (row.class_label.data, row.subject_code.data)))
          (runClassAllocation teacher_profiles
            (buildDemandItemsBySubject (buildReportClassRows planning_sections)
              (buildReportSubjectCatalog subjects).1)).rows
        unassigned_rows := buildUnassignedRows (runClassAllocation teacher_profiles
          (buildDemandItemsBySubject (buildReportClassRows planning_sections)
            (buildReportSubjectCatalog subjects).1)).items } := rfl
  have hWFseed : ItemsWF (buildDemandItemsBySubject
      (buildReportClassRows planning_sections)
      (buildReportSubjectCatalog subjects).1) := by
    intro q hq it hit
    exact le_of_eq (buildDemandItems_seed _ _ q hq it hit).1
  refine ⟨?_, ?_, ?_, ?_, ?_⟩
  · intro cl cs sc sn
    obtain ⟨h1, h2, h3⟩ := runClassAllocation_spec cl cs sc sn teacher_profiles
      (buildDemandItemsBySubject (buildReportClassRows planning_sections)
        (buildReportSubjectCatalog subjects).1)
    rw [hdata]
    dsimp only
    rw [rowsSum_perm _ (sortByKey_perm _ _)]
    exact h1
  · intro cl cs sc sn
    obtain ⟨h1, h2, h3⟩ := runClassAllocation_spec cl cs sc sn teacher_profiles
      (buildDemandItemsBySubject (buildReportClassRows planning_sections)
        (buildReportSubjectCatalog subjects).1)
    rw [hdata]
    dsimp only
    exact h2
  · exact buildDemandItems_seed _ _
  · obtain ⟨h1, h2, h3⟩ := runClassAllocation_spec "" "" "" "" teacher_profiles
      (buildDemandItemsBySubject (buildReportClassRows planning_sections)
        (buildReportSubjectCatalog subjects).1)
    rw [hdata]
    dsimp only
    exact h3 hWFseed
  · rw [hdata]
    dsimp only
    exact buildUnassignedRows_perm _


/-! ## C7: deterministic processing order of the allocator -/

/-- The processing order as the spec words it: teachers with a primary
subject first, then by display name, then by teacher id. -/
def specAllocOrder (a b : TeacherProfile) : Prop :=
  toLex ((if a.subject_count ≠ 0 then 0 else 1 : Nat),
    toLex (a.name.data, a.teacher.id)) ≤
  toLex ((if b.subject_count ≠ 0 then 0 else 1 : Nat),
    toLex (b.name.data, b.teacher.id))

/-- Indicator monotonicity: a `(count if count else 999, rest)` key order
implies the `(has-primary-first, rest)` order when counts are at most 1. -/
theorem lex_indicator_mono (ca cb : Nat) (sa sb : List Char ×ₗ Nat)
    (ha : ca ≤ 1) (hb : cb ≤ 1)
    (h : toLex ((if ca ≠ 0 then ca else 999 : Nat), sa) ≤
      toLex ((if cb ≠ 0 then cb else 999 : Nat), sb)) :
    toLex ((if ca ≠ 0 then 0 else 1 : Nat), sa) ≤
      toLex ((if cb ≠ 0 then 0 else 1 : Nat), sb) := by
  rw [Prod.Lex.le_iff] at h ⊢
  by_cases h0a : ca = 0 <;> by_cases h0b : cb = 0
  · rw [if_neg (by simp [h0a]), if_neg (by simp [h0b])] at h
    rw [if_neg (by simp [h0a]), if_neg (by simp [h0b])]
    rcases h with h | ⟨_, h⟩
    · exact absurd h (by omega)
    · exact Or.inr ⟨rfl, h⟩
  · rw [if_neg (by simp [h0a]), if_pos h0b] at h
    rcases h with h | ⟨h, _⟩ <;> omega
  · rw [if_pos h0a, if_neg (by simp [h0b])]
    exact Or.inl (by omega)
  · rw [if_pos h0a, if_pos h0b] at h
    rw [if_pos h0a, if_pos h0b]
    rcases h with h | ⟨_, h⟩
    · exact absurd h (by omega)
    · exact Or.inr ⟨rfl, h⟩

/-- For profiles with at most one primary subject, the code's sort key
`(count if count else 999, name, id)` implies the spec's order
(has-primary first, name, id). -/
theorem allocationSequenceKey_le_spec (a b : TeacherProfile)
    (ha : a.subject_count ≤ 1) (hb : b.subject_count ≤ 1)
    (h : allocationSequenceKey a ≤ allocationSequenceKey b) : specAllocOrder a b := by
  unfold allocationSequenceKey at h
  unfold specAllocOrder
  exact lex_indicator_mono _ _ _ _ ha hb h

/-- Built profiles carry at most one primary subject
(`main.py:374–377`: `primary_subject_keys = ranked[:1]`). -/
theorem buildTeacherProfiles_subject_count_le
    (subject_demand_map : List (String × DemandEntry)) (st : TeacherSubjectState)
    (teachers : List Teacher) :
    ∀ p ∈ buildTeacherProfiles subject_demand_map st teachers,
      p.subject_count ≤ 1 := by
  intro p hp
  simp only [buildTeacherProfiles, List.mem_map] at hp
  obtain ⟨t, _, rfl⟩ := hp
  have hm : ∀ l : List String,
      (match l with | [] => ([] : List String) | k :: _ => [k]).length ≤ 1 := by
    intro l
    cases l <;> simp
  exact hm _

theorem map_getD_range {α : Type} (l : List α) (d : α) :
    (List.range l.length).map (fun i => l.getD i d) = l := by
  apply List.ext_getElem
  · simp
  · intro i h1 h2
    simp [List.getD_eq_getElem?_getD, List.getElem?_eq_getElem h2]

/-- The allocation sequence processes exactly the input profiles. -/
theorem allocSequenceProfiles_perm (tp : List TeacherProfile) :
    (allocSequenceProfiles tp).Perm tp := by
  have h1 : (allocationSequenceIdx tp).Perm (List.range tp.length) :=
    sortByKey_perm _ _
  have h2 := h1.map (fun i => tp.getD i blankProfile)
  rw [map_getD_range] at h2
  exact h2

/-- The allocation sequence is sorted by the code's sort key. -/
theorem allocSequenceProfiles_sortedKey (tp : List TeacherProfile) :
    (allocSequenceProfiles tp).Pairwise (keyLE allocationSequenceKey) := by
  have h := sortByKey_sorted
    (fun i => allocationSequenceKey (tp.getD i blankProfile))
    (List.range tp.length)
  exact List.Pairwise.map _ (fun a b hab => hab) h

/-- The allocation sequence of built profiles is sorted exactly as the spec
describes the processing order. -/
theorem allocSequence_built_sorted
    (subject_demand_map : List (String × DemandEntry)) (st : TeacherSubjectState)
    (teachers : List Teacher) :
    (allocSequenceProfiles
      (buildTeacherProfiles subject_demand_map st teachers)).Pairwise
      specAllocOrder := by
  have hs := allocSequenceProfiles_sortedKey
    (buildTeacherProfiles subject_demand_map st teachers)
  refine List.Pairwise.imp_of_mem ?_ hs
  intro a b hamem hbmem hr
  have ha := buildTeacherProfiles_subject_count_le subject_demand_map st teachers a
    ((allocSequenceProfiles_perm _).mem_iff.mp hamem)
  have hb := buildTeacherProfiles_subject_count_le subject_demand_map st teachers b
    ((allocSequenceProfiles_perm _).mem_iff.mp hbmem)
  exact allocationSequenceKey_le_spec a b ha hb hr

/-- Two sorted lists that are permutations of each other are equal when
their sort keys are pairwise distinct. -/
theorem sorted_nodupkeys_perm_eq {α β : Type} [LinearOrder β] (key : α → β) :
    ∀ (l1 l2 : List α), l1.Perm l2 → l1.Pairwise (keyLE key) →
      l2.Pairwise (keyLE key) → (l1.map key).Nodup → l1 = l2 := by
  intro l1
  induction l1 with
  | nil =>
    intro l2 hp _ _ _
    exact (List.Perm.eq_nil hp.symm).symm
  | cons a t1 ih =>
    intro l2 hp hs1 hs2 hnd
    cases l2 with
    | nil => exact absurd (List.Perm.eq_nil hp) (by simp)
    | cons b t2 =>
      by_cases hab : a = b
      · subst hab
        have ht : t1.Perm t2 := hp.cons_inv
        rw [List.map_cons] at hnd
        rw [ih t2 ht hs1.of_cons hs2.of_cons hnd.of_cons]
      · exfalso
        have hamem : a ∈ b :: t2 := hp.mem_iff.mp (List.mem_cons_self _ _)
        have hbmem : b ∈ a :: t1 := hp.mem_iff.mpr (List.mem_cons_self _ _)
        have ha2 : a ∈ t2 := by
          rcases List.mem_cons.mp hamem with h | h
          · exact absurd h hab
          · exact h
        have hb1 : b ∈ t1 := by
          rcases List.mem_cons.mp hbmem with h | h
          · exact absurd h.symm hab
          · exact h
        have h1 : key a ≤ key b := List.rel_of_pairwise_cons hs1 hb1
        have h2 : key b ≤ key a := List.rel_of_pairwise_cons hs2 ha2
        have hk : key a = key b := le_antisymm h1 h2
        rw [List.map_cons] at hnd
        exact (List.nodup_cons.mp hnd).1
          (hk ▸ List.mem_map_of_mem key hb1)

/-- Distinct teacher ids make the allocation sequence independent of the
input list order. -/
theorem allocSequenceProfiles_eq_of_perm (tp1 tp2 : List TeacherProfile)
    (hperm : tp1.Perm tp2)
    (hnodup : (tp1.map (fun p => p.teacher.id)).Nodup) :
    allocSequenceProfiles tp1 = allocSequenceProfiles tp2 := by
  have hkeys : (tp1.map allocationSequenceKey).Nodup := by
    have hmm : tp1.map (fun p => p.teacher.id) =
        (tp1.map allocationSequenceKey).map (fun k => (ofLex (ofLex k).2).2) := by
      rw [List.map_map]
      apply List.map_congr_left
      intro p _
      rfl
    rw [hmm] at hnodup
    exact hnodup.of_map _
  have hperm' : (allocSequenceProfiles tp1).Perm (allocSequenceProfiles tp2) :=
    (allocSequenceProfiles_perm tp1).trans
      (hperm.trans (allocSequenceProfiles_perm tp2).symm)
  refine sorted_nodupkeys_perm_eq allocationSequenceKey _ _ hperm'
    (allocSequenceProfiles_sortedKey tp1) (allocSequenceProfiles_sortedKey tp2) ?_
  exact (((allocSequenceProfiles_perm tp1).map allocationSequenceKey).nodup_iff).mpr
    hkeys

/-- The allocation pass in sequence-value form: exactly Python's
`for profile in allocation_sequence` (`main.py:426–515`), returning the
final remaining map and the processed profiles in processing order. -/
def allocOutsF (subject_demand_map : List (String × DemandEntry)) :
    List TeacherProfile → List (String × Nat) →
      List (String × Nat) × List TeacherProfile
  | [], rem => (rem, [])
  | p :: ps, rem =>
    let r := processProfile subject_demand_map rem p
    let rest := allocOutsF subject_demand_map ps r.1
    (rest.1, r.2 :: rest.2)

theorem allocOutsF_cons (subject_demand_map : List (String × DemandEntry))
    (p : TeacherProfile) (ps : List TeacherProfile) (rem : List (String × Nat)) :
    allocOutsF subject_demand_map (p :: ps) rem =
      ((allocOutsF subject_demand_map ps
          (processProfile subject_demand_map rem p).1).1,
       (processProfile subject_demand_map rem p).2 ::
         (allocOutsF subject_demand_map ps
           (processProfile subject_demand_map rem p).1).2) := rfl

theorem runAllocationStep_eq (subject_demand_map : List (String × DemandEntry))
    (rem : List (String × Nat)) (cur : List TeacherProfile) (i : Nat)
    (h : i < cur.length) :
    runAllocationStep subject_demand_map (rem, cur) i =
      ((processProfile subject_demand_map rem (cur.getD i blankProfile)).1,
       cur.set i
         (processProfile subject_demand_map rem (cur.getD i blankProfile)).2) := by
  have hget : cur.get? i = some (cur.getD i blankProfile) := by
    rw [List.get?_eq_getElem?, List.getElem?_eq_getElem h,
      List.getD_eq_getElem?_getD, List.getElem?_eq_getElem h]
    rfl
  simp only [runAllocationStep, hget]

/-- The indexed in-place fold of the allocator agrees with the
sequence-value pass: same final remaining map, and the final profile list
is — as a multiset — the original list with the processed positions
replaced by their processed versions. -/
theorem runAllocFold_spec (subject_demand_map : List (String × DemandEntry)) :
    ∀ (idx : List Nat), idx.Nodup →
      ∀ (cur : List TeacherProfile) (rem : List (String × Nat)),
        (∀ i ∈ idx, i < cur.length) →
        (idx.foldl (runAllocationStep subject_demand_map) (rem, cur)).1 =
          (allocOutsF subject_demand_map
            (idx.map (fun i => cur.getD i blankProfile)) rem).1 ∧
        ((idx.foldl (runAllocationStep subject_demand_map) (rem, cur)).2 ++
            idx.map (fun i => cur.getD i blankProfile)).Perm
          ((allocOutsF subject_demand_map
            (idx.map (fun i => cur.getD i blankProfile)) rem).2 ++ cur) := by
  intro idx
  induction idx with
  | nil =>
    intro _ cur rem _
    exact ⟨rfl, by simp [allocOutsF]⟩
  | cons i idx ih =>
    intro hnd cur rem hb
    have hi : i < cur.length := hb i (List.mem_cons_self _ _)
    rw [List.foldl_cons, List.map_cons,
      runAllocationStep_eq subject_demand_map rem cur i hi, allocOutsF_cons]
    obtain ⟨hnd1, hnd2⟩ := List.nodup_cons.mp hnd
    obtain ⟨ih1, ih2⟩ := ih hnd2
      (cur.set i (processProfile subject_demand_map rem
        (cur.getD i blankProfile)).2)
      (processProfile subject_demand_map rem (cur.getD i blankProfile)).1
      (by
        intro j hj
        rw [List.length_set]
        exact hb j (List.mem_cons_of_mem _ hj))
    have hmapeq : idx.map (fun j =>
        (cur.set i (processProfile subject_demand_map rem
          (cur.getD i blankProfile)).2).getD j blankProfile) =
        idx.map (fun j => cur.getD j blankProfile) := by
      apply List.map_congr_left
      intro j hj
      have hji : i ≠ j := fun h => hnd1 (h ▸ hj)
      simp [List.getD_eq_getElem?_getD, List.getElem?_set_ne hji]
    rw [hmapeq] at ih1 ih2
    refine ⟨ih1, ?_⟩
    have hgetd : cur.getD i blankProfile = cur[i] := by
      simp [List.getD_eq_getElem?_getD, List.getElem?_eq_getElem hi]
    have h_set : (cur.set i (processProfile subject_demand_map rem
        (cur.getD i blankProfile)).2).Perm
        ((processProfile subject_demand_map rem (cur.getD i blankProfile)).2 ::
          (cur.take i ++ cur.drop (i + 1))) := by
      rw [List.set_eq_take_cons_drop _ hi]
      exact List.perm_middle
    have h_cur : cur.Perm
        (cur.getD i blankProfile :: (cur.take i ++ cur.drop (i + 1))) := by
      conv_lhs => rw [← List.take_append_drop i cur, List.drop_eq_getElem_cons hi]
      rw [hgetd]
      exact List.perm_middle
    have s1 : ((idx.foldl (runAllocationStep subject_demand_map)
          ((processProfile subject_demand_map rem (cur.getD i blankProfile)).1,
           cur.set i (processProfile subject_demand_map rem
             (cur.getD i blankProfile)).2)).2 ++
        (cur.getD i blankProfile :: idx.map (fun j => cur.getD j blankProfile))).Perm
        (cur.getD i blankProfile ::
          ((idx.foldl (runAllocationStep subject_demand_map)
            ((processProfile subject_demand_map rem (cur.getD i blankProfile)).1,
             cur.set i (processProfile subject_demand_map rem
               (cur.getD i blankProfile)).2)).2 ++
           idx.map (fun j => cur.getD j blankProfile))) :=
      List.perm_middle
    refine s1.trans ?_
    refine (ih2.cons (cur.getD i blankProfile)).trans ?_
    refine ((h_set.append_left _).cons (cur.getD i blankProfile)).trans ?_
    refine ((List.perm_middle).cons (cur.getD i blankProfile)).trans ?_
    refine (List.Perm.swap _ _ _).trans ?_
    refine ((List.perm_middle.symm).cons _).trans ?_
    exact ((h_cur.symm.append_left _).cons _)

/-- `runAllocation` computes the same remaining map as the sequence-value
pass, and its final profile list is a permutation of the processed
sequence outputs joined with nothing else. -/
theorem runAllocation_outs (subject_demand_map : List (String × DemandEntry))
    (rem0 : List (String × Nat)) (tp : List TeacherProfile) :
    (runAllocation subject_demand_map rem0 tp).1 =
      (allocOutsF subject_demand_map (allocSequenceProfiles tp) rem0).1 ∧
    ((runAllocation subject_demand_map rem0 tp).2 ++
        allocSequenceProfiles tp).Perm
      ((allocOutsF subject_demand_map (allocSequenceProfiles tp) rem0).2 ++ tp) := by
  have hnd := allocationSequenceIdx_nodup tp
  have hb : ∀ i ∈ allocationSequenceIdx tp, i < tp.length := by
    intro i hi
    simp only [allocationSequenceIdx] at hi
    exact List.mem_range.mp ((sortByKey_mem _).mp hi)
  exact runAllocFold_spec subject_demand_map (allocationSequenceIdx tp) hnd tp rem0 hb

/-- C7: the allocator processes teachers in a total, deterministic order —
profiles with a primary subject first, then display name ascending, then
teacher id ascending (the built profiles' allocation sequence is sorted by
exactly that order and is a permutation of the input) — and the allocation
result is a function of this order only: permuting the input profile list
(with distinct teacher ids) leaves the processing sequence and the final
remaining-demand map identical and the final profile list a permutation. -/
theorem C7_allocation_order_deterministic
    (subject_demand_map : List (String × DemandEntry)) (st : TeacherSubjectState)
    (teachers : List Teacher) (rem0 : List (String × Nat))
    (tp1 tp2 : List TeacherProfile) (hperm : tp1.Perm tp2)
    (hnodup : (tp1.map (fun p => p.teacher.id)).Nodup) :
    (allocSequenceProfiles
      (buildTeacherProfiles subject_demand_map st teachers)).Pairwise
      specAllocOrder ∧
    (allocSequenceProfiles tp1).Perm tp1 ∧
    allocSequenceProfiles tp1 = allocSequenceProfiles tp2 ∧
    (runAllocation subject_demand_map rem0 tp1).1 =
      (runAllocation subject_demand_map rem0 tp2).1 ∧
    (runAllocation subject_demand_map rem0 tp1).2.Perm
      (runAllocation subject_demand_map rem0 tp2).2 := by
  have hseq := allocSequenceProfiles_eq_of_perm tp1 tp2 hperm hnodup
  obtain ⟨r11, r12⟩ := runAllocation_outs subject_demand_map rem0 tp1
  obtain ⟨r21, r22⟩ := runAllocation_outs subject_demand_map rem0 tp2
  refine ⟨allocSequence_built_sorted _ _ _, allocSequenceProfiles_perm tp1, hseq,
    ?_, ?_⟩
  · rw [r11, r21, hseq]
  · have hchain : ((runAllocation subject_demand_map rem0 tp1).2 ++
        allocSequenceProfiles tp1).Perm
        ((runAllocation subject_demand_map rem0 tp2).2 ++
          allocSequenceProfiles tp1) := by
      refine r12.trans ?_
      rw [hseq]
      exact (List.Perm.append_left _ hperm).trans r22.symm
    exact (List.perm_append_right_iff _).mp hchain

/-- Concrete check of C7: two one-teacher profile lists in swapped order
produce the same final remaining-demand map. -/
theorem C7_witness :
    (runAllocation
      [("science", ⟨"Science", 40, 40, 0, ["1"]⟩)] [("science", 40)]
      [{ exDefaultProfile with
           teacher := ⟨1, "T1", "Alice", "", "Smith", "", 24, false, 0⟩,
           name := "Alice Smith", subject_keys := ["science"],
           eligible_subject_keys := ["science"], subject_count := 1 },
       { exDefaultProfile with
           teacher := ⟨2, "T2", "Bob", "", "Jones", "", 24, false, 0⟩,
           name := "Bob Jones", subject_keys := ["science"],
           eligible_subject_keys := ["science"], subject_count := 1 }]).1 =
    (runAllocation
      [("science", ⟨"Science", 40, 40, 0, ["1"]⟩)] [("science", 40)]
      [{ exDefaultProfile with
           teacher := ⟨2, "T2", "Bob", "", "Jones", "", 24, false, 0⟩,
           name := "Bob Jones", subject_keys := ["science"],
           eligible_subject_keys := ["science"], subject_count := 1 },
       { exDefaultProfile with
           teacher := ⟨1, "T1", "Alice", "", "Smith", "", 24, false, 0⟩,
           name := "Alice Smith", subject_keys := ["science"],
           eligible_subject_keys := ["science"], subject_count := 1 }]).1 :=
  (C7_allocation_order_deterministic
    [("science", ⟨"Science", 40, 40, 0, ["1"]⟩)] ⟨[], []⟩ [] [("science", 40)]
    _ _ (by decide) (by decide)).2.2.2.1

/-! ## C3: the hiring-gap resolver's pooling pass -/

/-- `component_with_remaining` (`main.py:568–572`): the members of the
component rooted at `root` that still carry remaining demand. -/
def componentWithRemaining (remaining : List (String × Nat))
    (g : List (String × List String)) (visited : List String) (root : String) :
    List String :=
  (dfs g [root] visited []).2.filter (fun k => 0 < alGet remaining k 0)

/-- The anchor selection as the (amended) spec words it: the first
anchor-priority entry among the component's subjects *with remaining
demand*, else the member with the greatest remaining hours (ties by
subject name). -/
def specAnchorKey (subject_demand_map : List (String × DemandEntry))
    (remaining : List (String × Nat)) (w : List String) : String :=
  match CROSS_SUBJECT_HIRING_ANCHOR_PRIORITY.find? (fun c => c ∈ w) with
  | some k => k
  | none =>
    (sortByKey (anchorFallbackKey subject_demand_map remaining) w).headD ""

theorem specAnchorKey_mem (subject_demand_map : List (String × DemandEntry))
    (remaining : List (String × Nat)) (w : List String) (hw : w ≠ []) :
    specAnchorKey subject_demand_map remaining w ∈ w := by
  unfold specAnchorKey
  cases hfind : CROSS_SUBJECT_HIRING_ANCHOR_PRIORITY.find? (fun c => c ∈ w) with
  | some k =>
    show k ∈ w
    have := List.find?_some hfind
    simpa using this
  | none =>
    show (sortByKey (anchorFallbackKey subject_demand_map remaining) w).headD "" ∈ w
    have hperm := sortByKey_perm (anchorFallbackKey subject_demand_map remaining) w
    cases hsort : sortByKey (anchorFallbackKey subject_demand_map remaining) w with
    | nil =>
      rw [hsort] at hperm
      exact absurd hperm.nil_eq.symm hw
    | cons a rest =>
      have ha : a ∈ sortByKey (anchorFallbackKey subject_demand_map remaining) w := by
        rw [hsort]
        exact List.mem_cons_self _ _
      simpa [hsort] using (sortByKey_mem _).mp ha

theorem dfsF_cons_eq (g : List (String × List String)) (fuel : Nat)
    (current : String) (stack visited component : List String) :
    dfsF g (fuel + 1) (current :: stack) visited component =
      if current ∈ visited then dfsF g fuel stack visited component
      else dfsF g fuel
        (((alGet g current []).filter (fun n => n ∉ visited)) ++ stack)
        (visited ++ [current]) (component ++ [current]) := rfl

/-- The DFS visits each key once: visited and component lists stay
duplicate-free, and the component stays inside visited. -/
theorem dfsF_nodup (g : List (String × List String)) :
    ∀ (fuel : Nat) (stack visited component : List String),
      visited.Nodup → component.Nodup → (∀ c ∈ component, c ∈ visited) →
      (dfsF g fuel stack visited component).1.Nodup ∧
      (dfsF g fuel stack visited component).2.Nodup ∧
      ∀ c ∈ (dfsF g fuel stack visited component).2,
        c ∈ (dfsF g fuel stack visited component).1 := by
  intro fuel
  induction fuel with
  | zero =>
    intro stack visited component hv hc hsub
    cases stack with
    | nil => exact ⟨hv, hc, hsub⟩
    | cons a rest => exact ⟨hv, hc, hsub⟩
  | succ fuel ih =>
    intro stack visited component hv hc hsub
    cases stack with
    | nil => exact ⟨hv, hc, hsub⟩
    | cons current rest =>
      rw [dfsF_cons_eq]
      by_cases hcv : current ∈ visited
      · rw [if_pos hcv]
        exact ih rest visited component hv hc hsub
      · rw [if_neg hcv]
        have hv' : (visited ++ [current]).Nodup := by
          rw [List.nodup_append]
          exact ⟨hv, List.nodup_singleton _, by
            intro a ha hb
            rw [List.mem_singleton] at hb
            subst hb
            exact hcv ha⟩
        have hcc : current ∉ component := fun h => hcv (hsub _ h)
        have hc' : (component ++ [current]).Nodup := by
          rw [List.nodup_append]
          exact ⟨hc, List.nodup_singleton _, by
            intro a ha hb
            rw [List.mem_singleton] at hb
            subst hb
            exact hcc ha⟩
        have hsub' : ∀ c ∈ component ++ [current], c ∈ visited ++ [current] := by
          intro c hcmem
          rcases List.mem_append.mp hcmem with h | h
          · exact List.mem_append_left _ (hsub _ h)
          · exact List.mem_append_right _ h
        exact ih _ _ _ hv' hc' hsub'

/-- The component produced by one `dfs` call is duplicate-free. -/
theorem dfs_component_nodup (g : List (String × List String))
    (visited : List String) (root : String) (hv : visited.Nodup) :
    (dfs g [root] visited []).2.Nodup :=
  (dfsF_nodup g (dfsBound g visited [root]) [root] visited [] hv
    List.nodup_nil (by simp)).2.1

/-- The per-member pooling fold writes each member's count and note
exactly as the branch for that member dictates and touches nothing else. -/
theorem poolFold_spec (anchor : String) (needed : Nat)
    (combined counted : String) (big : Prop) [Decidable big] :
    ∀ (W : List String), W.Nodup →
      ∀ ms : List (String × Nat) × List (String × String),
        (∀ k ∈ W,
          alGet (W.foldl (poolAssignStep anchor needed combined counted big) ms).1 k 0 =
            if k = anchor then needed else 0) ∧
        (∀ k, k ∉ W →
          alGet (W.foldl (poolAssignStep anchor needed combined counted big) ms).1 k 0 =
            alGet ms.1 k 0) ∧
        (∀ k ∈ W, k ≠ anchor →
          alGet (W.foldl (poolAssignStep anchor needed combined counted big) ms).2 k "" =
            counted) ∧
        (big → ∀ k ∈ W, k = anchor →
          alGet (W.foldl (poolAssignStep anchor needed combined counted big) ms).2 k "" =
            combined) ∧
        (∀ k, k ∉ W →
          alGet (W.foldl (poolAssignStep anchor needed combined counted big) ms).2 k "" =
            alGet ms.2 k "") := by
  intro W
  induction W with
  | nil =>
    intro _ ms
    exact ⟨fun k hk => absurd hk (by simp), fun k _ => rfl,
      fun k hk => absurd hk (by simp), fun _ k hk => absurd hk (by simp),
      fun k _ => rfl⟩
  | cons k0 W ih =>
    intro hnd ms
    obtain ⟨hk0, hndW⟩ := List.nodup_cons.mp hnd
    obtain ⟨i1, i2, i3, i4, i5⟩ := ih hndW
      (poolAssignStep anchor needed combined counted big ms k0)
    rw [List.foldl_cons]
    have hstep1 : ∀ k, k ≠ k0 →
        alGet (poolAssignStep anchor needed combined counted big ms k0).1 k 0 =
          alGet ms.1 k 0 := by
      intro k hk
      unfold poolAssignStep
      by_cases h : k0 = anchor
      · rw [if_pos h]
        exact alGet_alSet_ne _ _ _ _ _ hk
      · rw [if_neg h]
        exact alGet_alSet_ne _ _ _ _ _ hk
    have hstep2 : ∀ k, k ≠ k0 →
        alGet (poolAssignStep anchor needed combined counted big ms k0).2 k "" =
          alGet ms.2 k "" := by
      intro k hk
      unfold poolAssignStep
      by_cases h : k0 = anchor
      · rw [if_pos h]
        dsimp only
        by_cases hbig : big
        · rw [if_pos hbig]
          exact alGet_alSet_ne _ _ _ _ _ hk
        · rw [if_neg hbig]
      · rw [if_neg h]
        exact alGet_alSet_ne _ _ _ _ _ hk
    refine ⟨?_, ?_, ?_, ?_, ?_⟩
    · intro k hk
      rcases List.mem_cons.mp hk with rfl | hk'
      · rw [i2 k hk0]
        unfold poolAssignStep
        by_cases h : k = anchor
        · rw [if_pos h, if_pos h]
          exact alGet_alSet_self _ _ _ _
        · rw [if_neg h, if_neg h]
          exact alGet_alSet_self _ _ _ _
      · exact i1 k hk'
    · intro k hk
      have hk' : k ∉ W := fun h => hk (List.mem_cons_of_mem _ h)
      have hkne : k ≠ k0 := fun h => hk (h ▸ List.mem_cons_self _ _)
      rw [i2 k hk', hstep1 k hkne]
    · intro k hk hka
      rcases List.mem_cons.mp hk with rfl | hk'
      · rw [i5 k hk0]
        unfold poolAssignStep
        rw [if_neg hka]
        exact alGet_alSet_self _ _ _ _
      · exact i3 k hk' hka
    · intro hbig k hk hka
      rcases List.mem_cons.mp hk with rfl | hk'
      · rw [i5 k hk0]
        unfold poolAssignStep
        rw [if_pos hka]
        dsimp only
        rw [if_pos hbig]
        exact alGet_alSet_self _ _ _ _
      · exact i4 hbig k hk' hka
    · intro k hk
      have hk' : k ∉ W := fun h => hk (List.mem_cons_of_mem _ h)
      have hkne : k ≠ k0 := fun h => hk (h ▸ List.mem_cons_self _ _)
      rw [i5 k hk', hstep2 k hkne]

theorem independentGapStep_pooled (st : ResolverState) (q : String × Nat) :
    (independentGapStep st q).pooled = st.pooled := by
  unfold independentGapStep
  split <;> rfl

theorem independentGapStep_addMap_ne (st : ResolverState) (q : String × Nat)
    (k : String) (h : k ≠ q.1) :
    alGet (independentGapStep st q).addMap k 0 = alGet st.addMap k 0 := by
  unfold independentGapStep
  split
  · rfl
  · dsimp only
    exact alGet_alSet_ne _ _ _ _ _ h

theorem independentGapStep_addMap_self (st : ResolverState) (q : String × Nat)
    (hpos : 0 < q.2) (hpool : q.1 ∉ st.pooled) :
    alGet (independentGapStep st q).addMap q.1 0 =
      ceilDiv q.2 REPORT_STANDARD_MAX_HOURS := by
  unfold independentGapStep
  rw [if_neg (by
    intro h
    rcases h with h | h
    · omega
    · exact hpool h)]
  dsimp only
  exact alGet_alSet_self _ _ _ _

/-- The independent pass (`main.py:622–630`): pooling is untouched, keys
outside the remaining map are untouched, and every positive-remaining
subject outside the pooled set is assigned `ceil(remaining / 24)`. -/
theorem applyIndependentGaps_spec (remaining : List (String × Nat)) :
    ∀ (st : ResolverState),
      ((applyIndependentGaps remaining st).pooled = st.pooled) ∧
      (∀ k, (∀ q ∈ remaining, q.1 ≠ k) →
        alGet (applyIndependentGaps remaining st).addMap k 0 =
          alGet st.addMap k 0) ∧
      (NodupKeys remaining →
        ∀ p ∈ remaining, 0 < p.2 → p.1 ∉ st.pooled →
          alGet (applyIndependentGaps remaining st).addMap p.1 0 =
            ceilDiv p.2 REPORT_STANDARD_MAX_HOURS) := by
  induction remaining with
  | nil =>
    intro st
    exact ⟨rfl, fun k _ => rfl, fun _ p hp => absurd hp (by simp)⟩
  | cons q rest ih =>
    intro st
    obtain ⟨i1, i2, i3⟩ := ih (independentGapStep st q)
    have hunfold : applyIndependentGaps (q :: rest) st =
        applyIndependentGaps rest (independentGapStep st q) := rfl
    rw [hunfold]
    refine ⟨i1.trans (independentGapStep_pooled st q), ?_, ?_⟩
    · intro k hk
      rw [i2 k (fun r hr => hk r (List.mem_cons_of_mem _ hr))]
      exact independentGapStep_addMap_ne st q k
        (fun h => hk q (List.mem_cons_self _ _) h.symm)
    · intro hnd p hp hpos hpool
      have hndkeys : q.1 ∉ alKeys rest ∧ NodupKeys rest := by
        unfold NodupKeys at hnd
        unfold alKeys at hnd ⊢
        rw [List.map_cons] at hnd
        exact ⟨(List.nodup_cons.mp hnd).1, (List.nodup_cons.mp hnd).2⟩
      rcases List.mem_cons.mp hp with rfl | hp'
      · rw [i2 p.1 (by
          intro r hr h
          exact hndkeys.1 (h ▸ List.mem_map_of_mem (fun x => x.1) hr))]
        exact independentGapStep_addMap_self st p hpos hpool
      · refine i3 hndkeys.2 p hp' hpos ?_
        rw [independentGapStep_pooled st q]
        exact hpool

/-- One pooled component, characterised: under the (amended) anchor rule
the whole component count goes to the anchor chosen among the members
*with remaining demand*; everyone else with remaining gets 0 plus the
counted note; totals and pooling accumulate; other keys are untouched. -/
theorem resolveComponentsStep_spec
    (subject_demand_map : List (String × DemandEntry))
    (remaining : List (String × Nat)) (g : List (String × List String))
    (st : ResolverState) (root : String)
    (hroot : root ∉ st.visited) (hvis : st.visited.Nodup)
    (hW : componentWithRemaining remaining g st.visited root ≠ []) :
    (∀ k ∈ componentWithRemaining remaining g st.visited root,
      alGet (resolveComponentsStep subject_demand_map remaining g st root).addMap k 0 =
        if k = specAnchorKey subject_demand_map remaining
            (componentWithRemaining remaining g st.visited root) then
          ceilDiv (((componentWithRemaining remaining g st.visited root).map
            (fun k => alGet remaining k 0)).sum) REPORT_STANDARD_MAX_HOURS
        else 0) ∧
    specAnchorKey subject_demand_map remaining
        (componentWithRemaining remaining g st.visited root) ∈
      componentWithRemaining remaining g st.visited root ∧
    (∀ k ∈ componentWithRemaining remaining g st.visited root,
      k ≠ specAnchorKey subject_demand_map remaining
        (componentWithRemaining remaining g st.visited root) →
      alGet (resolveComponentsStep subject_demand_map remaining g st root).noteMap k "" =
        "Counted in " ++ demandName subject_demand_map
          (specAnchorKey subject_demand_map remaining
            (componentWithRemaining remaining g st.visited root)) ++
          " combined pool.") ∧
    (1 < (componentWithRemaining remaining g st.visited root).length →
      alGet (resolveComponentsStep subject_demand_map remaining g st root).noteMap
        (specAnchorKey subject_demand_map remaining
          (componentWithRemaining remaining g st.visited root)) "" =
        "Combined hiring pool: " ++ String.intercalate ", "
          (sortByKey (fun name => name.data)
            ((componentWithRemaining remaining g st.visited root).map
              (demandName subject_demand_map)))) ∧
    (resolveComponentsStep subject_demand_map remaining g st root).totalAdditional =
      st.totalAdditional +
        ceilDiv (((componentWithRemaining remaining g st.visited root).map
          (fun k => alGet remaining k 0)).sum) REPORT_STANDARD_MAX_HOURS ∧
    (resolveComponentsStep subject_demand_map remaining g st root).pooled =
      st.pooled ++ componentWithRemaining remaining g st.visited root ∧
    (∀ k, k ∉ componentWithRemaining remaining g st.visited root →
      alGet (resolveComponentsStep subject_demand_map remaining g st root).addMap k 0 =
        alGet st.addMap k 0) := by
  have hW' : ¬ ((dfs g [root] st.visited []).2.filter
      (fun k => 0 < alGet remaining k 0) = []) := hW
  have hstep : resolveComponentsStep subject_demand_map remaining g st root =
      { addMap := ((componentWithRemaining remaining g st.visited root).foldl
          (poolAssignStep
            (specAnchorKey subject_demand_map remaining
              (componentWithRemaining remaining g st.visited root))
            (ceilDiv (((componentWithRemaining remaining g st.visited root).map
              (fun k => alGet remaining k 0)).sum) REPORT_STANDARD_MAX_HOURS)
            ("Combined hiring pool: " ++ String.intercalate ", "
              (sortByKey (fun name => name.data)
                ((componentWithRemaining remaining g st.visited root).map
                  (demandName subject_demand_map))))
            ("Counted in " ++ demandName subject_demand_map
              (specAnchorKey subject_demand_map remaining
                (componentWithRemaining remaining g st.visited root)) ++
              " combined pool.")
            (1 < (componentWithRemaining remaining g st.visited root).length))
          (st.addMap, st.noteMap)).1
        noteMap := ((componentWithRemaining remaining g st.visited root).foldl
          (poolAssignStep
            (specAnchorKey subject_demand_map remaining
              (componentWithRemaining remaining g st.visited root))
            (ceilDiv (((componentWithRemaining remaining g st.visited root).map
              (fun k => alGet remaining k 0)).sum) REPORT_STANDARD_MAX_HOURS)
            ("Combined hiring pool: " ++ String.intercalate ", "
              (sortByKey (fun name => name.data)
                ((componentWithRemaining remaining g st.visited root).map
                  (demandName subject_demand_map))))
            ("Counted in " ++ demandName subject_demand_map
              (specAnchorKey subject_demand_map remaining
                (componentWithRemaining remaining g st.visited root)) ++
              " combined pool.")
            (1 < (componentWithRemaining remaining g st.visited root).length))
          (st.addMap, st.noteMap)).2
        pooled := st.pooled ++ componentWithRemaining remaining g st.visited root
        totalAdditional := st.totalAdditional +
          ceilDiv (((componentWithRemaining remaining g st.visited root).map
            (fun k => alGet remaining k 0)).sum) REPORT_STANDARD_MAX_HOURS
        visited := (dfs g [root] st.visited []).1 } := by
    simp only [resolveComponentsStep, componentWithRemaining, specAnchorKey,
      if_neg hroot, if_neg hW']
  have hWnodup : (componentWithRemaining remaining g st.visited root).Nodup :=
    (dfs_component_nodup g st.visited root hvis).filter _
  obtain ⟨p1, p2, p3, p4, p5⟩ := poolFold_spec
    (specAnchorKey subject_demand_map remaining
      (componentWithRemaining remaining g st.visited root))
    (ceilDiv (((componentWithRemaining remaining g st.visited root).map
      (fun k => alGet remaining k 0)).sum) REPORT_STANDARD_MAX_HOURS)
    ("Combined hiring pool: " ++ String.intercalate ", "
      (sortByKey (fun name => name.data)
        ((componentWithRemaining remaining g st.visited root).map
          (demandName subject_demand_map))))
    ("Counted in " ++ demandName subject_demand_map
      (specAnchorKey subject_demand_map remaining
        (componentWithRemaining remaining g st.visited root)) ++
      " combined pool.")
    (1 < (componentWithRemaining remaining g st.visited root).length)
    (componentWithRemaining remaining g st.visited root) hWnodup
    (st.addMap, st.noteMap)
  have hanchor := specAnchorKey_mem subject_demand_map remaining
    (componentWithRemaining remaining g st.visited root) hW
  rw [hstep]
  exact ⟨p1, hanchor, p3, fun hbig => p4 hbig _ hanchor rfl, rfl, rfl, p2⟩

/-- Counterexample input to C3: English (weekly 24) fully covered by one
teacher, its rule-linked Social Studies English (weekly 10) left
uncovered. -/
def exC3Subjects : List Subject :=
  [⟨"EN", "English", 24, "1"⟩, ⟨"SSE", "Social Studies English", 10, "1"⟩]

def exC3Sections : List PlanningSection := [⟨"1", "A", "Current"⟩]

def exC3Teachers : List Teacher := [⟨1, "T1", "Ann", "", "Lee", "EN", 24, false, 0⟩]

def exC3Allocs : List TeacherSubjectAllocation := [⟨1, "EN"⟩]

def exC3Ctx : ReportingContext :=
  buildReportingContext exC3Subjects exC3Sections exC3Teachers exC3Allocs

/-- Scenario D input: the same two subjects with no teachers at all. -/
def exC3CtxD : ReportingContext :=
  buildReportingContext
    [⟨"EN", "English", 30, "1"⟩, ⟨"SSE", "Social Studies English", 10, "1"⟩]
    exC3Sections [] []

/-- C3 counterexample: the rule-graph component rooted at `english` is
exactly {english, social studies english} and `english` heads the fixed
anchor-priority list, so the claim's anchor — a priority entry present in
the *component* — is `english`; yet with english's demand fully covered
(remaining 0) and social studies english left at 10, the engine assigns
the pooled count ceil(10/24) = 1 to social studies english (with no note)
and gives english 0: the anchor is in fact drawn only from the component
members with remaining demand, not from the whole component. -/
theorem C3_counterexample :
    (dfs (ruleSubjectGraph exC3Ctx.subject_demand_map) ["english"] [] []).2 =
      ["english", "social studies english"] ∧
    CROSS_SUBJECT_HIRING_ANCHOR_PRIORITY.head? = some "english" ∧
    alGet exC3Ctx.remaining_hours_by_subject "english" 0 = 0 ∧
    alGet exC3Ctx.remaining_hours_by_subject "social studies english" 0 = 10 ∧
    alGet exC3Ctx.resolver.addMap "english" 0 = 0 ∧
    alGet exC3Ctx.resolver.addMap "social studies english" 0 = 1 ∧
    alGet exC3Ctx.resolver.noteMap "social studies english" "" = "" ∧
    exC3Ctx.resolver.totalAdditional = 1 := by decide

/-- C3 (amended): for every pooled component the count is
`ceil(Σ remaining / 24)`, assigned in full to the anchor chosen — among the
component's subjects *with remaining demand* — by the fixed priority list,
else by greatest remaining hours with subject-name tie-break; every other
member with remaining gets 0 with a pooling note (the anchor gets the
combined-pool note when the pool has several members); keys outside the
pool keep their counts, and positive-remaining subjects outside any pooled
component get `ceil(remaining / 24)` independently. Scenario D and the
counterexample input are checked end to end under the amended rule. -/
theorem C3_amended_anchor_from_remaining
    (subject_demand_map : List (String × DemandEntry))
    (remaining : List (String × Nat)) (g : List (String × List String))
    (st : ResolverState) (root : String)
    (hroot : root ∉ st.visited) (hvis : st.visited.Nodup)
    (hW : componentWithRemaining remaining g st.visited root ≠ []) :
    (∀ k ∈ componentWithRemaining remaining g st.visited root,
      alGet (resolveComponentsStep subject_demand_map remaining g st root).addMap k 0 =
        if k = specAnchorKey subject_demand_map remaining
            (componentWithRemaining remaining g st.visited root) then
          ceilDiv (((componentWithRemaining remaining g st.visited root).map
            (fun k => alGet remaining k 0)).sum) REPORT_STANDARD_MAX_HOURS
        else 0) ∧
    specAnchorKey subject_demand_map remaining
        (componentWithRemaining remaining g st.visited root) ∈
      componentWithRemaining remaining g st.visited root ∧
    (∀ k ∈ componentWithRemaining remaining g st.visited root,
      k ≠ specAnchorKey subject_demand_map remaining
        (componentWithRemaining remaining g st.visited root) →
      alGet (resolveComponentsStep subject_demand_map remaining g st root).noteMap k "" =
        "Counted in " ++ demandName subject_demand_map
          (specAnchorKey subject_demand_map remaining
            (componentWithRemaining remaining g st.visited root)) ++
          " combined pool.") ∧
    (resolveComponentsStep subject_demand_map remaining g st root).totalAdditional =
      st.totalAdditional +
        ceilDiv (((componentWithRemaining remaining g st.visited root).map
          (fun k => alGet remaining k 0)).sum) REPORT_STANDARD_MAX_HOURS ∧
    (resolveComponentsStep subject_demand_map remaining g st root).pooled =
      st.pooled ++ componentWithRemaining remaining g st.visited root ∧
    (∀ st' : ResolverState, NodupKeys remaining →
      ∀ p ∈ remaining, 0 < p.2 → p.1 ∉ st'.pooled →
        alGet (applyIndependentGaps remaining st').addMap p.1 0 =
          ceilDiv p.2 REPORT_STANDARD_MAX_HOURS) ∧
    (exC3CtxD.subject_rows.map (fun r => (r.subject_name, r.remaining_hours,
        r.additional_teachers_needed, r.additional_teachers_note)) =
      [("English", 30, 2, "Combined hiring pool: English, Social Studies English"),
       ("Social Studies English", 10, 0, "Counted in English combined pool.")] ∧
      exC3CtxD.resolver.totalAdditional = 2) ∧
    (exC3Ctx.subject_rows.map (fun r => (r.subject_name, r.remaining_hours,
        r.additional_teachers_needed, r.additional_teachers_note)) =
      [("Social Studies English", 10, 1, ""), ("English", 0, 0, "")]) := by
  obtain ⟨c1, c2, c3, _, c5, c6, c7⟩ :=
    resolveComponentsStep_spec subject_demand_map remaining g st root hroot hvis hW
  refine ⟨c1, c2, c3, c5, c6, ?_, by decide, by decide⟩
  intro st' hnd p hp hpos hpool
  exact (applyIndependentGaps_spec remaining st').2.2 hnd p hp hpos hpool

/-- Concrete check of the amended C3 on scenario D's component: the pooled
count of the english component is 2 and is accounted on top of an empty
resolver state. -/
theorem C3_amended_witness :
    (resolveComponentsStep exC3CtxD.subject_demand_map
        exC3CtxD.remaining_hours_by_subject
        (ruleSubjectGraph exC3CtxD.subject_demand_map)
        ⟨[], [], [], 0, []⟩ "english").totalAdditional =
      (⟨[], [], [], 0, []⟩ : ResolverState).totalAdditional +
        ceilDiv (((componentWithRemaining exC3CtxD.remaining_hours_by_subject
          (ruleSubjectGraph exC3CtxD.subject_demand_map)
          (⟨[], [], [], 0, []⟩ : ResolverState).visited "english").map
            (fun k => alGet exC3CtxD.remaining_hours_by_subject k 0)).sum)
          REPORT_STANDARD_MAX_HOURS :=
  (C3_amended_anchor_from_remaining exC3CtxD.subject_demand_map
    exC3CtxD.remaining_hours_by_subject
    (ruleSubjectGraph exC3CtxD.subject_demand_map)
    ⟨[], [], [], 0, []⟩ "english"
    (by decide) (by decide) (by decide)).2.2.2.1

end TIS
